import Mathlib

/-!
# ReverseGcodePerimeters: a shallow embedding of `src/main.cpp`

The program rewrites a G-code file so that every perimeter block is printed
in the reverse direction.  This file embeds its four layers

* `updateMovement`         (the line-to-state fold),
* `interpretBwdMovement`   (the line synthesizer),
* `reverseMovementList`    (the block reverser),
* `processStartEnd`, `processOutsidePerimeters`, `processIternalPerimeters`
  and the loop of `main` (the stream segmenter),

and proves properties of them.

## Modelling conventions

* A `std::string` is a `List Char` (`Line`); the input stream is the list of
  its lines, as `getline` delivers them.
* A C++ `float` / `double` is an exact finite decimal `Dec` (`mant / 10^exp`).
  Binary rounding, range limits, signed zeros, infinities and NaN are outside
  the model;
  `std::stof` / `std::stod` read the decimal grammar of `strtod`
  (blanks, sign, digits, fraction, exponent) and the hexadecimal, `inf` and
  `nan` spellings are not modelled.
* A C++ exception that nothing catches is the result `none`.
* `sscanf("G%d")` and the cast `(int)` yield unbounded integers: overflow,
  which C++ leaves undefined, is outside the model.
-/

namespace ReverseGcode

/-! ## Text -/

/-- A line of text (`std::string`). -/
abbrev Line := List Char

/-- The test `line.find(pre) == 0`: the line begins with `pre`. -/
def startsWith (pre : String) (line : Line) : Bool :=
  pre.toList.isPrefixOf line

/-- The call `line.substr(n)` for `n` within the line. -/
def substr (n : Nat) (line : Line) : Line :=
  line.drop n

/-- The call `line.find(p)` for a character: the index of the first
occurrence, `none` standing for `npos`. -/
def strFind (p : Char) : Line → Option Nat
  | [] => none
  | c :: cs => if c = p then some 0 else (strFind p cs).map (· + 1)

/-- The C predicate `isspace` in the default locale. -/
def isSpace (c : Char) : Bool :=
  c = ' ' || c = '\t' || c = '\n' || c = '\x0b' || c = '\x0c' || c = '\r'

/-- The C predicate `isdigit`. -/
def isDigit (c : Char) : Bool :=
  decide (48 ≤ c.toNat) && decide (c.toNat ≤ 57)

/-! ## Numbers -/

/-- An exact finite decimal: the value `mant / 10^exp`.  It stands for the
C++ `float` and `double` values of the program. -/
structure Dec where
  mant : Int
  exp : Nat
deriving DecidableEq

namespace Dec

/-- The literal `0`. -/
def zero : Dec := ⟨0, 0⟩

/-- The integer `i` as a number. -/
def ofInt (i : Int) : Dec := ⟨i, 0⟩

/-- The comparison `a != b` on values. -/
def ne (a b : Dec) : Bool :=
  a.mant * 10 ^ b.exp != b.mant * 10 ^ a.exp

/-- The sum `a + b`. -/
def add (a b : Dec) : Dec :=
  ⟨a.mant * 10 ^ b.exp + b.mant * 10 ^ a.exp, a.exp + b.exp⟩

/-- The difference `a - b`. -/
def sub (a b : Dec) : Dec :=
  ⟨a.mant * 10 ^ b.exp - b.mant * 10 ^ a.exp, a.exp + b.exp⟩

/-- The value truncated towards zero, as an integer of any size. -/
def trunc (a : Dec) : Int :=
  if a.mant < 0 then -((a.mant.natAbs / 10 ^ a.exp : Nat) : Int)
  else ((a.mant.natAbs / 10 ^ a.exp : Nat) : Int)

/-- The cast `(int)a` to the 32-bit `int`: truncation towards zero when the
truncated value lies between -2147483648 and 2147483647.  Outside that range
the conversion is not defined by the language; the value taken here is the
one the conversion instruction of the x86 processors gives, -2147483648. -/
def toInt (a : Dec) : Int :=
  if -2147483648 ≤ a.trunc ∧ a.trunc ≤ 2147483647 then a.trunc else -2147483648

end Dec

/-- The decimal digit `d` as a character. -/
def digitChar (d : Nat) : Char :=
  Char.ofNat (48 + d % 10)

/-- The digits of `n`, most significant first; `fuel` bounds their number. -/
def natDigits : Nat → Nat → Line
  | 0, _ => []
  | fuel + 1, n =>
    if n < 10 then [digitChar n] else natDigits fuel (n / 10) ++ [digitChar n]

/-- What `operator<<` prints for a non-negative integer. -/
def fmtNat (n : Nat) : Line :=
  natDigits (n + 1) n

/-- What `operator<<` prints for an `int`. -/
def fmtInt (i : Int) : Line :=
  if i < 0 then '-' :: fmtNat i.natAbs else fmtNat i.natAbs

/-- The last `p` digits of `n`, padded with zeros. -/
def fracDigits : Nat → Nat → Line
  | 0, _ => []
  | p + 1, n => fracDigits p (n / 10) ++ [digitChar n]

/-- What `operator<<` prints for a number on a stream set to `fixed` with
`setprecision(p)`: the value rounded to `p` decimals (ties to even). -/
def fmtFixed (p : Nat) (x : Dec) : Line :=
  let n := x.mant.natAbs * 10 ^ p
  let d := 10 ^ x.exp
  let q := n / d
  let r := n % d
  let q := if d < 2 * r || (2 * r == d && q % 2 == 1) then q + 1 else q
  (if x.mant < 0 then ['-'] else []) ++ fmtNat (q / 10 ^ p)
    ++ (if p = 0 then [] else '.' :: fracDigits p (q % 10 ^ p))

/-- Reads a run of decimal digits: the value accumulated on `acc`, the
number of digits read on `cnt`, and the text that follows. -/
def readDigits (acc cnt : Nat) : Line → Nat × Nat × Line
  | [] => (acc, cnt, [])
  | c :: cs =>
    if isDigit c then readDigits (acc * 10 + (c.toNat - 48)) (cnt + 1) cs
    else (acc, cnt, c :: cs)

/-- Reads an optional sign: `true` for a minus sign, and the text after. -/
def readSign : Line → Bool × Line
  | '-' :: cs => (true, cs)
  | '+' :: cs => (false, cs)
  | cs => (false, cs)

/-- Reads an optional exponent part `e[sign]digits`; `0` when there is none
or when it has no digit. -/
def readExponent : Line → Int
  | c :: cs =>
    if c = 'e' || c = 'E' then
      let (neg, cs) := readSign cs
      let (e, cnt, _) := readDigits 0 0 cs
      if cnt = 0 then 0 else if neg then -(e : Int) else (e : Int)
    else 0
  | [] => 0

/-- The number `strtod` reads at the start of `s`: blanks, an optional sign,
digits with an optional fraction, an optional exponent.  `none` when no
digit is found (no conversion). -/
def strtod (s : Line) : Option Dec :=
  let (neg, s) := readSign (s.dropWhile isSpace)
  let (ip, ni, s) := readDigits 0 0 s
  let (m, nf, s) :=
    match s with
    | '.' :: t => readDigits ip 0 t
    | _ => (ip, 0, s)
  if ni + nf = 0 then none
  else
    let e := readExponent s - (nf : Int)
    let mant : Int := if neg then -(m : Int) else (m : Int)
    if e < 0 then some ⟨mant, e.natAbs⟩ else some ⟨mant * 10 ^ e.natAbs, 0⟩

/-- The call `std::stof(s)`: `none` when it throws `std::invalid_argument`. -/
def stof (s : Line) : Option Dec := strtod s

/-- The call `std::stod(s)`, narrowed to `float`: `none` when it throws. -/
def stod (s : Line) : Option Dec := strtod s

/-- The call `sscanf(line, "G%d", &cmdNum)`: `some cmdNum` when it returns 1.
The letter must come first; `%d` skips blanks and reads a signed integer. -/
def sscanfG : Line → Option Int
  | 'G' :: rest =>
    let (neg, s) := readSign (rest.dropWhile isSpace)
    let (v, cnt, _) := readDigits 0 0 s
    if cnt = 0 then none else if neg then some (-(v : Int)) else some (v : Int)
  | _ => none

/-! ## The movement model -/

/-- The enumeration `GCodeType`. -/
inductive GCodeType where
  | G0 | G1 | G2 | G3 | NONE
deriving DecidableEq

/-- The enumeration `machineState`. -/
inductive machineState where
  | START_END | OUTSIDE_PERIMETERS | IN_PERIMETERS | EXIT
deriving DecidableEq

/-- The structure `movement`, with its default member initialisers. -/
structure movement where
  overhang : Bool := false
  lineWidth : Dec := Dec.zero
  lineHeight : Dec := Dec.zero
  endPos : Dec × Dec × Dec := (Dec.zero, Dec.zero, Dec.zero)
  type : GCodeType := GCodeType.NONE
  IJ : Dec × Dec := (Dec.zero, Dec.zero)
  acceleration : Dec := Dec.zero
  fanSpeed : Dec := Dec.zero
  speed : Dec := Dec.zero
  extrusionLength : Dec := Dec.zero
deriving DecidableEq

/-- The lambda `getParam` of `updateMovement`: the number after the first
occurrence of the letter `p`, `none` when the letter is absent or when
`stod` throws (the exception is caught there). -/
def getParam (line : Line) (p : Char) : Option Dec :=
  match strFind p line with
  | some pos => stod (substr (pos + 1) line)
  | none => none

/-- The switch of `updateMovement` on the command number. -/
def gcodeOfNum (cmdNum : Int) : Option GCodeType :=
  if cmdNum = 0 then some GCodeType.G0
  else if cmdNum = 1 then some GCodeType.G1
  else if cmdNum = 2 then some GCodeType.G2
  else if cmdNum = 3 then some GCodeType.G3
  else none

/-- The part of `updateMovement` that reads the parameters of a recognised
motion command (source lines 147 to 172). -/
def updateParams (line : Line) (m : movement) : Bool × movement :=
  let moved := false
  let (m, moved) :=
    match getParam line 'X' with
    | some val => ({ m with endPos := (val, m.endPos.2.1, m.endPos.2.2) }, true)
    | none => (m, moved)
  let (m, moved) :=
    match getParam line 'Y' with
    | some val => ({ m with endPos := (m.endPos.1, val, m.endPos.2.2) }, true)
    | none => (m, moved)
  let (m, moved) :=
    match getParam line 'Z' with
    | some val => ({ m with endPos := (m.endPos.1, m.endPos.2.1, val) }, true)
    | none => (m, moved)
  let (m, moved) :=
    match getParam line 'E' with
    | some val => ({ m with extrusionLength := val }, true)
    | none => ({ m with extrusionLength := Dec.zero }, moved)
  let m :=
    match getParam line 'F' with
    | some val => { m with speed := val }
    | none => m
  let m :=
    match getParam line 'I' with
    | some val => { m with IJ := (val, m.IJ.2) }
    | none => m
  let m :=
    match getParam line 'J' with
    | some val => { m with IJ := (m.IJ.1, val) }
    | none => m
  (moved, m)

/-- The comment branch of `updateMovement` (source lines 96 to 103): `none`
when one of the two unguarded `stof` calls throws. -/
def updateComment (line : Line) (m : movement) : Option (Bool × movement) :=
  let m :=
    if startsWith ";TYPE:" line then
      { m with overhang := decide (substr 6 line = "Overhang perimeter".toList) }
    else m
  Option.bind
    (if startsWith ";WIDTH:" line then
      (stof (substr 7 line)).map fun v => { m with lineWidth := v }
    else some m)
    fun m =>
      Option.map (fun m => (false, m))
        (if startsWith ";HEIGHT:" line then
          (stof (substr 8 line)).map fun v => { m with lineHeight := v }
        else some m)

/-- The function `updateMovement`: folds one line into the state `m` and
reports whether the line moved or extruded.  The result is `none` when an
exception leaves the function. -/
def updateMovement (line : Line) (m : movement) : Option (Bool × movement) :=
  match line with
  | [] => some (false, m)
  | c :: _ =>
    if c = ';' then updateComment line m
    else if startsWith "M204 S" line then
      (stof (substr 6 line)).map fun v => (false, { m with acceleration := v })
    else if startsWith "M106 S" line then
      (stof (substr 6 line)).map fun v => (false, { m with fanSpeed := v })
    else
      match sscanfG line with
      | some cmdNum =>
        match gcodeOfNum cmdNum with
        | some t => some (updateParams line { m with type := t })
        | none => some (false, m)
      | none => some (false, m)

/-! ## The line synthesizer -/

/-- The six state-change lines of `interpretBwdMovement` (source lines 221 to
254), each written when `current` and `next` differ in one field.  The
stream is `fixed`; its precision is 6 after these lines whether or not a
width or height line set it. -/
def changeLines (current next : movement) : List Line :=
  (if current.overhang != next.overhang then
      [";TYPE:".toList
        ++ (if current.overhang then "Overhang Perimeter".toList else "Perimeter".toList)]
    else [])
  ++ (if Dec.ne current.lineWidth next.lineWidth then
      [";WIDTH:".toList ++ fmtFixed 6 current.lineWidth]
    else [])
  ++ (if Dec.ne current.lineHeight next.lineHeight then
      [";HEIGHT:".toList ++ fmtFixed 6 current.lineHeight]
    else [])
  ++ (if Dec.ne current.acceleration next.acceleration then
      ["M204 S".toList ++ fmtInt current.acceleration.toInt]
    else [])
  ++ (if Dec.ne current.fanSpeed next.fanSpeed then
      ["M106 S".toList ++ fmtInt current.fanSpeed.toInt]
    else [])
  ++ (if Dec.ne current.speed next.speed then
      ["G1 F".toList ++ fmtInt current.speed.toInt]
    else [])

/-- The command word that the switch of `interpretBwdMovement` writes
(source lines 257 to 272); `none` when the function returns there. -/
def bwdCommand : GCodeType → Option Line
  | GCodeType.G0 => some "G0".toList
  | GCodeType.G1 => some "G1".toList
  | GCodeType.G2 => some "G3".toList
  | GCodeType.G3 => some "G2".toList
  | GCodeType.NONE => none

/-- The parameters that `interpretBwdMovement` appends to the command word
(source lines 274 to 292).  `prec` follows the precision of the stream: 6
on entry, 3 once a position was printed. -/
def motionParams (current previous : movement) : Line :=
  let prec := 6
  let (textLine, prec) :=
    if Dec.ne current.endPos.1 previous.endPos.1
        || Dec.ne current.endPos.2.1 previous.endPos.2.1 then
      (" X".toList ++ fmtFixed 3 previous.endPos.1
        ++ " Y".toList ++ fmtFixed 3 previous.endPos.2.1, 3)
    else ([], prec)
  let (textLine, prec) :=
    if Dec.ne current.endPos.2.2 previous.endPos.2.2 then
      (textLine ++ " Z".toList ++ fmtFixed 3 previous.endPos.2.2, 3)
    else (textLine, prec)
  let textLine :=
    if current.type = GCodeType.G2 ∨ current.type = GCodeType.G3 then
      let xc := Dec.add previous.endPos.1 current.IJ.1
      let yc := Dec.add previous.endPos.2.1 current.IJ.2
      let newI := Dec.sub xc current.endPos.1
      let newJ := Dec.sub yc current.endPos.2.1
      textLine ++ " I".toList ++ fmtFixed prec newI ++ " J".toList ++ fmtFixed prec newJ
    else textLine
  if Dec.ne current.extrusionLength Dec.zero then
    textLine ++ " E".toList ++ fmtFixed 5 current.extrusionLength
  else textLine

/-- The motion line of `interpretBwdMovement`: the command word followed by
its parameters; `none` when `current.type` is `NONE`. -/
def motionLine (current previous : movement) : Option Line :=
  (bwdCommand current.type).map fun cmd => cmd ++ motionParams current previous

/-- The function `interpretBwdMovement`: the state-change lines, then the
motion line when there is one. -/
def interpretBwdMovement (current previous next : movement) : List Line :=
  changeLines current next ++ (motionLine current previous).toList

/-! ## The block reverser -/

/-- The loop of `reverseMovementList` (source lines 194 to 204) over the
moves in reverse order: `it` runs from the last move down to, but not
including, the first one. -/
def reverseWalk : List movement → movement → List Line
  | [], _ => []
  | currentMovement :: rest, nextMovement =>
    match rest with
    | [] => []
    | previousMovement :: _ =>
      interpretBwdMovement currentMovement previousMovement nextMovement
        ++ reverseWalk rest currentMovement

/-- The first line of `reverseMovementList`: the transition move. -/
def openingLine (lastOriginal : movement) : Line :=
  "G0 X".toList ++ fmtFixed 3 lastOriginal.endPos.1
    ++ " Y".toList ++ fmtFixed 3 lastOriginal.endPos.2.1

/-- The closing move of `reverseMovementList`, printed on the stream that is
still `fixed` with precision 3. -/
def closingLine (lastOriginal : movement) : Line :=
  "G1".toList ++ " X ".toList ++ fmtFixed 3 lastOriginal.endPos.1
    ++ " Y ".toList ++ fmtFixed 3 lastOriginal.endPos.2.1
    ++ " Z ".toList ++ fmtFixed 3 lastOriginal.endPos.2.2
    ++ " F ".toList ++ fmtInt lastOriginal.speed.toInt

/-- The last line of `reverseMovementList`: the acceleration command. -/
def accelLine (lastOriginal : movement) : Line :=
  "M204 S".toList ++ fmtInt lastOriginal.acceleration.toInt

/-- The function `reverseMovementList`. -/
def reverseMovementList (fwdMoves : List movement) : List Line :=
  if fwdMoves.length < 2 then []
  else
    match fwdMoves.getLast? with
    | none => []
    | some lastOriginal =>
      let fwdMoves :=
        if lastOriginal.type = GCodeType.NONE then fwdMoves.dropLast else fwdMoves
      match fwdMoves.head? with
      | none => []
      | some firstOriginal =>
        let nextMovement := { firstOriginal with endPos := lastOriginal.endPos }
        [openingLine lastOriginal]
          ++ reverseWalk fwdMoves.reverse nextMovement
          ++ [closingLine lastOriginal, accelLine lastOriginal]

/-! ## The stream segmenter -/

/-- The test of source lines 55 and 81: the stop marker. -/
def isStopMarker (line : Line) : Bool :=
  startsWith "; stop printing object" line

/-- The test of source line 74: a type comment that leaves the perimeters. -/
def isTypeExit (line : Line) : Bool :=
  startsWith ";TYPE:" line
    && substr 6 line != "Perimeter".toList
    && substr 6 line != "Overhang perimeter".toList

/-- The function `processStartEnd`: the next state, the lines left in the
file and the output. -/
def processStartEnd : List Line → List Line → machineState × List Line × List Line
  | [], outputGCode => (machineState.EXIT, [], outputGCode)
  | currentLine :: file, outputGCode =>
    let outputGCode := outputGCode ++ [currentLine]
    if startsWith "; printing object" currentLine then
      (machineState.OUTSIDE_PERIMETERS, file, outputGCode)
    else processStartEnd file outputGCode

/-- The function `processOutsidePerimeters`: the next state, the lines left,
the output and the running state; `none` when `updateMovement` throws. -/
def processOutsidePerimeters :
    List Line → List Line → movement → Option (machineState × List Line × List Line × movement)
  | [], outputGCode, lastMove => some (machineState.EXIT, [], outputGCode, lastMove)
  | currentLine :: file, outputGCode, lastMove =>
    let outputGCode := outputGCode ++ [currentLine]
    match updateMovement currentLine lastMove with
    | none => none
    | some (_, lastMove) =>
      if isStopMarker currentLine then
        some (machineState.START_END, file, outputGCode, lastMove)
      else if currentLine = ";TYPE:Perimeter".toList then
        some (machineState.IN_PERIMETERS, file, outputGCode, lastMove)
      else processOutsidePerimeters file outputGCode lastMove

/-- The loop of `processIternalPerimeters` (source lines 70 to 89), with the
list `perimeterMoves` collected so far. -/
def perimeterLoop :
    List Line → List Line → movement → List movement →
      Option (machineState × List Line × List Line × movement)
  | [], outputGCode, lastMove, _ => some (machineState.EXIT, [], outputGCode, lastMove)
  | currentLine :: file, outputGCode, lastMove, perimeterMoves =>
    match updateMovement currentLine lastMove with
    | none => none
    | some (moved, lastMove) =>
      let perimeterMoves := if moved then perimeterMoves ++ [lastMove] else perimeterMoves
      if isTypeExit currentLine then
        let lastMove := { lastMove with type := GCodeType.NONE }
        let perimeterMoves := perimeterMoves ++ [lastMove]
        some (machineState.OUTSIDE_PERIMETERS, file,
          outputGCode ++ reverseMovementList perimeterMoves ++ [currentLine], lastMove)
      else if isStopMarker currentLine then
        let lastMove := { lastMove with type := GCodeType.NONE }
        let perimeterMoves := perimeterMoves ++ [lastMove]
        some (machineState.START_END, file,
          outputGCode ++ reverseMovementList perimeterMoves ++ [currentLine], lastMove)
      else perimeterLoop file outputGCode lastMove perimeterMoves

/-- The function `processIternalPerimeters`. -/
def processIternalPerimeters (file outputGCode : List Line) (lastMove : movement) :
    Option (machineState × List Line × List Line × movement) :=
  perimeterLoop file outputGCode lastMove [lastMove]

/-- How a run of the program ends. -/
inductive Outcome where
  | output (lines : List Line)
  | exception
  | outOfFuel
deriving DecidableEq

/-- The `while` loop of `main` (source lines 317 to 324); `fuel` bounds the
number of its iterations. -/
def mainLoop : Nat → machineState → List Line → List Line → movement → Outcome
  | 0, _, _, _, _ => Outcome.outOfFuel
  | fuel + 1, state, file, output, m =>
    match state with
    | machineState.START_END =>
      match processStartEnd file output with
      | (state, file, output) => mainLoop fuel state file output m
    | machineState.OUTSIDE_PERIMETERS =>
      match processOutsidePerimeters file output m with
      | none => Outcome.exception
      | some (state, file, output, m) => mainLoop fuel state file output m
    | machineState.IN_PERIMETERS =>
      match processIternalPerimeters file output m with
      | none => Outcome.exception
      | some (state, file, output, m) => mainLoop fuel state file output m
    | machineState.EXIT => Outcome.output output

/-- The lines that `main` writes for the lines `file` of its input. -/
def transform (file : List Line) : Outcome :=
  mainLoop (file.length + 2) machineState.START_END file [] {}

/-! ## Notions used to state the properties -/

/-- The characters a printed number is made of. -/
def isNumChar (c : Char) : Bool :=
  c == '-' || c == '.' || isDigit c

/-- A line that carries X/Y parameters: a `G` command in which the letters
`X` and `Y` occur. -/
def carriesXY (line : Line) : Bool :=
  decide (line.head? = some 'G' ∧ 'X' ∈ line ∧ 'Y' ∈ line)

/-- The fold of `updateMovement` over `lines` from the state `m`: the states
after the lines that reported a move, and the final state.  `none` when
`updateMovement` throws on one of the lines. -/
def foldTrace : List Line → movement → Option (List movement × movement)
  | [], m => some ([], m)
  | line :: lines, m =>
    match updateMovement line m with
    | none => none
    | some (moved, m) =>
      (foldTrace lines m).map fun r => ((if moved then [m] else []) ++ r.1, r.2)

/-- The idle sentinel that the segmenter appends to a trace. -/
def idle (m : movement) : movement :=
  { m with type := GCodeType.NONE }

/-- The text of a motion line whose X/Y target is the position of
`previous`: a two-letter `G` command, then ` X`, the x of `previous`, ` Y`,
the y of `previous`, then the other parameters. -/
def targets (previous : movement) (l : Line) : Prop :=
  ∃ d tail, l = 'G' :: d :: (" X".toList ++ fmtFixed 3 previous.endPos.1
    ++ " Y".toList ++ fmtFixed 3 previous.endPos.2.1 ++ tail)

/-- The end-to-end scenario of the specification. -/
def scenario : List Line :=
  ["; printing object".toList, "G1 X0 Y0".toList, ";TYPE:Perimeter".toList,
    "G1 X1 Y0 E1".toList, "G1 X1 Y1 E1".toList, ";TYPE:Infill".toList]

/-- The state of the scenario when the perimeter block is entered. -/
def scenarioEntry : movement :=
  { type := GCodeType.G1 }

/-- The state of the scenario after `G1 X1 Y0 E1`. -/
def scenarioMove1 : movement :=
  { type := GCodeType.G1, endPos := (⟨1, 0⟩, ⟨0, 0⟩, ⟨0, 0⟩), extrusionLength := ⟨1, 0⟩ }

/-- The state of the scenario after `G1 X1 Y1 E1`. -/
def scenarioMove2 : movement :=
  { type := GCodeType.G1, endPos := (⟨1, 0⟩, ⟨1, 0⟩, ⟨0, 0⟩), extrusionLength := ⟨1, 0⟩ }

/-- A last trace entry at (1.5, 2.25, 0.2) with feed rate 1200.5 and
acceleration 500.9. -/
def fractionalLast : movement :=
  { type := GCodeType.G1, endPos := (⟨15, 1⟩, ⟨225, 2⟩, ⟨2, 1⟩), speed := ⟨12005, 1⟩,
    acceleration := ⟨5009, 1⟩ }

/-- A state entered after a clockwise arc that ended at (1, 1). -/
def arcEntry : movement :=
  { type := GCodeType.G2, endPos := (⟨1, 0⟩, ⟨1, 0⟩, ⟨0, 0⟩), IJ := (⟨1, 0⟩, ⟨0, 0⟩) }

/-- A file in which no perimeter block starts. -/
def passThroughExample : List Line :=
  ["M107".toList, "; printing object".toList, "G1 X1 Y1 F600".toList, ";TYPE:Infill".toList,
    "M204 S500".toList, "; stop printing object".toList, "M84".toList]

/-- A move to (1.5, 2.25, 0.2) with feed rate 1200 and acceleration 500. -/
def exitMove : movement :=
  { type := GCodeType.G1, endPos := (⟨15, 1⟩, ⟨225, 2⟩, ⟨2, 1⟩), speed := ⟨1200, 0⟩,
    acceleration := ⟨500, 0⟩, extrusionLength := ⟨1, 0⟩ }

/-- The state after `G1 X1 Y0 E0.000001` read from `scenarioEntry`: a move
that extrudes a millionth. -/
def tinyExtrusionMove : movement :=
  { type := GCodeType.G1, endPos := (⟨1, 0⟩, ⟨0, 0⟩, ⟨0, 0⟩), extrusionLength := ⟨1, 6⟩ }

/-- The state after `;WIDTH:0.4500004` and `G1 X1 Y0 E1` read from
`scenarioEntry`: a move with a line width of seven decimals. -/
def fineWidthMove : movement :=
  { type := GCodeType.G1, endPos := (⟨1, 0⟩, ⟨0, 0⟩, ⟨0, 0⟩), lineWidth := ⟨4500004, 7⟩,
    extrusionLength := ⟨1, 0⟩ }

/-- A perimeter block in which the fan is switched on between two moves. -/
def fanBlock : List Line :=
  ["G1 X1 Y0 E1".toList, "M106 S255".toList, "G1 X1 Y1 E1".toList]

/-- The file of the scenario with the fan switched on inside the block. -/
def fanScenario : List Line :=
  ["; printing object".toList, "G1 X0 Y0".toList, ";TYPE:Perimeter".toList]
    ++ fanBlock ++ [";TYPE:Infill".toList]

/-- The state of `fanScenario` after `G1 X1 Y1 E1`: the fan is at 255. -/
def fanMove2 : movement :=
  { scenarioMove2 with fanSpeed := ⟨255, 0⟩ }

/-- The state after `M204 S3000000000` and `G1 X1 Y1 E1 F4000000000` read
from `scenarioMove1`: a move with a feed rate and an acceleration beyond the
range of `int`. -/
def fastMove : movement :=
  { scenarioMove2 with speed := ⟨4000000000, 0⟩, acceleration := ⟨3000000000, 0⟩ }

/-- The rational value of a number. -/
def Dec.toRat (a : Dec) : ℚ :=
  (a.mant : ℚ) / (10 : ℚ) ^ a.exp

/-- The number is representable with `p` decimals. -/
def Dec.fits (p : Nat) (a : Dec) : Prop :=
  a.mant.natAbs * 10 ^ p % 10 ^ a.exp = 0

instance (p : Nat) (a : Dec) : Decidable (Dec.fits p a) :=
  inferInstanceAs (Decidable (a.mant.natAbs * 10 ^ p % 10 ^ a.exp = 0))

/-- The truncated value lies in the range of the 32-bit `int`. -/
def Dec.fitsInt (a : Dec) : Prop :=
  -2147483648 ≤ a.trunc ∧ a.trunc ≤ 2147483647

instance (a : Dec) : Decidable (Dec.fitsInt a) :=
  inferInstanceAs (Decidable (-2147483648 ≤ a.trunc ∧ a.trunc ≤ 2147483647))

/-- The number rounded to `p` decimals, as `fmtFixed p` prints it: the
number that `strtod` reads back from the printed text. -/
def Dec.roundTo (p : Nat) (x : Dec) : Dec :=
  let n := x.mant.natAbs * 10 ^ p
  let d := 10 ^ x.exp
  let q := n / d
  let r := n % d
  let q := if d < 2 * r || (2 * r == d && q % 2 == 1) then q + 1 else q
  ⟨if x.mant < 0 then -(q : Int) else (q : Int), p⟩

/-- The fraction that `strtod` reads after the integer part `ip`: the
digits that follow a point, when there is one. -/
def readFraction (ip : Nat) (s : Line) : Nat × Nat × Line :=
  match s with
  | '.' :: t => readDigits ip 0 t
  | _ => (ip, 0, s)

/-- The state after the lines `lines` were folded into the state `m` with
`updateMovement`; `none` when `updateMovement` throws on one of them. -/
def replay (lines : List Line) (m : movement) : Option movement :=
  (foldTrace lines m).map Prod.snd

/-- The state `m` has the metadata of the entry `s`: the same width and
height, and the same acceleration, fan speed and feed rate after truncation
to an integer. -/
def metaMatch (m s : movement) : Prop :=
  Dec.ne m.lineWidth s.lineWidth = false
    ∧ Dec.ne m.lineHeight s.lineHeight = false
    ∧ m.acceleration.trunc = s.acceleration.trunc
    ∧ m.fanSpeed.trunc = s.fanSpeed.trunc
    ∧ m.speed.trunc = s.speed.trunc

/-- The metadata of the entry `s` is carried exactly by the lines that print
it: the width and the height are representable with 6 decimals, and the
truncated acceleration, fan speed and feed rate lie in the range of `int`. -/
def metaPrintable (s : movement) : Prop :=
  Dec.fits 6 s.lineWidth ∧ Dec.fits 6 s.lineHeight
    ∧ s.acceleration.fitsInt ∧ s.fanSpeed.fitsInt ∧ s.speed.fitsInt

instance (s : movement) : Decidable (metaPrintable s) :=
  inferInstanceAs (Decidable (Dec.fits 6 s.lineWidth ∧ Dec.fits 6 s.lineHeight
    ∧ s.acceleration.fitsInt ∧ s.fanSpeed.fitsInt ∧ s.speed.fitsInt))

/-- An optional line of the synthesizer: when `cond` holds, one line that
begins with `pre`; no line otherwise. -/
def optLine (cond : Bool) (pre : String) (ls : List Line) : Prop :=
  if cond = true then ∃ l, ls = [l] ∧ startsWith pre l = true else ls = []

/-- The number that a line of the output gives to E: the E parameter that
`updateMovement` reads on a `G` command, nothing on another line. -/
def lineE (l : Line) : Option Dec :=
  if l.head? = some 'G' then getParam l 'E' else none

/-! ## Printed numbers -/

/-- A digit character is a digit. -/
theorem isDigit_digitChar (d : Nat) : isDigit (digitChar d) = true := by
  unfold digitChar
  have h : d % 10 < 10 := Nat.mod_lt _ (by norm_num)
  generalize d % 10 = k at h
  interval_cases k <;> rfl

/-- The digits of a natural number are number characters. -/
theorem isNumChar_natDigits (fuel n : Nat) : ∀ c ∈ natDigits fuel n, isNumChar c = true := by
  induction fuel generalizing n with
  | zero => intro c hc; cases hc
  | succ f ih =>
    intro c hc
    unfold natDigits at hc
    split_ifs at hc
    · simp only [List.mem_singleton] at hc
      subst hc
      simp [isNumChar, isDigit_digitChar]
    · simp only [List.mem_append, List.mem_singleton] at hc
      rcases hc with hc | rfl
      · exact ih _ c hc
      · simp [isNumChar, isDigit_digitChar]

/-- The digits of a fraction are number characters. -/
theorem isNumChar_fracDigits (p n : Nat) : ∀ c ∈ fracDigits p n, isNumChar c = true := by
  induction p generalizing n with
  | zero => intro c hc; cases hc
  | succ f ih =>
    intro c hc
    unfold fracDigits at hc
    simp only [List.mem_append, List.mem_singleton] at hc
    rcases hc with hc | rfl
    · exact ih _ c hc
    · simp [isNumChar, isDigit_digitChar]

/-- A printed `int` is made of number characters. -/
theorem isNumChar_fmtInt (i : Int) : ∀ c ∈ fmtInt i, isNumChar c = true := by
  intro c hc
  unfold fmtInt fmtNat at hc
  split_ifs at hc
  · simp only [List.mem_cons] at hc
    rcases hc with rfl | hc
    · rfl
    · exact isNumChar_natDigits _ _ c hc
  · exact isNumChar_natDigits _ _ c hc

/-- A number printed in fixed notation is made of number characters. -/
theorem isNumChar_fmtFixed (p : Nat) (x : Dec) : ∀ c ∈ fmtFixed p x, isNumChar c = true := by
  intro c hc
  unfold fmtFixed fmtNat at hc
  simp only [List.mem_append] at hc
  rcases hc with (hc | hc) | hc
  · by_cases hx : x.mant < 0
    · simp only [hx, if_true, List.mem_singleton] at hc
      subst hc; rfl
    · simp only [hx, if_false] at hc
      cases hc
  · exact isNumChar_natDigits _ _ c hc
  · by_cases hp : p = 0
    · simp only [hp, if_true] at hc
      cases hc
    · simp only [hp, if_false, List.mem_cons] at hc
      rcases hc with rfl | hc
      · rfl
      · exact isNumChar_fracDigits _ _ c hc

/-- A character that is not a number character does not occur in a printed number. -/
theorem not_mem_of_isNumChar {c : Char} {l : Line} (hc : isNumChar c = false)
    (hl : ∀ d ∈ l, isNumChar d = true) : c ∉ l := by
  intro h
  have := hl c h
  rw [hc] at this
  cases this

/-! ## The movement fold -/

/-- A line on which `sscanf` reads a command number begins with `G`. -/
theorem sscanfG_head {line : Line} {n : Int} (h : sscanfG line = some n) :
    ∃ rest, line = 'G' :: rest := by
  unfold sscanfG at h
  split at h
  · exact ⟨_, rfl⟩
  · cases h

/-- On a recognised motion command `updateMovement` sets the kind of motion and reads the parameters. -/
theorem updateMovement_motion {line : Line} {n : Int} {t : GCodeType} (m : movement)
    (h1 : sscanfG line = some n) (h2 : gcodeOfNum n = some t) :
    updateMovement line m = some (updateParams line { m with type := t }) := by
  obtain ⟨rest, rfl⟩ := sscanfG_head h1
  have e1 : startsWith "M204 S" ('G' :: rest) = false := rfl
  have e2 : startsWith "M106 S" ('G' :: rest) = false := rfl
  have e3 : ('G' = ';') = False := by decide
  simp only [updateMovement, e1, e2, e3, h1, h2, if_false, Bool.false_eq_true]

/-- The flag `moved`: one of X, Y, Z, E was read. -/
theorem updateParams_fst (line : Line) (m : movement) :
    (updateParams line m).1 = ((getParam line 'X').isSome || (getParam line 'Y').isSome
      || (getParam line 'Z').isSome || (getParam line 'E').isSome) := by
  unfold updateParams
  rcases getParam line 'X' with _ | x <;> rcases getParam line 'Y' with _ | y <;>
    rcases getParam line 'Z' with _ | z <;> rcases getParam line 'E' with _ | e <;> rfl

/-- The extrusion after the parameters were read: the number read for E, else 0. -/
theorem updateParams_extrusionLength (line : Line) (m : movement) :
    (updateParams line m).2.extrusionLength = (getParam line 'E').getD Dec.zero := by
  unfold updateParams
  rcases getParam line 'X' with _ | x <;> rcases getParam line 'Y' with _ | y <;>
    rcases getParam line 'Z' with _ | z <;> rcases getParam line 'E' with _ | e <;>
    rcases getParam line 'F' with _ | f <;> rcases getParam line 'I' with _ | i <;>
    rcases getParam line 'J' with _ | j <;> rfl

/-- A character that does not occur in a line is not found. -/
theorem strFind_none_of_not_mem {p : Char} {line : Line} (h : p ∉ line) :
    strFind p line = none := by
  induction line with
  | nil => rfl
  | cons c cs ih =>
    simp only [List.mem_cons, not_or] at h
    have hc : ¬ c = p := fun e => h.1 e.symm
    simp [strFind, hc, ih h.2]

/-- A letter that does not occur in a line gives no parameter. -/
theorem getParam_none_of_not_mem {p : Char} {line : Line} (h : p ∉ line) :
    getParam line p = none := by
  simp [getParam, strFind_none_of_not_mem h]


/-- The command numbers 0 to 3 are recognised. -/
theorem gcodeOfNum_isSome {n : Int} (h0 : 0 ≤ n) (h3 : n ≤ 3) : ∃ t, gcodeOfNum n = some t := by
  interval_cases n
  · exact ⟨_, rfl⟩
  · exact ⟨_, rfl⟩
  · exact ⟨_, rfl⟩
  · exact ⟨_, rfl⟩

/-- A recognised command number is between 0 and 3. -/
theorem gcodeOfNum_range {n : Int} {t : GCodeType} (h : gcodeOfNum n = some t) :
    0 ≤ n ∧ n ≤ 3 := by
  unfold gcodeOfNum at h
  split_ifs at h <;> omega

/-- A comment line never reports a move. -/
theorem updateComment_fst {line : Line} {m : movement} {r : Bool × movement}
    (h : updateComment line m = some r) : r.1 = false := by
  unfold updateComment at h
  simp only [Option.bind_eq_some, Option.map_eq_some'] at h
  obtain ⟨_, -, _, -, rfl⟩ := h
  rfl

/-- On a line that is not a motion command G0 to G3, `updateMovement` reports no move whenever it returns. -/
theorem updateMovement_false_of_not_motion {line : Line} {m : movement}
    (hline : ∀ n, sscanfG line = some n → ¬ (0 ≤ n ∧ n ≤ 3))
    {r : Bool × movement} (h : updateMovement line m = some r) : r.1 = false := by
  unfold updateMovement at h
  split at h
  · cases h; rfl
  · split_ifs at h
    · exact updateComment_fst h
    · simp only [Option.map_eq_some'] at h
      obtain ⟨v, -, rfl⟩ := h
      rfl
    · simp only [Option.map_eq_some'] at h
      obtain ⟨v, -, rfl⟩ := h
      rfl
    · split at h
      · rename_i cmdNum hc
        split at h
        · rename_i t ht
          exact absurd (gcodeOfNum_range ht) (hline _ hc)
        · cases h; rfl
      · cases h; rfl

/-- C7: `updateMovement` does not return on a malformed number after
`;WIDTH:`, `M204 S` or `M106 S`: the exception of `stof` leaves the
function, whatever the state. -/
theorem updateMovement_throws_on_malformed (m : movement) :
    updateMovement ";WIDTH:abc".toList m = none
      ∧ updateMovement "M204 S".toList m = none
      ∧ updateMovement "M106 Sx".toList m = none :=
  ⟨rfl, rfl, rfl⟩

/-- C8: on a line recognised as a motion command G0 to G3, `updateMovement`
returns, and the new `extrusionLength` is 0 when the line has no letter E or
when the text after its first E is not a number, and is `v` when that text
reads as the number `v`; the previous `extrusionLength` plays no part. -/
theorem updateMovement_extrusion_reset (m : movement) (line : Line) (n : Int)
    (hcmd : sscanfG line = some n) (h0 : 0 ≤ n) (h3 : n ≤ 3) :
    ∃ moved m', updateMovement line m = some (moved, m')
      ∧ ('E' ∉ line → m'.extrusionLength = Dec.zero)
      ∧ (∀ pos, strFind 'E' line = some pos → stod (substr (pos + 1) line) = none →
          m'.extrusionLength = Dec.zero)
      ∧ (∀ pos v, strFind 'E' line = some pos → stod (substr (pos + 1) line) = some v →
          m'.extrusionLength = v) := by
  obtain ⟨t, ht⟩ := gcodeOfNum_isSome h0 h3
  refine ⟨(updateParams line { m with type := t }).1,
    (updateParams line { m with type := t }).2, updateMovement_motion m hcmd ht, ?_, ?_, ?_⟩
  · intro h
    rw [updateParams_extrusionLength, getParam_none_of_not_mem h]
    rfl
  · intro pos hp hs
    rw [updateParams_extrusionLength]
    simp [getParam, hp, hs]
  · intro pos v hp hs
    rw [updateParams_extrusionLength]
    simp [getParam, hp, hs]

/-- The instance of `updateMovement_extrusion_reset` at the line `G1 X1 F600`
read in a state whose `extrusionLength` is 5. -/
theorem updateMovement_extrusion_reset_witness :
    ∃ moved m', updateMovement "G1 X1 F600".toList { extrusionLength := ⟨5, 0⟩ } = some (moved, m')
      ∧ ('E' ∉ "G1 X1 F600".toList → m'.extrusionLength = Dec.zero)
      ∧ (∀ pos, strFind 'E' "G1 X1 F600".toList = some pos →
          stod (substr (pos + 1) "G1 X1 F600".toList) = none →
          m'.extrusionLength = Dec.zero)
      ∧ (∀ pos v, strFind 'E' "G1 X1 F600".toList = some pos →
          stod (substr (pos + 1) "G1 X1 F600".toList) = some v →
          m'.extrusionLength = v) :=
  updateMovement_extrusion_reset _ _ 1 (by decide) (by decide) (by decide)

/-- On a line recognised as a motion command G0 to G3, `updateMovement`
returns, and reports a move exactly when one of X, Y, Z, E reads as a
number. -/
theorem updateMovement_didMove (m : movement) (line : Line) (n : Int)
    (hcmd : sscanfG line = some n) (h0 : 0 ≤ n) (h3 : n ≤ 3) :
    ∃ m', updateMovement line m
      = some ((getParam line 'X').isSome || (getParam line 'Y').isSome
          || (getParam line 'Z').isSome || (getParam line 'E').isSome, m') := by
  obtain ⟨t, ht⟩ := gcodeOfNum_isSome h0 h3
  refine ⟨(updateParams line { m with type := t }).2, ?_⟩
  rw [updateMovement_motion m hcmd ht, ← updateParams_fst]

/-- C9: the line `;WIDTH:abc` is not a motion command, and `updateMovement`
does not return `false` on it: it returns nothing, the exception of `stof`
leaving the function. -/
theorem updateMovement_no_result_on_malformed_width (m : movement) :
    sscanfG ";WIDTH:abc".toList = none
      ∧ updateMovement ";WIDTH:abc".toList m = none
      ∧ updateMovement ";WIDTH:abc".toList m ≠ some (false, m) :=
  ⟨rfl, rfl, fun h => Option.noConfusion h⟩

/-! ## The block reverser and the line synthesizer -/

/-- One step of the walk. -/
theorem reverseWalk_cons_cons (c p : movement) (r : List movement) (n : movement) :
    reverseWalk (c :: p :: r) n = interpretBwdMovement c p n ++ reverseWalk (p :: r) c := rfl

/-- The walk stops at the first move. -/
theorem reverseWalk_single (c n : movement) : reverseWalk [c] n = [] := rfl

/-- The value of `reverseMovementList` on a trace that ends with an idle entry. -/
theorem reverseMovementList_idle (first : movement) (w : List movement) (last : movement)
    (h : last.type = GCodeType.NONE) :
    reverseMovementList (first :: w ++ [last])
      = openingLine last
        :: (reverseWalk (first :: w).reverse { first with endPos := last.endPos }
          ++ [closingLine last, accelLine last]) := by
  have hlen : ¬ (first :: w ++ [last]).length < 2 := by
    simp only [List.length_cons, List.length_append, List.length_singleton]
    omega
  have hl : (first :: w ++ [last]).getLast? = some last := by
    rw [List.getLast?_append]
    rfl
  have hd : (first :: w ++ [last]).dropLast = first :: w := List.dropLast_concat
  unfold reverseMovementList
  simp only [hlen, if_false, hl, h, if_true, hd, List.head?_cons]
  rfl

/-- The value of `reverseMovementList` on a trace that ends with a move. -/
theorem reverseMovementList_move (first : movement) (w : List movement) (last : movement)
    (h : last.type ≠ GCodeType.NONE) :
    reverseMovementList (first :: w ++ [last])
      = openingLine last
        :: (reverseWalk (first :: w ++ [last]).reverse { first with endPos := last.endPos }
          ++ [closingLine last, accelLine last]) := by
  have hlen : ¬ (first :: w ++ [last]).length < 2 := by
    simp only [List.length_cons, List.length_append, List.length_singleton]
    omega
  have hl : (first :: w ++ [last]).getLast? = some last := by
    rw [List.getLast?_append]
    rfl
  have hh : (first :: w ++ [last]).head? = some first := rfl
  unfold reverseMovementList
  simp only [hlen, if_false, hl, h, hh]
  rfl

/-- A trace of at least two entries has a first entry, a middle and its last entry. -/
theorem exists_first_last {tr : List movement} {last : movement} (hlen : 2 ≤ tr.length)
    (hlast : tr.getLast? = some last) : ∃ first w, tr = first :: w ++ [last] := by
  rcases tr with _ | ⟨first, rest⟩
  · simp at hlen
  · rcases List.eq_nil_or_concat rest with rfl | ⟨w, x, rfl⟩
    · simp at hlen
    · refine ⟨first, w, ?_⟩
      rw [List.concat_eq_append, ← List.cons_append, List.getLast?_append] at hlast
      simp at hlast
      subst hlast
      simp

/-- The parameters of the motion line, part by part. -/
theorem motionParams_eq (current previous : movement) :
    motionParams current previous
      = (if Dec.ne current.endPos.1 previous.endPos.1
            || Dec.ne current.endPos.2.1 previous.endPos.2.1 then
          " X".toList ++ fmtFixed 3 previous.endPos.1
            ++ " Y".toList ++ fmtFixed 3 previous.endPos.2.1
        else [])
        ++ ((if Dec.ne current.endPos.2.2 previous.endPos.2.2 then
            " Z".toList ++ fmtFixed 3 previous.endPos.2.2
          else [])
        ++ ((if current.type = GCodeType.G2 ∨ current.type = GCodeType.G3 then
            " I".toList
              ++ fmtFixed
                (if (Dec.ne current.endPos.1 previous.endPos.1
                    || Dec.ne current.endPos.2.1 previous.endPos.2.1
                    || Dec.ne current.endPos.2.2 previous.endPos.2.2) then 3 else 6)
                (Dec.sub (Dec.add previous.endPos.1 current.IJ.1) current.endPos.1)
              ++ " J".toList
              ++ fmtFixed
                (if (Dec.ne current.endPos.1 previous.endPos.1
                    || Dec.ne current.endPos.2.1 previous.endPos.2.1
                    || Dec.ne current.endPos.2.2 previous.endPos.2.2) then 3 else 6)
                (Dec.sub (Dec.add previous.endPos.2.1 current.IJ.2) current.endPos.2.1)
          else [])
        ++ (if Dec.ne current.extrusionLength Dec.zero then
            " E".toList ++ fmtFixed 5 current.extrusionLength
          else []))) := by
  unfold motionParams
  by_cases hxy : (Dec.ne current.endPos.1 previous.endPos.1
            || Dec.ne current.endPos.2.1 previous.endPos.2.1) = true <;>
    by_cases hz : Dec.ne current.endPos.2.2 previous.endPos.2.2 = true <;>
    by_cases ha : current.type = GCodeType.G2 ∨ current.type = GCodeType.G3 <;>
    by_cases he : Dec.ne current.extrusionLength Dec.zero = true <;>
    simp [hxy, hz, ha, he]

/-- A command word is `G` followed by one character. -/
theorem bwdCommand_cases {t : GCodeType} {cmd : Line} (h : bwdCommand t = some cmd) :
    ∃ d, cmd = ['G', d] := by
  cases t <;> simp [bwdCommand] at h <;> subst h <;> exact ⟨_, rfl⟩

/-- A move has a command word. -/
theorem bwdCommand_isSome {t : GCodeType} (h : t ≠ GCodeType.NONE) :
    ∃ cmd, bwdCommand t = some cmd := by
  cases t
  · exact ⟨_, rfl⟩
  · exact ⟨_, rfl⟩
  · exact ⟨_, rfl⟩
  · exact ⟨_, rfl⟩
  · exact absurd rfl h

/-- The lines of `interpretBwdMovement` for a move. -/
theorem interpretBwdMovement_of_command {current : movement} {cmd : Line}
    (h : bwdCommand current.type = some cmd) (previous next : movement) :
    interpretBwdMovement current previous next
      = changeLines current next ++ [cmd ++ motionParams current previous] := by
  simp [interpretBwdMovement, motionLine, h]

/-- The lines of `interpretBwdMovement` for an idle entry. -/
theorem interpretBwdMovement_of_none {current : movement}
    (h : current.type = GCodeType.NONE) (previous next : movement) :
    interpretBwdMovement current previous next = changeLines current next := by
  simp [interpretBwdMovement, motionLine, h, bwdCommand]

/-- Every adjacent pair of the reversed moves has its lines in the walk. -/
theorem reverseWalk_mem (A B : List movement) (cur prev : movement) :
    ∀ next, ∃ next', ∀ l ∈ interpretBwdMovement cur prev next',
      l ∈ reverseWalk (A ++ cur :: prev :: B) next := by
  induction A with
  | nil =>
    intro next
    refine ⟨next, fun l hl => ?_⟩
    rw [List.nil_append, reverseWalk_cons_cons]
    exact List.mem_append_left _ hl
  | cons a A ih =>
    intro next
    obtain ⟨next', h⟩ := ih a
    refine ⟨next', fun l hl => ?_⟩
    have hshape : ∃ x xs, A ++ cur :: prev :: B = x :: xs := by
      cases A with
      | nil => exact ⟨_, _, rfl⟩
      | cons x xs => exact ⟨_, _, rfl⟩
    obtain ⟨x, xs, hx⟩ := hshape
    rw [List.cons_append, hx, reverseWalk_cons_cons]
    rw [hx] at h
    exact List.mem_append_right _ (h l hl)

/-- The moves that `reverseMovementList` walks through: the trace without
its last entry when that entry is idle. -/
theorem reverseMovementList_mem_of_adjacent (pre post : List movement) (prev cur : movement)
    (hcur : cur.type ≠ GCodeType.NONE) :
    ∃ next, ∀ l ∈ interpretBwdMovement cur prev next,
      l ∈ reverseMovementList (pre ++ prev :: cur :: post) := by
  -- the trace is `first :: w ++ [last]`
  have hlen : 2 ≤ (pre ++ prev :: cur :: post).length := by
    simp only [List.length_append, List.length_cons]
    omega
  obtain ⟨last, hlast⟩ : ∃ last, (pre ++ prev :: cur :: post).getLast? = some last := by
    cases h : (pre ++ prev :: cur :: post).getLast? with
    | none => simp at h
    | some x => exact ⟨x, rfl⟩
  obtain ⟨first, w, htr⟩ := exists_first_last hlen hlast
  by_cases hidle : last.type = GCodeType.NONE
  · -- the last entry is dropped: it is not `cur`, so the pair is inside `first :: w`
    have hpost : ∃ post', post = post' ++ [last] := by
      rcases List.eq_nil_or_concat post with rfl | ⟨p, x, rfl⟩
      · exfalso
        have : (pre ++ [prev, cur]).getLast? = some last := hlast
        rw [List.getLast?_append] at this
        simp at this
        exact hcur (this ▸ hidle)
      · refine ⟨p, ?_⟩
        rw [List.concat_eq_append] at hlast ⊢
        have e : pre ++ prev :: cur :: (p ++ [x]) = (pre ++ prev :: cur :: p) ++ [x] := by simp
        rw [e, List.getLast?_append] at hlast
        simp at hlast
        rw [hlast]
    obtain ⟨post', rfl⟩ := hpost
    have hw : first :: w = pre ++ prev :: cur :: post' := by
      have e : pre ++ prev :: cur :: (post' ++ [last]) = (pre ++ prev :: cur :: post') ++ [last] := by
        simp
      rw [e] at htr
      exact (List.append_inj_left' htr rfl).symm
    have hrev : (first :: w).reverse = post'.reverse ++ cur :: prev :: pre.reverse := by
      rw [hw]; simp
    obtain ⟨next, h⟩ := reverseWalk_mem post'.reverse pre.reverse cur prev
      { first with endPos := last.endPos }
    refine ⟨next, fun l hl => ?_⟩
    rw [htr, reverseMovementList_idle first w last hidle, hrev]
    exact List.mem_cons_of_mem _ (List.mem_append_left _ (h l hl))
  · have hrev : (first :: w ++ [last]).reverse = post.reverse ++ cur :: prev :: pre.reverse := by
      rw [← htr]; simp
    obtain ⟨next, h⟩ := reverseWalk_mem post.reverse pre.reverse cur prev
      { first with endPos := last.endPos }
    refine ⟨next, fun l hl => ?_⟩
    rw [htr, reverseMovementList_move first w last hidle, hrev]
    exact List.mem_cons_of_mem _ (List.mem_append_left _ (h l hl))


/-- A list begins with itself. -/
theorem isPrefixOf_append_self (a b : Line) : a.isPrefixOf (a ++ b) = true := by
  induction a with
  | nil => simp [List.isPrefixOf]
  | cons c cs ih => simp [List.isPrefixOf, ih]

/-- A line that is `pre` followed by more text begins with `pre`. -/
theorem startsWith_append (pre : String) (x : Line) :
    startsWith pre (pre.toList ++ x) = true :=
  isPrefixOf_append_self _ _

/-- C10 (amended): for every trace entry that has a predecessor in the trace
(every entry but the first, the state the block was entered with), when its
kind is G2 the output of `reverseMovementList` contains its motion line and
that line begins with `G3`, and when its kind is G3 the line begins with
`G2`.  For every (current, previous, next), `interpretBwdMovement` returns
the state-change lines followed by one motion line, which begins with `G3`,
`G2`, `G0`, `G1` when the kind of `current` is G2, G3, G0, G1; when the kind
is NONE it returns the state-change lines alone. -/
theorem arc_direction_inversion :
    (∀ (pre post : List movement) (prev cur : movement), cur.type = GCodeType.G2 →
      ∃ l ∈ reverseMovementList (pre ++ prev :: cur :: post),
        motionLine cur prev = some l ∧ startsWith "G3" l = true)
    ∧ (∀ (pre post : List movement) (prev cur : movement), cur.type = GCodeType.G3 →
      ∃ l ∈ reverseMovementList (pre ++ prev :: cur :: post),
        motionLine cur prev = some l ∧ startsWith "G2" l = true)
    ∧ (∀ current previous next : movement,
      (current.type = GCodeType.G2 → ∃ l, startsWith "G3" l = true
        ∧ interpretBwdMovement current previous next = changeLines current next ++ [l])
      ∧ (current.type = GCodeType.G3 → ∃ l, startsWith "G2" l = true
        ∧ interpretBwdMovement current previous next = changeLines current next ++ [l])
      ∧ (current.type = GCodeType.G0 → ∃ l, startsWith "G0" l = true
        ∧ interpretBwdMovement current previous next = changeLines current next ++ [l])
      ∧ (current.type = GCodeType.G1 → ∃ l, startsWith "G1" l = true
        ∧ interpretBwdMovement current previous next = changeLines current next ++ [l])
      ∧ (current.type = GCodeType.NONE →
        interpretBwdMovement current previous next = changeLines current next)) := by
  refine ⟨?_, ?_, ?_⟩
  · intro pre post prev cur h
    have hc : bwdCommand cur.type = some "G3".toList := by rw [h]; rfl
    obtain ⟨next, hn⟩ := reverseMovementList_mem_of_adjacent pre post prev cur (by rw [h]; decide)
    refine ⟨"G3".toList ++ motionParams cur prev, hn _ ?_, ?_, startsWith_append _ _⟩
    · rw [interpretBwdMovement_of_command hc]
      exact List.mem_append_right _ (List.mem_singleton_self _)
    · simp [motionLine, hc]
  · intro pre post prev cur h
    have hc : bwdCommand cur.type = some "G2".toList := by rw [h]; rfl
    obtain ⟨next, hn⟩ := reverseMovementList_mem_of_adjacent pre post prev cur (by rw [h]; decide)
    refine ⟨"G2".toList ++ motionParams cur prev, hn _ ?_, ?_, startsWith_append _ _⟩
    · rw [interpretBwdMovement_of_command hc]
      exact List.mem_append_right _ (List.mem_singleton_self _)
    · simp [motionLine, hc]
  · intro current previous next
    refine ⟨?_, ?_, ?_, ?_, ?_⟩
    · intro h
      have hc : bwdCommand current.type = some "G3".toList := by rw [h]; rfl
      exact ⟨_, startsWith_append _ _, interpretBwdMovement_of_command hc _ _⟩
    · intro h
      have hc : bwdCommand current.type = some "G2".toList := by rw [h]; rfl
      exact ⟨_, startsWith_append _ _, interpretBwdMovement_of_command hc _ _⟩
    · intro h
      have hc : bwdCommand current.type = some "G0".toList := by rw [h]; rfl
      exact ⟨_, startsWith_append _ _, interpretBwdMovement_of_command hc _ _⟩
    · intro h
      have hc : bwdCommand current.type = some "G1".toList := by rw [h]; rfl
      exact ⟨_, startsWith_append _ _, interpretBwdMovement_of_command hc _ _⟩
    · intro h
      exact interpretBwdMovement_of_none h _ _

/-- C10 (counterexample): a block entered after a clockwise arc and left at
once gives the trace of the entry state, of kind G2, and the idle sentinel;
the three lines of `reverseMovementList` contain no `G3` line, and neither
does the output of the program on such a file. -/
theorem entry_arc_not_reversed :
    arcEntry.type = GCodeType.G2
    ∧ reverseMovementList [arcEntry, idle arcEntry]
      = ["G0 X1.000 Y1.000".toList, "G1 X 1.000 Y 1.000 Z 0.000 F 0".toList,
          "M204 S0".toList]
    ∧ (∀ l ∈ reverseMovementList [arcEntry, idle arcEntry], startsWith "G3" l = false)
    ∧ transform ["; printing object".toList, "G2 X1 Y1 I1 J0".toList,
          ";TYPE:Perimeter".toList, ";TYPE:Infill".toList]
      = Outcome.output
        ["; printing object".toList, "G2 X1 Y1 I1 J0".toList, ";TYPE:Perimeter".toList,
          "G0 X1.000 Y1.000".toList, "G1 X 1.000 Y 1.000 Z 0.000 F 0".toList,
          "M204 S0".toList, ";TYPE:Infill".toList] := by
  decide

/-- The instance of `arc_direction_inversion` at a clockwise arc that
follows the entry state of its block. -/
theorem arc_direction_inversion_witness :
    ∃ l ∈ reverseMovementList ([] ++ scenarioEntry :: arcEntry :: [idle arcEntry]),
      motionLine arcEntry scenarioEntry = some l ∧ startsWith "G3" l = true :=
  arc_direction_inversion.1 [] [idle arcEntry] scenarioEntry arcEntry rfl

/-- A line without the letter X carries no X/Y parameters. -/
theorem carriesXY_false_of_not_mem {l : Line} (h : 'X' ∉ l) : carriesXY l = false := by
  simp [carriesXY, h]

/-- An optional line that carries no X/Y parameters is filtered out. -/
theorem filter_optional_line (b : Bool) (l : Line) (h : carriesXY l = false) :
    (if b = true then [l] else []).filter carriesXY = [] := by
  cases b <;> simp [h]

/-- No state-change line carries X/Y parameters. -/
theorem filter_changeLines (current next : movement) :
    (changeLines current next).filter carriesXY = [] := by
  unfold changeLines
  simp only [List.filter_append, List.append_eq_nil]
  refine ⟨⟨⟨⟨⟨?_, ?_⟩, ?_⟩, ?_⟩, ?_⟩, ?_⟩
  · exact filter_optional_line _ _ rfl
  · exact filter_optional_line _ _ rfl
  · exact filter_optional_line _ _ rfl
  · exact filter_optional_line _ _ rfl
  · exact filter_optional_line _ _ rfl
  · refine filter_optional_line _ _ (carriesXY_false_of_not_mem ?_)
    rw [List.mem_append, not_or]
    exact ⟨by decide, not_mem_of_isNumChar rfl (isNumChar_fmtInt _)⟩


/-- The motion line of a move whose XY position differs from the previous one names the previous position as its X/Y target. -/
theorem motionLine_targets {current previous : movement}
    (ht : current.type ≠ GCodeType.NONE)
    (hxy : (Dec.ne current.endPos.1 previous.endPos.1
      || Dec.ne current.endPos.2.1 previous.endPos.2.1) = true) :
    ∃ l, motionLine current previous = some l ∧ targets previous l ∧ carriesXY l = true := by
  obtain ⟨cmd, hc⟩ := bwdCommand_isSome ht
  obtain ⟨d, rfl⟩ := bwdCommand_cases hc
  refine ⟨['G', d] ++ motionParams current previous, by simp [motionLine, hc], ?_, ?_⟩
  · rw [motionParams_eq, if_pos hxy]
    exact ⟨d, _, rfl⟩
  · rw [motionParams_eq]
    simp only [hxy, if_true]
    simp [carriesXY]

/-- The lines of the walk that carry X/Y parameters are the motion lines of the adjacent pairs, in order. -/
theorem filter_reverseWalk (r : List movement) :
    ∀ next, (∀ s ∈ r.dropLast, s.type ≠ GCodeType.NONE) →
      (∀ pr ∈ r.zip r.tail, (Dec.ne pr.1.endPos.1 pr.2.endPos.1
        || Dec.ne pr.1.endPos.2.1 pr.2.endPos.2.1) = true) →
      List.Forall₂ (fun pr l => motionLine pr.1 pr.2 = some l ∧ targets pr.2 l)
        (r.zip r.tail) ((reverseWalk r next).filter carriesXY) := by
  induction r with
  | nil => intro next _ _; exact List.Forall₂.nil
  | cons c rest ih =>
    intro next ht hxy
    cases rest with
    | nil => exact List.Forall₂.nil
    | cons p rest =>
      have hc : c.type ≠ GCodeType.NONE := ht c (by simp [List.dropLast])
      obtain ⟨l, hl, htar, hcar⟩ := motionLine_targets hc (hxy (c, p) (by simp))
      have hint : interpretBwdMovement c p next = changeLines c next ++ [l] := by
        simp [interpretBwdMovement, hl]
      rw [reverseWalk_cons_cons, hint]
      simp only [List.filter_append, filter_changeLines, List.nil_append, List.filter_cons,
        List.filter_nil, hcar, if_true, List.singleton_append, List.tail_cons, List.zip_cons_cons]
      refine List.Forall₂.cons ⟨hl, htar⟩ (ih c ?_ ?_)
      · intro s hs
        exact ht s (by simp [List.dropLast] at hs ⊢; exact Or.inr hs)
      · intro pr hpr
        exact hxy pr (by simp at hpr ⊢; exact Or.inr hpr)

/-- C1: for a trace `s0, s1, ..., sn` followed by an idle sentinel at the
position of `sn`, where `s1 ... sn` are moves and every move differs in X or Y
from the entry before it, the lines of `reverseMovementList` that carry X/Y
parameters are: the `G0` to the x, y of `sn`; then, for the adjacent pairs
`(sn, s(n-1)), ..., (s1, s0)` of the reversed trace in this order, the motion
line of the pair, whose X/Y target is the position of its second entry; then
the closing `G1` to the position of `sn`. -/
theorem reverse_traversal_order (s0 : movement) (ss : List movement) (sentinel : movement)
    (hsent : sentinel.type = GCodeType.NONE)
    (hpos : sentinel.endPos = ((s0 :: ss).getLast (List.cons_ne_nil s0 ss)).endPos)
    (htypes : ∀ s ∈ ss, s.type ≠ GCodeType.NONE)
    (hxy : ∀ pr ∈ (s0 :: ss).reverse.zip (s0 :: ss).reverse.tail,
      (Dec.ne pr.1.endPos.1 pr.2.endPos.1 || Dec.ne pr.1.endPos.2.1 pr.2.endPos.2.1) = true) :
    ∃ lines,
      (reverseMovementList (s0 :: ss ++ [sentinel])).filter carriesXY
        = ("G0 X".toList
            ++ fmtFixed 3 ((s0 :: ss).getLast (List.cons_ne_nil s0 ss)).endPos.1
            ++ " Y".toList
            ++ fmtFixed 3 ((s0 :: ss).getLast (List.cons_ne_nil s0 ss)).endPos.2.1)
          :: (lines ++
            ["G1 X ".toList
              ++ fmtFixed 3 ((s0 :: ss).getLast (List.cons_ne_nil s0 ss)).endPos.1
              ++ " Y ".toList
              ++ fmtFixed 3 ((s0 :: ss).getLast (List.cons_ne_nil s0 ss)).endPos.2.1
              ++ " Z ".toList
              ++ fmtFixed 3 ((s0 :: ss).getLast (List.cons_ne_nil s0 ss)).endPos.2.2
              ++ " F ".toList ++ fmtInt sentinel.speed.toInt])
      ∧ List.Forall₂ (fun pr l => motionLine pr.1 pr.2 = some l ∧ targets pr.2 l)
        ((s0 :: ss).reverse.zip (s0 :: ss).reverse.tail) lines := by
  have hdrop : ∀ s ∈ (s0 :: ss).reverse.dropLast, s.type ≠ GCodeType.NONE := by
    intro s hs
    rw [List.reverse_cons, List.dropLast_concat] at hs
    exact htypes s (List.mem_reverse.1 hs)
  refine ⟨_, ?_, filter_reverseWalk (s0 :: ss).reverse
    { s0 with endPos := sentinel.endPos } hdrop hxy⟩
  rw [reverseMovementList_idle s0 ss sentinel hsent]
  have ho : carriesXY (openingLine sentinel) = true := by simp [carriesXY, openingLine]
  have hcl : carriesXY (closingLine sentinel) = true := by simp [carriesXY, closingLine]
  have ha : carriesXY (accelLine sentinel) = false := rfl
  simp only [List.filter_cons, List.filter_append, ho, hcl, ha, if_true, List.filter_nil]
  rw [← hpos]
  simp [openingLine, closingLine]



/-- The instance of `reverse_traversal_order` at the trace of the end-to-end
scenario, with the fold that builds this trace and the output of the whole
program: the perimeter is entered from (0,0) and moves to (1,0) and (1,1);
the output moves to (1,1), then to (1,0), then to (0,0). -/
theorem reverse_traversal_order_witness :
    (∃ lines,
      (reverseMovementList
          [scenarioEntry, scenarioMove1, scenarioMove2, idle scenarioMove2]).filter carriesXY
        = "G0 X1.000 Y1.000".toList
          :: (lines ++ ["G1 X 1.000 Y 1.000 Z 0.000 F 0".toList])
      ∧ List.Forall₂ (fun pr l => motionLine pr.1 pr.2 = some l ∧ targets pr.2 l)
        [(scenarioMove2, scenarioMove1), (scenarioMove1, scenarioEntry)] lines)
    ∧ foldTrace ["G1 X1 Y0 E1".toList, "G1 X1 Y1 E1".toList, ";TYPE:Infill".toList]
        scenarioEntry
      = some ([scenarioMove1, scenarioMove2], scenarioMove2)
    ∧ transform scenario
      = Outcome.output
        ["; printing object".toList, "G1 X0 Y0".toList, ";TYPE:Perimeter".toList,
          "G0 X1.000 Y1.000".toList, "G1 X1.000 Y0.000 E1.00000".toList,
          "G1 X0.000 Y0.000 E1.00000".toList, "G1 X 1.000 Y 1.000 Z 0.000 F 0".toList,
          "M204 S0".toList, ";TYPE:Infill".toList] :=
  ⟨reverse_traversal_order scenarioEntry [scenarioMove1, scenarioMove2] (idle scenarioMove2)
      rfl rfl (by decide) (by decide),
    by decide, by decide⟩

/-! ## The stream segmenter -/

/-- An exit marker is a comment line. -/
theorem marker_is_comment {l : Line} (h : isTypeExit l = true ∨ isStopMarker l = true) :
    ∃ t, l = ';' :: t := by
  rcases l with _ | ⟨c, t⟩
  · rcases h with h | h <;> simp [isTypeExit, isStopMarker, startsWith] at h
  · by_cases hc : c = ';'
    · exact ⟨t, by rw [hc]⟩
    · exfalso
      have h1 : startsWith ";TYPE:" (c :: t) = false := by
        simp [startsWith, List.isPrefixOf, Ne.symm hc]
      have h2 : startsWith "; stop printing object" (c :: t) = false := by
        simp [startsWith, List.isPrefixOf, Ne.symm hc]
      rcases h with h | h
      · simp [isTypeExit, h1] at h
      · simp [isStopMarker, h2] at h

/-- On a comment line `updateMovement` is its comment branch. -/
theorem updateMovement_comment (t : Line) (m : movement) :
    updateMovement (';' :: t) m = updateComment (';' :: t) m := by
  simp [updateMovement]

/-- An exit marker never reports a move. -/
theorem updateMovement_marker_fst {l : Line} {m : movement} {r : Bool × movement}
    (hl : isTypeExit l = true ∨ isStopMarker l = true) (h : updateMovement l m = some r) :
    r.1 = false := by
  obtain ⟨t, rfl⟩ := marker_is_comment hl
  rw [updateMovement_comment] at h
  exact updateComment_fst h

/-- A comment line leaves the position, the kind of motion, the arc centre,
the acceleration, the fan speed, the feed rate and the extrusion unchanged. -/
theorem updateComment_frame {line : Line} {m : movement} {r : Bool × movement}
    (h : updateComment line m = some r) :
    r.2.endPos = m.endPos ∧ r.2.type = m.type ∧ r.2.IJ = m.IJ
      ∧ r.2.acceleration = m.acceleration ∧ r.2.fanSpeed = m.fanSpeed
      ∧ r.2.speed = m.speed ∧ r.2.extrusionLength = m.extrusionLength := by
  unfold updateComment at h
  simp only [Option.bind_eq_some, Option.map_eq_some'] at h
  obtain ⟨m1, h1, m2, h2, rfl⟩ := h
  have e1 : m1.endPos = m.endPos ∧ m1.type = m.type ∧ m1.IJ = m.IJ
      ∧ m1.acceleration = m.acceleration ∧ m1.fanSpeed = m.fanSpeed
      ∧ m1.speed = m.speed ∧ m1.extrusionLength = m.extrusionLength := by
    split_ifs at h1
    all_goals
      first
      | (simp only [Option.map_eq_some'] at h1
         obtain ⟨v, -, rfl⟩ := h1
         exact ⟨rfl, rfl, rfl, rfl, rfl, rfl, rfl⟩)
      | (cases h1
         exact ⟨rfl, rfl, rfl, rfl, rfl, rfl, rfl⟩)
  have e2 : m2.endPos = m1.endPos ∧ m2.type = m1.type ∧ m2.IJ = m1.IJ
      ∧ m2.acceleration = m1.acceleration ∧ m2.fanSpeed = m1.fanSpeed
      ∧ m2.speed = m1.speed ∧ m2.extrusionLength = m1.extrusionLength := by
    split_ifs at h2
    · simp only [Option.map_eq_some'] at h2
      obtain ⟨v, -, rfl⟩ := h2
      exact ⟨rfl, rfl, rfl, rfl, rfl, rfl, rfl⟩
    · cases h2
      exact ⟨rfl, rfl, rfl, rfl, rfl, rfl, rfl⟩
  obtain ⟨a1, a2, a3, a4, a5, a6, a7⟩ := e1
  obtain ⟨b1, b2, b3, b4, b5, b6, b7⟩ := e2
  exact ⟨b1.trans a1, b2.trans a2, b3.trans a3, b4.trans a4, b5.trans a5, b6.trans a6,
    b7.trans a7⟩

/-- One step of the fold. -/
theorem foldTrace_cons {line : Line} {lines : List Line} {m : movement}
    {tr : List movement} {mf : movement} (h : foldTrace (line :: lines) m = some (tr, mf)) :
    ∃ moved m' tr', updateMovement line m = some (moved, m')
      ∧ foldTrace lines m' = some (tr', mf)
      ∧ tr = (if moved then [m'] else []) ++ tr' := by
  unfold foldTrace at h
  split at h
  · cases h
  · rename_i moved m' hu
    simp only [Option.map_eq_some'] at h
    obtain ⟨⟨tr', mf'⟩, hf, he⟩ := h
    simp only [Prod.mk.injEq] at he
    obtain ⟨rfl, rfl⟩ := he
    exact ⟨moved, m', tr', hu, hf, rfl⟩

/-- The loop of `processIternalPerimeters` on lines that are not exit
markers: it copies nothing and collects the states of the moves. -/
theorem perimeterLoop_body (body : List Line) :
    ∀ (m : movement) (pm tr : List movement) (mb : movement),
      (∀ b ∈ body, isTypeExit b = false ∧ isStopMarker b = false) →
      foldTrace body m = some (tr, mb) →
      ∀ rest out, perimeterLoop (body ++ rest) out m pm = perimeterLoop rest out mb (pm ++ tr) := by
  induction body with
  | nil =>
    intro m pm tr mb _ hf rest out
    simp only [foldTrace, Option.some.injEq, Prod.mk.injEq] at hf
    obtain ⟨rfl, rfl⟩ := hf
    simp
  | cons b body ih =>
    intro m pm tr mb hb hf rest out
    obtain ⟨moved, m', tr', hu, hf', rfl⟩ := foldTrace_cons hf
    have hb1 := (hb b (List.mem_cons_self _ _)).1
    have hb2 := (hb b (List.mem_cons_self _ _)).2
    have hrest : ∀ x ∈ body, isTypeExit x = false ∧ isStopMarker x = false :=
      fun x hx => hb x (List.mem_cons_of_mem _ hx)
    rw [List.cons_append, perimeterLoop]
    simp only [hu, hb1, hb2, Bool.false_eq_true, if_false]
    rw [ih m' _ tr' mb hrest hf']
    cases moved <;> simp

/-- The loop of `processIternalPerimeters` on an exit marker. -/
theorem perimeterLoop_marker {marker : Line} {mb mf : movement} {moved : Bool}
    (hm : isTypeExit marker = true ∨ isStopMarker marker = true)
    (hu : updateMovement marker mb = some (moved, mf))
    (rest out : List Line) (pm : List movement) :
    perimeterLoop (marker :: rest) out mb pm
      = some (if isTypeExit marker = true then machineState.OUTSIDE_PERIMETERS
          else machineState.START_END,
        rest, out ++ reverseMovementList (pm ++ [idle mf]) ++ [marker], idle mf) := by
  have hmoved : moved = false := updateMovement_marker_fst hm hu
  subst hmoved
  rw [perimeterLoop]
  simp only [hu, Bool.false_eq_true, if_false]
  by_cases h1 : isTypeExit marker = true
  · simp only [h1, if_true]; rfl
  · have h2 : isStopMarker marker = true := hm.resolve_left h1
    simp only [h1, h2, if_true, if_false]; rfl

/-- The text of `reverseMovementList` depends on an idle last entry only
through its position, its feed rate and its acceleration. -/
theorem reverseMovementList_idle_congr (first : movement) (w : List movement)
    (a b : movement) (ha : a.type = GCodeType.NONE) (hb : b.type = GCodeType.NONE)
    (hpos : a.endPos = b.endPos) (hspeed : a.speed = b.speed)
    (hacc : a.acceleration = b.acceleration) :
    reverseMovementList (first :: w ++ [a]) = reverseMovementList (first :: w ++ [b]) := by
  rw [reverseMovementList_idle first w a ha, reverseMovementList_idle first w b hb]
  simp only [openingLine, closingLine, accelLine, hpos, hspeed, hacc]

/-- The function `processStartEnd` appends to the output exactly the lines it
reads, and stops at the end of the file or after the start marker. -/
theorem processStartEnd_spec (file : List Line) :
    ∀ out, ∃ consumed,
      file = consumed ++ (processStartEnd file out).2.1
      ∧ (processStartEnd file out).2.2 = out ++ consumed
      ∧ (((processStartEnd file out).1 = machineState.EXIT
            ∧ (processStartEnd file out).2.1 = [])
          ∨ ((processStartEnd file out).1 = machineState.OUTSIDE_PERIMETERS
            ∧ (processStartEnd file out).2.1.length < file.length)) := by
  induction file with
  | nil => intro out; exact ⟨[], by simp [processStartEnd]⟩
  | cons l file ih =>
    intro out
    have hcons : processStartEnd (l :: file) out
        = if startsWith "; printing object" l = true then
            (machineState.OUTSIDE_PERIMETERS, file, out ++ [l])
          else processStartEnd file (out ++ [l]) := rfl
    rw [hcons]
    by_cases h : startsWith "; printing object" l = true
    · rw [if_pos h]
      exact ⟨[l], by simp⟩
    · rw [if_neg h]
      obtain ⟨consumed, h1, h2, h3⟩ := ih (out ++ [l])
      refine ⟨l :: consumed, ?_, ?_, ?_⟩
      · rw [List.cons_append, ← h1]
      · rw [h2]; simp
      · rcases h3 with h3 | h3
        · exact Or.inl h3
        · exact Or.inr ⟨h3.1, by simp only [List.length_cons]; omega⟩

/-- The function `processOutsidePerimeters` appends to the output exactly the
lines it reads; it enters the perimeters only on the entry marker. -/
theorem processOutsidePerimeters_spec (file : List Line) :
    ∀ (out : List Line) (m : movement) (st : machineState) (rest out' : List Line)
      (m' : movement),
      processOutsidePerimeters file out m = some (st, rest, out', m') →
      ∃ consumed, file = consumed ++ rest ∧ out' = out ++ consumed
        ∧ ((st = machineState.EXIT ∧ rest = [])
          ∨ ((st = machineState.START_END
              ∨ (st = machineState.IN_PERIMETERS
                ∧ consumed.getLast? = some ";TYPE:Perimeter".toList))
            ∧ rest.length < file.length)) := by
  induction file with
  | nil =>
    intro out m st rest out' m' h
    simp only [processOutsidePerimeters, Option.some.injEq, Prod.mk.injEq] at h
    obtain ⟨rfl, rfl, rfl, rfl⟩ := h
    exact ⟨[], by simp⟩
  | cons l file ih =>
    intro out m st rest out' m' h
    unfold processOutsidePerimeters at h
    split at h
    · cases h
    · rename_i moved m1 hu
      simp only at h
      split_ifs at h with hs hp
      · simp only [Option.some.injEq, Prod.mk.injEq] at h
        obtain ⟨rfl, rfl, rfl, rfl⟩ := h
        exact ⟨[l], by simp⟩
      · simp only [Option.some.injEq, Prod.mk.injEq] at h
        obtain ⟨rfl, rfl, rfl, rfl⟩ := h
        exact ⟨[l], by simp [hp]⟩
      · obtain ⟨consumed, h1, h2, h3⟩ := ih _ _ _ _ _ _ h
        refine ⟨l :: consumed, ?_, ?_, ?_⟩
        · rw [List.cons_append, ← h1]
        · rw [h2]; simp
        · rcases h3 with h3 | ⟨h3 | ⟨h3, h4⟩, h5⟩
          · exact Or.inl h3
          · exact Or.inr ⟨Or.inl h3, by simp only [List.length_cons]; omega⟩
          · refine Or.inr ⟨Or.inr ⟨h3, ?_⟩, by simp only [List.length_cons]; omega⟩
            cases consumed with
            | nil => simp at h4
            | cons c cs => rw [List.getLast?_cons_cons]; exact h4

/-- The loop of `processIternalPerimeters` keeps what is already in the
output, and stops at the end of the file or after an exit marker. -/
theorem perimeterLoop_spec (file : List Line) :
    ∀ (out : List Line) (m : movement) (pm : List movement) (st : machineState)
      (rest out' : List Line) (m' : movement),
      perimeterLoop file out m pm = some (st, rest, out', m') →
      (∃ added, out' = out ++ added) ∧ (∃ consumed, file = consumed ++ rest)
        ∧ ((st = machineState.EXIT ∧ rest = [])
          ∨ ((st = machineState.START_END ∨ st = machineState.OUTSIDE_PERIMETERS)
            ∧ rest.length < file.length)) := by
  induction file with
  | nil =>
    intro out m pm st rest out' m' h
    simp only [perimeterLoop, Option.some.injEq, Prod.mk.injEq] at h
    obtain ⟨rfl, rfl, rfl, rfl⟩ := h
    exact ⟨⟨[], by simp⟩, ⟨[], rfl⟩, Or.inl ⟨rfl, rfl⟩⟩
  | cons l file ih =>
    intro out m pm st rest out' m' h
    unfold perimeterLoop at h
    split at h
    · cases h
    · rename_i moved m1 hu
      simp only at h
      by_cases hs : isTypeExit l = true
      · rw [if_pos hs] at h
        simp only [Option.some.injEq, Prod.mk.injEq] at h
        obtain ⟨rfl, rfl, rfl, rfl⟩ := h
        exact ⟨⟨_, by rw [List.append_assoc]⟩, ⟨[l], rfl⟩, Or.inr ⟨Or.inr rfl, by simp⟩⟩
      rw [if_neg hs] at h
      by_cases hp : isStopMarker l = true
      · rw [if_pos hp] at h
        simp only [Option.some.injEq, Prod.mk.injEq] at h
        obtain ⟨rfl, rfl, rfl, rfl⟩ := h
        exact ⟨⟨_, by rw [List.append_assoc]⟩, ⟨[l], rfl⟩, Or.inr ⟨Or.inl rfl, by simp⟩⟩
      rw [if_neg hp] at h
      · obtain ⟨h1, ⟨consumed, hc⟩, h2⟩ := ih _ _ _ _ _ _ _ h
        refine ⟨h1, ⟨l :: consumed, by rw [List.cons_append, ← hc]⟩, ?_⟩
        rcases h2 with h2 | ⟨h2, h3⟩
        · exact Or.inl h2
        · exact Or.inr ⟨h2, by simp only [List.length_cons]; omega⟩

/-- In the state `EXIT` the loop of `main` stops. -/
theorem mainLoop_exit (fuel : Nat) (file out : List Line) (m : movement) :
    mainLoop (fuel + 1) machineState.EXIT file out m = Outcome.output out := rfl

/-- The loop of `main` ends: with fuel for one iteration per line and two
more, it never runs out of fuel. -/
theorem mainLoop_terminates (fuel : Nat) :
    ∀ (st : machineState) (file out : List Line) (m : movement),
      file.length + 2 ≤ fuel → mainLoop fuel st file out m ≠ Outcome.outOfFuel := by
  induction fuel with
  | zero => intro st file out m h; omega
  | succ f ih =>
    intro st file out m h
    have hexit : ∀ (file' out' : List Line) (m' : movement),
        mainLoop f machineState.EXIT file' out' m' ≠ Outcome.outOfFuel := by
      intro file' out' m'
      obtain ⟨g, rfl⟩ : ∃ g, f = g + 1 := ⟨f - 1, by omega⟩
      rw [mainLoop_exit]
      exact fun h => Outcome.noConfusion h
    cases st with
    | START_END =>
      obtain ⟨consumed, -, -, h3⟩ := processStartEnd_spec file out
      rw [mainLoop]
      generalize processStartEnd file out = r at h3
      obtain ⟨st, rest, out'⟩ := r
      simp only at h3 ⊢
      rcases h3 with ⟨rfl, -⟩ | ⟨-, h3⟩
      · exact hexit _ _ _
      · exact ih _ _ _ _ (by omega)
    | OUTSIDE_PERIMETERS =>
      rw [mainLoop]
      cases hp : processOutsidePerimeters file out m with
      | none => exact fun h => Outcome.noConfusion h
      | some r =>
        obtain ⟨st, rest, out', m'⟩ := r
        obtain ⟨consumed, -, -, h3⟩ := processOutsidePerimeters_spec file _ _ _ _ _ _ hp
        simp only
        rcases h3 with ⟨rfl, -⟩ | ⟨-, h3⟩
        · exact hexit _ _ _
        · exact ih _ _ _ _ (by omega)
    | IN_PERIMETERS =>
      rw [mainLoop]
      cases hp : processIternalPerimeters file out m with
      | none => exact fun h => Outcome.noConfusion h
      | some r =>
        obtain ⟨st, rest, out', m'⟩ := r
        obtain ⟨-, -, h3⟩ := perimeterLoop_spec file _ _ _ _ _ _ _ hp
        simp only
        rcases h3 with ⟨rfl, -⟩ | ⟨-, h3⟩
        · exact hexit _ _ _
        · exact ih _ _ _ _ (by omega)
    | EXIT =>
      rw [mainLoop_exit]
      exact fun h => Outcome.noConfusion h

/-- The program never runs out of fuel. -/
theorem transform_terminates (file : List Line) : transform file ≠ Outcome.outOfFuel :=
  mainLoop_terminates _ _ _ _ _ (le_refl _)

/-- The function `processOutsidePerimeters` returns when `updateMovement` throws on no line. -/
theorem processOutsidePerimeters_isSome (file : List Line)
    (hfile : ∀ l ∈ file, ∀ m, updateMovement l m ≠ none) :
    ∀ out m, processOutsidePerimeters file out m ≠ none := by
  induction file with
  | nil => intro out m h; simp [processOutsidePerimeters] at h
  | cons l file ih =>
    intro out m
    unfold processOutsidePerimeters
    cases hu : updateMovement l m with
    | none => exact absurd hu (hfile l (List.mem_cons_self _ _) m)
    | some r =>
      obtain ⟨moved, m1⟩ := r
      simp only
      split_ifs
      · exact fun h => Option.noConfusion h
      · exact fun h => Option.noConfusion h
      · exact ih (fun x hx => hfile x (List.mem_cons_of_mem _ hx)) _ _

/-- The loop of `processIternalPerimeters` returns when `updateMovement` throws on no line. -/
theorem perimeterLoop_isSome (file : List Line)
    (hfile : ∀ l ∈ file, ∀ m, updateMovement l m ≠ none) :
    ∀ out m pm, perimeterLoop file out m pm ≠ none := by
  induction file with
  | nil => intro out m pm h; simp [perimeterLoop] at h
  | cons l file ih =>
    intro out m pm
    unfold perimeterLoop
    cases hu : updateMovement l m with
    | none => exact absurd hu (hfile l (List.mem_cons_self _ _) m)
    | some r =>
      obtain ⟨moved, m1⟩ := r
      simp only
      by_cases hs : isTypeExit l = true
      · rw [if_pos hs]
        exact fun h => Option.noConfusion h
      rw [if_neg hs]
      by_cases hp : isStopMarker l = true
      · rw [if_pos hp]
        exact fun h => Option.noConfusion h
      rw [if_neg hp]
      exact ih (fun x hx => hfile x (List.mem_cons_of_mem _ hx)) _ _ _

/-- The loop of `main` raises an exception only when `updateMovement` raises
one on a line of the file. -/
theorem mainLoop_no_exception (fuel : Nat) :
    ∀ (st : machineState) (file out : List Line) (m : movement),
      (∀ l ∈ file, ∀ m, updateMovement l m ≠ none) →
      mainLoop fuel st file out m ≠ Outcome.exception := by
  induction fuel with
  | zero => intro st file out m _ h; cases h
  | succ f ih =>
    intro st file out m hfile
    cases st with
    | START_END =>
      obtain ⟨consumed, h1, -, -⟩ := processStartEnd_spec file out
      rw [mainLoop]
      generalize processStartEnd file out = r at h1
      obtain ⟨st, rest, out'⟩ := r
      simp only at h1 ⊢
      exact ih _ _ _ _ (fun l hl => hfile l (by rw [h1]; exact List.mem_append_right _ hl))
    | OUTSIDE_PERIMETERS =>
      rw [mainLoop]
      cases hp : processOutsidePerimeters file out m with
      | none => exact absurd hp (processOutsidePerimeters_isSome file hfile out m)
      | some r =>
        obtain ⟨st, rest, out', m'⟩ := r
        obtain ⟨consumed, h1, -, -⟩ := processOutsidePerimeters_spec file _ _ _ _ _ _ hp
        simp only
        exact ih _ _ _ _ (fun l hl => hfile l (by rw [h1]; exact List.mem_append_right _ hl))
    | IN_PERIMETERS =>
      rw [mainLoop]
      cases hp : processIternalPerimeters file out m with
      | none => exact absurd hp (perimeterLoop_isSome file hfile out m [m])
      | some r =>
        obtain ⟨st, rest, out', m'⟩ := r
        obtain ⟨-, ⟨consumed, h1⟩, -⟩ := perimeterLoop_spec file _ _ _ _ _ _ _ hp
        simp only
        exact ih _ _ _ _ (fun l hl => hfile l (by rw [h1]; exact List.mem_append_right _ hl))
    | EXIT =>
      rw [mainLoop_exit]
      exact fun h => Outcome.noConfusion h

/-- The loop of `main` only appends to the output. -/
theorem mainLoop_output_grows (fuel : Nat) :
    ∀ (st : machineState) (file out : List Line) (m : movement) (res : List Line),
      mainLoop fuel st file out m = Outcome.output res → ∃ added, res = out ++ added := by
  induction fuel with
  | zero => intro st file out m res h; cases h
  | succ f ih =>
    intro st file out m res h
    cases st with
    | START_END =>
      obtain ⟨consumed, -, h2, -⟩ := processStartEnd_spec file out
      rw [mainLoop] at h
      generalize processStartEnd file out = r at h h2
      obtain ⟨st, rest, out'⟩ := r
      simp only at h h2
      obtain ⟨added, ha⟩ := ih _ _ _ _ _ h
      exact ⟨consumed ++ added, by rw [ha, h2, List.append_assoc]⟩
    | OUTSIDE_PERIMETERS =>
      rw [mainLoop] at h
      cases hp : processOutsidePerimeters file out m with
      | none => rw [hp] at h; cases h
      | some r =>
        obtain ⟨st, rest, out', m'⟩ := r
        obtain ⟨consumed, -, h2, -⟩ := processOutsidePerimeters_spec file _ _ _ _ _ _ hp
        rw [hp] at h
        simp only at h
        obtain ⟨added, ha⟩ := ih _ _ _ _ _ h
        exact ⟨consumed ++ added, by rw [ha, h2, List.append_assoc]⟩
    | IN_PERIMETERS =>
      rw [mainLoop] at h
      cases hp : processIternalPerimeters file out m with
      | none => rw [hp] at h; cases h
      | some r =>
        obtain ⟨st, rest, out', m'⟩ := r
        obtain ⟨⟨a, h2⟩, -, -⟩ := perimeterLoop_spec file _ _ _ _ _ _ _ hp
        rw [hp] at h
        simp only at h
        obtain ⟨added, ha⟩ := ih _ _ _ _ _ h
        exact ⟨a ++ added, by rw [ha, h2, List.append_assoc]⟩
    | EXIT =>
      rw [mainLoop_exit] at h
      cases h
      exact ⟨[], by simp⟩

/-- Outside the perimeters the loop of `main` copies the file. -/
theorem mainLoop_passthrough (fuel : Nat) :
    ∀ (st : machineState) (file out : List Line) (m : movement) (res : List Line),
      st ≠ machineState.IN_PERIMETERS → (st = machineState.EXIT → file = []) →
      ";TYPE:Perimeter".toList ∉ file →
      mainLoop fuel st file out m = Outcome.output res → res = out ++ file := by
  induction fuel with
  | zero => intro st file out m res _ _ _ h; cases h
  | succ f ih =>
    intro st file out m res hst hex hmark h
    cases st with
    | START_END =>
      obtain ⟨consumed, h1, h2, h3⟩ := processStartEnd_spec file out
      rw [mainLoop] at h
      generalize processStartEnd file out = r at h h1 h2 h3
      obtain ⟨st, rest, out'⟩ := r
      simp only at h h1 h2 h3
      have hm' : ";TYPE:Perimeter".toList ∉ rest :=
        fun hx => hmark (by rw [h1]; exact List.mem_append_right _ hx)
      have := ih st rest out' m res
        (by rcases h3 with ⟨h3, -⟩ | ⟨h3, -⟩ <;> rw [h3] <;> decide)
        (by
          intro hs
          rcases h3 with ⟨-, h3⟩ | ⟨h3, -⟩
          · exact h3
          · rw [h3] at hs; cases hs)
        hm' h
      rw [this, h2, h1, List.append_assoc]
    | OUTSIDE_PERIMETERS =>
      rw [mainLoop] at h
      cases hp : processOutsidePerimeters file out m with
      | none => rw [hp] at h; cases h
      | some r =>
        obtain ⟨st, rest, out', m'⟩ := r
        obtain ⟨consumed, h1, h2, h3⟩ := processOutsidePerimeters_spec file _ _ _ _ _ _ hp
        rw [hp] at h
        simp only at h
        have hm' : ";TYPE:Perimeter".toList ∉ rest :=
          fun hx => hmark (by rw [h1]; exact List.mem_append_right _ hx)
        have hst' : st ≠ machineState.IN_PERIMETERS := by
          rintro rfl
          rcases h3 with ⟨h3, -⟩ | ⟨h3 | ⟨-, h3⟩, -⟩
          · cases h3
          · cases h3
          · exact hmark (by
              rw [h1]
              exact List.mem_append_left _ (List.mem_of_mem_getLast? h3))
        have := ih st rest out' m' res hst'
          (by
            intro hs
            rcases h3 with ⟨-, h3⟩ | ⟨h3 | ⟨h3, -⟩, -⟩
            · exact h3
            · rw [h3] at hs; cases hs
            · rw [h3] at hs; cases hs)
          hm' h
        rw [this, h2, h1, List.append_assoc]
    | IN_PERIMETERS => exact absurd rfl hst
    | EXIT =>
      rw [mainLoop_exit] at h
      cases h
      rw [hex rfl, List.append_nil]

/-- C3: for every file that has no line equal to `;TYPE:Perimeter`, the
output of the program, when it completes, is the file itself, and it does
complete with that output when `updateMovement` throws on no line.  More
generally `processStartEnd` and `processOutsidePerimeters` append to the
output exactly the lines they read, in order, and neither
`processIternalPerimeters` nor the loop of `main` removes or moves a line
that is already in the output. -/
theorem pass_through_identity :
    (∀ file : List Line, ";TYPE:Perimeter".toList ∉ file →
      (∀ out, transform file = Outcome.output out → out = file)
      ∧ ((∀ l ∈ file, ∀ m, updateMovement l m ≠ none) →
          transform file = Outcome.output file))
    ∧ (∀ file out : List Line, ∃ consumed,
        file = consumed ++ (processStartEnd file out).2.1
        ∧ (processStartEnd file out).2.2 = out ++ consumed)
    ∧ (∀ (file out : List Line) (m : movement) (st : machineState) (rest out' : List Line)
        (m' : movement),
        processOutsidePerimeters file out m = some (st, rest, out', m') →
        ∃ consumed, file = consumed ++ rest ∧ out' = out ++ consumed)
    ∧ (∀ (file out : List Line) (m : movement) (st : machineState) (rest out' : List Line)
        (m' : movement),
        processIternalPerimeters file out m = some (st, rest, out', m') →
        ∃ added, out' = out ++ added)
    ∧ (∀ (fuel : Nat) (st : machineState) (file out : List Line) (m : movement)
        (res : List Line),
        mainLoop fuel st file out m = Outcome.output res → ∃ added, res = out ++ added) := by
  refine ⟨?_, ?_, ?_, ?_, ?_⟩
  · intro file hmark
    have hid : ∀ out, transform file = Outcome.output out → out = file := by
      intro out h
      have := mainLoop_passthrough _ _ _ _ _ _ (by decide) (fun h => by cases h) hmark h
      simpa using this
    refine ⟨hid, fun hfile => ?_⟩
    cases h : transform file with
    | output res => rw [hid res h]
    | exception => exact absurd h (mainLoop_no_exception _ _ _ _ _ hfile)
    | outOfFuel => exact absurd h (transform_terminates file)
  · intro file out
    obtain ⟨consumed, h1, h2, -⟩ := processStartEnd_spec file out
    exact ⟨consumed, h1, h2⟩
  · intro file out m st rest out' m' h
    obtain ⟨consumed, h1, h2, -⟩ := processOutsidePerimeters_spec file _ _ _ _ _ _ h
    exact ⟨consumed, h1, h2⟩
  · intro file out m st rest out' m' h
    exact (perimeterLoop_spec file _ _ _ _ _ _ _ h).1
  · exact mainLoop_output_grows


/-- The instance of `pass_through_identity` at a file without a perimeter
block. -/
theorem pass_through_identity_witness :
    ∃ out, transform passThroughExample = Outcome.output out ∧ out = passThroughExample :=
  ⟨passThroughExample, by decide,
    (pass_through_identity.1 passThroughExample (by decide)).1 passThroughExample
      (by decide)⟩

/-- On lines that are not exit markers the loop of
`processIternalPerimeters` reaches the end of the file with the output
unchanged, unless `updateMovement` throws. -/
theorem perimeterLoop_no_marker (file : List Line)
    (hfile : ∀ b ∈ file, isTypeExit b = false ∧ isStopMarker b = false) :
    ∀ (out : List Line) (m : movement) (pm : List movement),
      perimeterLoop file out m pm
        = (foldTrace file m).map fun r => (machineState.EXIT, [], out, r.2) := by
  induction file with
  | nil => intro out m pm; rfl
  | cons l file ih =>
    intro out m pm
    have h1 := (hfile l (List.mem_cons_self _ _)).1
    have h2 := (hfile l (List.mem_cons_self _ _)).2
    unfold perimeterLoop foldTrace
    cases hu : updateMovement l m with
    | none => rfl
    | some r =>
      obtain ⟨moved, m1⟩ := r
      simp only [h1, h2, Bool.false_eq_true, if_false]
      rw [ih (fun x hx => hfile x (List.mem_cons_of_mem _ hx)), Option.map_map]
      rfl

/-- C6: when the lines left in the file contain no exit marker,
`processIternalPerimeters` returns `EXIT` with the output unchanged (it
returns nothing only when `updateMovement` throws), the loop of `main` then
ends with that output, and the output at the entry of the block ends with
the line `;TYPE:Perimeter`: neither the lines of the block nor a
synthesized line is written. -/
theorem unterminated_block_dropped (file out : List Line) (m : movement)
    (hfile : ∀ b ∈ file, isTypeExit b = false ∧ isStopMarker b = false) :
    processIternalPerimeters file out m
        = (foldTrace file m).map (fun r => (machineState.EXIT, [], out, r.2))
    ∧ (∀ tr mf, foldTrace file m = some (tr, mf) →
        ∀ fuel, mainLoop (fuel + 2) machineState.IN_PERIMETERS file out m = Outcome.output out)
    ∧ (∀ (file0 out0 : List Line) (m0 : movement) (rest0 : List Line),
        processOutsidePerimeters file0 out0 m0
          = some (machineState.IN_PERIMETERS, rest0, out, m) →
        out.getLast? = some ";TYPE:Perimeter".toList) := by
  have key : processIternalPerimeters file out m
      = (foldTrace file m).map (fun r => (machineState.EXIT, [], out, r.2)) :=
    perimeterLoop_no_marker file hfile out m [m]
  refine ⟨key, fun tr mf hf fuel => ?_, ?_⟩
  · rw [mainLoop]
    simp only [key, hf, Option.map_some']
    exact mainLoop_exit _ _ _ _
  · intro file0 out0 m0 rest0 h
    obtain ⟨consumed, -, h2, h3⟩ := processOutsidePerimeters_spec file0 _ _ _ _ _ _ h
    rcases h3 with ⟨h3, -⟩ | ⟨h3 | ⟨-, h3⟩, -⟩
    · cases h3
    · cases h3
    · rw [h2]
      cases consumed with
      | nil => simp at h3
      | cons c cs => rw [List.getLast?_append, h3]; rfl

/-- The instance of `unterminated_block_dropped` at a block of two moves
that no marker closes, with the output of the whole program. -/
theorem unterminated_block_dropped_witness :
    processIternalPerimeters ["G1 X1 Y1 E1".toList, "G1 X2 Y1 E1".toList]
        ["; printing object".toList, ";TYPE:Perimeter".toList] {}
      = some (machineState.EXIT, [],
          ["; printing object".toList, ";TYPE:Perimeter".toList],
          { type := GCodeType.G1, endPos := (⟨2, 0⟩, ⟨1, 0⟩, ⟨0, 0⟩),
            extrusionLength := ⟨1, 0⟩ })
    ∧ transform ["; printing object".toList, ";TYPE:Perimeter".toList,
          "G1 X1 Y1 E1".toList, "G1 X2 Y1 E1".toList]
      = Outcome.output ["; printing object".toList, ";TYPE:Perimeter".toList] :=
  ⟨(unterminated_block_dropped ["G1 X1 Y1 E1".toList, "G1 X2 Y1 E1".toList]
      ["; printing object".toList, ";TYPE:Perimeter".toList] {} (by decide)).1.trans
      (by decide),
    by decide⟩

/-- The block that `processIternalPerimeters` writes for a closed perimeter
block. -/
theorem processIternalPerimeters_block (body rest out : List Line) (e : movement)
    (tr : List movement) (mb mf : movement) (marker : Line) (moved : Bool)
    (hbody : ∀ b ∈ body, isTypeExit b = false ∧ isStopMarker b = false)
    (hmarker : isTypeExit marker = true ∨ isStopMarker marker = true)
    (hfold : foldTrace body e = some (tr, mb))
    (hupd : updateMovement marker mb = some (moved, mf)) :
    processIternalPerimeters (body ++ marker :: rest) out e
        = some (if isTypeExit marker = true then machineState.OUTSIDE_PERIMETERS
            else machineState.START_END,
          rest, out ++ reverseMovementList (e :: tr ++ [idle mf]) ++ [marker], idle mf) := by
  unfold processIternalPerimeters
  rw [perimeterLoop_body body e [e] tr mb hbody hfold, perimeterLoop_marker hmarker hupd]
  rfl

/-- C2: when the segmenter is in the perimeters with the entry state `e` and
reads the lines `body`, none of them an exit marker, then the exit marker
`marker`, it appends to the output exactly the lines of
`reverseMovementList` on the trace made of `e`, the states after the lines of
`body` that reported a move, and the final state made idle, followed by
`marker`; the next state is `OUTSIDE_PERIMETERS` for a type marker and
`START_END` for the stop marker.  The lines are the same whether the final
state is taken after or before the marker itself is folded in. -/
theorem segmenter_splice (body rest out : List Line) (e : movement) (tr : List movement)
    (mb mf : movement) (marker : Line) (moved : Bool)
    (hbody : ∀ b ∈ body, isTypeExit b = false ∧ isStopMarker b = false)
    (hmarker : isTypeExit marker = true ∨ isStopMarker marker = true)
    (hfold : foldTrace body e = some (tr, mb))
    (hupd : updateMovement marker mb = some (moved, mf)) :
    processIternalPerimeters (body ++ marker :: rest) out e
        = some (if isTypeExit marker = true then machineState.OUTSIDE_PERIMETERS
            else machineState.START_END,
          rest, out ++ reverseMovementList (e :: tr ++ [idle mf]) ++ [marker], idle mf)
      ∧ reverseMovementList (e :: tr ++ [idle mf])
        = reverseMovementList (e :: tr ++ [idle mb]) := by
  constructor
  · exact processIternalPerimeters_block body rest out e tr mb mf marker moved hbody hmarker
      hfold hupd
  · obtain ⟨t, rfl⟩ := marker_is_comment hmarker
    rw [updateMovement_comment] at hupd
    obtain ⟨h1, -, -, h4, -, h6, -⟩ := updateComment_frame hupd
    exact reverseMovementList_idle_congr e tr _ _ rfl rfl h1 h6 h4

/-- The instance of `segmenter_splice` at the perimeter block of the
end-to-end scenario, followed by one more line. -/
theorem segmenter_splice_witness :
    processIternalPerimeters
        (["G1 X1 Y0 E1".toList, "G1 X1 Y1 E1".toList]
          ++ ";TYPE:Infill".toList :: ["G1 X5".toList])
        [";TYPE:Perimeter".toList] scenarioEntry
      = some (machineState.OUTSIDE_PERIMETERS, ["G1 X5".toList],
          [";TYPE:Perimeter".toList, "G0 X1.000 Y1.000".toList,
            "G1 X1.000 Y0.000 E1.00000".toList, "G1 X0.000 Y0.000 E1.00000".toList,
            "G1 X 1.000 Y 1.000 Z 0.000 F 0".toList, "M204 S0".toList,
            ";TYPE:Infill".toList],
          idle scenarioMove2) :=
  (segmenter_splice ["G1 X1 Y0 E1".toList, "G1 X1 Y1 E1".toList] ["G1 X5".toList]
      [";TYPE:Perimeter".toList] scenarioEntry [scenarioMove1, scenarioMove2] scenarioMove2
      scenarioMove2 ";TYPE:Infill".toList false (by decide) (by decide) (by decide)
      (by decide)).1.trans (by decide)

/-- The function `reverseMovementList` returns no line exactly for the traces of fewer than two entries. -/
theorem reverseMovementList_eq_nil_iff (tr : List movement) :
    reverseMovementList tr = [] ↔ tr.length < 2 := by
  constructor
  · intro h
    by_contra hlen
    have hlen2 : 2 ≤ tr.length := by omega
    obtain ⟨last, hlast⟩ : ∃ last, tr.getLast? = some last := by
      cases hl : tr.getLast? with
      | none =>
        rw [List.getLast?_eq_none_iff] at hl
        subst hl
        simp at hlen2
      | some x => exact ⟨x, rfl⟩
    obtain ⟨first, w, rfl⟩ := exists_first_last hlen2 hlast
    by_cases hidle : last.type = GCodeType.NONE
    · rw [reverseMovementList_idle first w last hidle] at h
      cases h
    · rw [reverseMovementList_move first w last hidle] at h
      cases h
  · intro h
    unfold reverseMovementList
    rw [if_pos h]

/-- C5 (amended): for a perimeter block closed by an exit marker, when no
line of the block reports a move the segmenter writes, before the marker,
the three lines `G0 X.. Y..`, `G1 X .. Y .. Z .. F ..` and `M204 S..` of the
state at the exit; when one line reports a move it writes the `G0` line, the
lines of `interpretBwdMovement` for that move, the `G1` line and the `M204`
line.  `reverseMovementList` returns no line exactly for the traces of fewer
than two entries. -/
theorem degenerate_block (body rest out : List Line) (e mb mf : movement)
    (marker : Line) (moved : Bool)
    (hbody : ∀ b ∈ body, isTypeExit b = false ∧ isStopMarker b = false)
    (hmarker : isTypeExit marker = true ∨ isStopMarker marker = true)
    (hupd : updateMovement marker mb = some (moved, mf)) :
    (foldTrace body e = some ([], mb) →
      processIternalPerimeters (body ++ marker :: rest) out e
        = some (if isTypeExit marker = true then machineState.OUTSIDE_PERIMETERS
            else machineState.START_END,
          rest,
          out ++ [openingLine (idle mf), closingLine (idle mf), accelLine (idle mf)]
            ++ [marker],
          idle mf))
    ∧ (∀ s1, foldTrace body e = some ([s1], mb) →
      processIternalPerimeters (body ++ marker :: rest) out e
        = some (if isTypeExit marker = true then machineState.OUTSIDE_PERIMETERS
            else machineState.START_END,
          rest,
          out ++ (openingLine (idle mf)
              :: (interpretBwdMovement s1 e { e with endPos := mf.endPos }
                ++ [closingLine (idle mf), accelLine (idle mf)]))
            ++ [marker],
          idle mf))
    ∧ (∀ tr : List movement, reverseMovementList tr = [] ↔ tr.length < 2) := by
  refine ⟨fun hf => ?_, fun s1 hf => ?_, reverseMovementList_eq_nil_iff⟩
  · rw [processIternalPerimeters_block body rest out e [] mb mf marker moved hbody hmarker hf
      hupd, reverseMovementList_idle e [] (idle mf) rfl]
    rfl
  · rw [processIternalPerimeters_block body rest out e [s1] mb mf marker moved hbody hmarker hf
      hupd, reverseMovementList_idle e [s1] (idle mf) rfl]
    simp [reverseWalk, idle]

/-- C5 (counterexample): on the input `; printing object`,
`;TYPE:Perimeter`, `;TYPE:Infill` the program writes six lines, three of them
synthesized, and not the three lines of the input. -/
theorem degenerate_block_counterexample :
    transform ["; printing object".toList, ";TYPE:Perimeter".toList, ";TYPE:Infill".toList]
      = Outcome.output
        ["; printing object".toList, ";TYPE:Perimeter".toList, "G0 X0.000 Y0.000".toList,
          "G1 X 0.000 Y 0.000 Z 0.000 F 0".toList, "M204 S0".toList, ";TYPE:Infill".toList]
    ∧ transform ["; printing object".toList, ";TYPE:Perimeter".toList, ";TYPE:Infill".toList]
      ≠ Outcome.output
        ["; printing object".toList, ";TYPE:Perimeter".toList, ";TYPE:Infill".toList] := by
  decide

/-- The instance of `degenerate_block` at an empty block closed by
`;TYPE:Infill`. -/
theorem degenerate_block_witness :
    processIternalPerimeters ([] ++ ";TYPE:Infill".toList :: []) [] {}
      = some (machineState.OUTSIDE_PERIMETERS, [],
          ["G0 X0.000 Y0.000".toList, "G1 X 0.000 Y 0.000 Z 0.000 F 0".toList,
            "M204 S0".toList, ";TYPE:Infill".toList], {}) :=
  ((degenerate_block [] [] [] {} {} {} ";TYPE:Infill".toList false (by decide) (by decide)
    (by decide)).1 (by decide)).trans (by decide)

/-! ## The line synthesizer: axes, tags, arc centres and shape -/

/-- A letter does not occur in a number printed in fixed notation. -/
theorem not_mem_fmtFixed {c : Char} (hc : isNumChar c = false) (p : Nat) (x : Dec) :
    c ∉ fmtFixed p x :=
  not_mem_of_isNumChar hc (isNumChar_fmtFixed p x)

/-- A letter does not occur in a printed `int`. -/
theorem not_mem_fmtInt {c : Char} (hc : isNumChar c = false) (i : Int) : c ∉ fmtInt i :=
  not_mem_of_isNumChar hc (isNumChar_fmtInt i)

/-- The command words. -/
theorem bwdCommand_mem {t : GCodeType} {cmd : Line} (h : bwdCommand t = some cmd) :
    cmd = "G0".toList ∨ cmd = "G1".toList ∨ cmd = "G2".toList ∨ cmd = "G3".toList := by
  cases t <;> simp [bwdCommand] at h <;> subst h <;> simp

/-- The letters X, Y, Z occur in a motion line exactly when the position is
printed: X and Y together when x or y differs, Z when z differs. -/
theorem motionLine_axes {current previous : movement} {l : Line}
    (h : motionLine current previous = some l) :
    ('X' ∈ l ↔ (Dec.ne current.endPos.1 previous.endPos.1
        || Dec.ne current.endPos.2.1 previous.endPos.2.1) = true)
    ∧ ('Y' ∈ l ↔ (Dec.ne current.endPos.1 previous.endPos.1
        || Dec.ne current.endPos.2.1 previous.endPos.2.1) = true)
    ∧ ('Z' ∈ l ↔ Dec.ne current.endPos.2.2 previous.endPos.2.2 = true) := by
  unfold motionLine at h
  simp only [Option.map_eq_some'] at h
  obtain ⟨cmd, hc, rfl⟩ := h
  have hX : ∀ p x, 'X' ∉ fmtFixed p x := not_mem_fmtFixed rfl
  have hY : ∀ p x, 'Y' ∉ fmtFixed p x := not_mem_fmtFixed rfl
  have hZ : ∀ p x, 'Z' ∉ fmtFixed p x := not_mem_fmtFixed rfl
  rw [motionParams_eq]
  refine ⟨?_, ?_, ?_⟩
  · rcases bwdCommand_mem hc with rfl | rfl | rfl | rfl <;>
      by_cases hxy : (Dec.ne current.endPos.1 previous.endPos.1
          || Dec.ne current.endPos.2.1 previous.endPos.2.1) = true <;>
      by_cases hz : Dec.ne current.endPos.2.2 previous.endPos.2.2 = true <;>
      by_cases ha : current.type = GCodeType.G2 ∨ current.type = GCodeType.G3 <;>
      by_cases he : Dec.ne current.extrusionLength Dec.zero = true <;>
      simp [hxy, hz, ha, he, hX]
  · rcases bwdCommand_mem hc with rfl | rfl | rfl | rfl <;>
      by_cases hxy : (Dec.ne current.endPos.1 previous.endPos.1
          || Dec.ne current.endPos.2.1 previous.endPos.2.1) = true <;>
      by_cases hz : Dec.ne current.endPos.2.2 previous.endPos.2.2 = true <;>
      by_cases ha : current.type = GCodeType.G2 ∨ current.type = GCodeType.G3 <;>
      by_cases he : Dec.ne current.extrusionLength Dec.zero = true <;>
      simp [hxy, hz, ha, he, hY]
  · rcases bwdCommand_mem hc with rfl | rfl | rfl | rfl <;>
      by_cases hxy : (Dec.ne current.endPos.1 previous.endPos.1
          || Dec.ne current.endPos.2.1 previous.endPos.2.1) = true <;>
      by_cases hz : Dec.ne current.endPos.2.2 previous.endPos.2.2 = true <;>
      by_cases ha : current.type = GCodeType.G2 ∨ current.type = GCodeType.G3 <;>
      by_cases he : Dec.ne current.extrusionLength Dec.zero = true <;>
      simp [hxy, hz, ha, he, hZ]


/-- C11 (amended): for every (current, previous, next) where `current` is a
move, the motion line of `interpretBwdMovement` contains an X parameter if
and only if the x values or the y values of `current` and `previous` differ,
a Y parameter under the same condition (X and Y are written together), and
a Z parameter if and only if the z values differ. -/
theorem minimal_diff_axes (current previous next : movement)
    (ht : current.type ≠ GCodeType.NONE) :
    ∃ l, interpretBwdMovement current previous next = changeLines current next ++ [l]
      ∧ motionLine current previous = some l
      ∧ ('X' ∈ l ↔ (Dec.ne current.endPos.1 previous.endPos.1
          || Dec.ne current.endPos.2.1 previous.endPos.2.1) = true)
      ∧ ('Y' ∈ l ↔ (Dec.ne current.endPos.1 previous.endPos.1
          || Dec.ne current.endPos.2.1 previous.endPos.2.1) = true)
      ∧ ('Z' ∈ l ↔ Dec.ne current.endPos.2.2 previous.endPos.2.2 = true) := by
  obtain ⟨cmd, hc⟩ := bwdCommand_isSome ht
  have hl : motionLine current previous = some (cmd ++ motionParams current previous) := by
    simp [motionLine, hc]
  exact ⟨_, interpretBwdMovement_of_command hc _ _, hl, motionLine_axes hl⟩

/-- C11 (counterexample): from (1,0) to (1,1) the x value is unchanged, and
the motion line of the reversed move, `G1 X1.000 Y0.000 E1.00000`, has an X
parameter. -/
theorem minimal_diff_axes_counterexample :
    scenarioMove2.type = GCodeType.G1
    ∧ Dec.ne scenarioMove2.endPos.1 scenarioMove1.endPos.1 = false
    ∧ motionLine scenarioMove2 scenarioMove1 = some "G1 X1.000 Y0.000 E1.00000".toList
    ∧ 'X' ∈ "G1 X1.000 Y0.000 E1.00000".toList := by
  decide

/-- The instance of `minimal_diff_axes` at the second move of the
end-to-end scenario. -/
theorem minimal_diff_axes_witness :
    ∃ l, interpretBwdMovement scenarioMove2 scenarioMove1 scenarioEntry
        = changeLines scenarioMove2 scenarioEntry ++ [l]
      ∧ motionLine scenarioMove2 scenarioMove1 = some l
      ∧ ('X' ∈ l ↔ (Dec.ne scenarioMove2.endPos.1 scenarioMove1.endPos.1
          || Dec.ne scenarioMove2.endPos.2.1 scenarioMove1.endPos.2.1) = true)
      ∧ ('Y' ∈ l ↔ (Dec.ne scenarioMove2.endPos.1 scenarioMove1.endPos.1
          || Dec.ne scenarioMove2.endPos.2.1 scenarioMove1.endPos.2.1) = true)
      ∧ ('Z' ∈ l ↔ Dec.ne scenarioMove2.endPos.2.2 scenarioMove1.endPos.2.2 = true) :=
  minimal_diff_axes scenarioMove2 scenarioMove1 scenarioEntry (by decide)

/-- C12: when `current` is an overhang and `next` is not,
`interpretBwdMovement` writes `;TYPE:Overhang Perimeter`, and `updateMovement`
reads this line as not an overhang (it compares with `Overhang perimeter`):
the tag does not round-trip for `true`.  For `false` the line written is
`;TYPE:Perimeter`, which reads as not an overhang. -/
theorem overhang_tag_not_read_back (m previous : movement) :
    interpretBwdMovement { overhang := true } previous {}
        = [";TYPE:Overhang Perimeter".toList]
    ∧ updateMovement ";TYPE:Overhang Perimeter".toList m
        = some (false, { m with overhang := false })
    ∧ interpretBwdMovement {} previous { overhang := true } = [";TYPE:Perimeter".toList]
    ∧ updateMovement ";TYPE:Perimeter".toList m = some (false, { m with overhang := false }) :=
  ⟨rfl, rfl, rfl, rfl⟩

/-- An optional line of `changeLines` is an optional line. -/
theorem optLine_ite (cond : Bool) (pre : String) (x : Line) :
    optLine cond pre (if cond = true then [pre.toList ++ x] else []) := by
  unfold optLine
  cases cond
  · simp
  · simp only [if_true]
    exact ⟨_, rfl, startsWith_append _ _⟩

/-- C15: `interpretBwdMovement` returns, in this order, the type comment,
the `;WIDTH:` line, the `;HEIGHT:` line, the `M204 S` line, the `M106 S`
line, the `G1 F` line and the motion line; each of the first six is present
if and only if `current` and `next` differ in overhang, lineWidth,
lineHeight, acceleration, fanSpeed, speed respectively, and the motion line
if and only if the kind of `current` is not NONE.  The number of lines is the
number of those fields that differ, plus one when the kind is not NONE, and
the result is empty when the six fields agree and the kind is NONE. -/
theorem synthesizer_shape (current previous next : movement) :
    (∃ tl wl hl al fl sl ml : List Line,
      interpretBwdMovement current previous next = tl ++ wl ++ hl ++ al ++ fl ++ sl ++ ml
      ∧ optLine (current.overhang != next.overhang) ";TYPE:" tl
      ∧ optLine (Dec.ne current.lineWidth next.lineWidth) ";WIDTH:" wl
      ∧ optLine (Dec.ne current.lineHeight next.lineHeight) ";HEIGHT:" hl
      ∧ optLine (Dec.ne current.acceleration next.acceleration) "M204 S" al
      ∧ optLine (Dec.ne current.fanSpeed next.fanSpeed) "M106 S" fl
      ∧ optLine (Dec.ne current.speed next.speed) "G1 F" sl
      ∧ (if current.type = GCodeType.NONE then ml = []
          else ∃ l, ml = [l] ∧ motionLine current previous = some l)
      ∧ (interpretBwdMovement current previous next).length
          = (if (current.overhang != next.overhang) = true then 1 else 0)
            + (if Dec.ne current.lineWidth next.lineWidth = true then 1 else 0)
            + (if Dec.ne current.lineHeight next.lineHeight = true then 1 else 0)
            + (if Dec.ne current.acceleration next.acceleration = true then 1 else 0)
            + (if Dec.ne current.fanSpeed next.fanSpeed = true then 1 else 0)
            + (if Dec.ne current.speed next.speed = true then 1 else 0)
            + (if current.type = GCodeType.NONE then 0 else 1))
      ∧ ((current.overhang != next.overhang) = false
          → Dec.ne current.lineWidth next.lineWidth = false
          → Dec.ne current.lineHeight next.lineHeight = false
          → Dec.ne current.acceleration next.acceleration = false
          → Dec.ne current.fanSpeed next.fanSpeed = false
          → Dec.ne current.speed next.speed = false
          → current.type = GCodeType.NONE
          → interpretBwdMovement current previous next = []) := by
  refine ⟨⟨_, _, _, _, _, _, (motionLine current previous).toList, rfl,
    ?_, optLine_ite _ _ _, optLine_ite _ _ _, optLine_ite _ _ _, optLine_ite _ _ _,
    optLine_ite _ _ _, ?_, ?_⟩, ?_⟩
  · unfold optLine
    by_cases h : (current.overhang != next.overhang) = true
    · rw [if_pos h, if_pos h]
      exact ⟨_, rfl, startsWith_append _ _⟩
    · rw [if_neg h, if_neg h]
  · by_cases h : current.type = GCodeType.NONE
    · rw [if_pos h]
      simp [motionLine, h, bwdCommand]
    · rw [if_neg h]
      obtain ⟨cmd, hc⟩ := bwdCommand_isSome h
      exact ⟨cmd ++ motionParams current previous, by simp [motionLine, hc],
        by simp [motionLine, hc]⟩
  · have hm : (motionLine current previous).toList.length
        = if current.type = GCodeType.NONE then 0 else 1 := by
      by_cases h : current.type = GCodeType.NONE
      · simp [motionLine, h, bwdCommand]
      · obtain ⟨cmd, hc⟩ := bwdCommand_isSome h
        simp [motionLine, hc, h]
    unfold interpretBwdMovement changeLines
    simp only [List.length_append, hm]
    by_cases h1 : (current.overhang != next.overhang) = true <;>
      by_cases h2 : Dec.ne current.lineWidth next.lineWidth = true <;>
      by_cases h3 : Dec.ne current.lineHeight next.lineHeight = true <;>
      by_cases h4 : Dec.ne current.acceleration next.acceleration = true <;>
      by_cases h5 : Dec.ne current.fanSpeed next.fanSpeed = true <;>
      by_cases h6 : Dec.ne current.speed next.speed = true <;>
      simp [h1, h2, h3, h4, h5, h6]
  · intro h1 h2 h3 h4 h5 h6 h7
    simp [interpretBwdMovement, changeLines, motionLine, bwdCommand, h1, h2, h3, h4, h5, h6, h7]

/-- The instance of `synthesizer_shape` at two default states. -/
theorem synthesizer_shape_witness : interpretBwdMovement {} scenarioMove1 {} = [] :=
  (synthesizer_shape {} scenarioMove1 {}).2 rfl rfl rfl rfl rfl rfl rfl

/-! ## The movement fold: frame and trace -/

/-- The parameters of a motion command leave the kind of motion, the width,
the height, the acceleration and the fan speed unchanged. -/
theorem updateParams_frame (line : Line) (m : movement) :
    (updateParams line m).2.type = m.type
    ∧ (updateParams line m).2.overhang = m.overhang
    ∧ (updateParams line m).2.lineWidth = m.lineWidth
    ∧ (updateParams line m).2.lineHeight = m.lineHeight
    ∧ (updateParams line m).2.acceleration = m.acceleration
    ∧ (updateParams line m).2.fanSpeed = m.fanSpeed := by
  unfold updateParams
  rcases getParam line 'X' with _ | x <;> rcases getParam line 'Y' with _ | y <;>
    rcases getParam line 'Z' with _ | z <;> rcases getParam line 'E' with _ | e <;>
    rcases getParam line 'F' with _ | f <;> rcases getParam line 'I' with _ | i <;>
    rcases getParam line 'J' with _ | j <;> exact ⟨rfl, rfl, rfl, rfl, rfl, rfl⟩

/-- The position after the parameters were read. -/
theorem updateParams_endPos (line : Line) (m : movement) :
    (updateParams line m).2.endPos
      = ((getParam line 'X').getD m.endPos.1, (getParam line 'Y').getD m.endPos.2.1,
          (getParam line 'Z').getD m.endPos.2.2) := by
  unfold updateParams
  rcases getParam line 'X' with _ | x <;> rcases getParam line 'Y' with _ | y <;>
    rcases getParam line 'Z' with _ | z <;> rcases getParam line 'E' with _ | e <;>
    rcases getParam line 'F' with _ | f <;> rcases getParam line 'I' with _ | i <;>
    rcases getParam line 'J' with _ | j <;> rfl

/-- The feed rate after the parameters were read. -/
theorem updateParams_speed (line : Line) (m : movement) :
    (updateParams line m).2.speed = (getParam line 'F').getD m.speed := by
  unfold updateParams
  rcases getParam line 'X' with _ | x <;> rcases getParam line 'Y' with _ | y <;>
    rcases getParam line 'Z' with _ | z <;> rcases getParam line 'E' with _ | e <;>
    rcases getParam line 'F' with _ | f <;> rcases getParam line 'I' with _ | i <;>
    rcases getParam line 'J' with _ | j <;> rfl

/-- On a line that is not a motion command G0 to G3, whenever
`updateMovement` returns it reports no move and leaves the kind of motion,
the position, the arc centre, the feed rate and the extrusion unchanged; a
comment line leaves the acceleration and the fan speed unchanged too, an
`M204 S` line changes the acceleration only, an `M106 S` line the fan speed
only, and any other line changes nothing. -/
theorem updateMovement_frame {line : Line} {m : movement} {r : Bool × movement}
    (hline : ∀ n, sscanfG line = some n → ¬ (0 ≤ n ∧ n ≤ 3))
    (h : updateMovement line m = some r) :
    r.1 = false ∧ r.2.type = m.type ∧ r.2.endPos = m.endPos ∧ r.2.IJ = m.IJ
      ∧ r.2.speed = m.speed ∧ r.2.extrusionLength = m.extrusionLength
      ∧ (line.head? = some ';' →
          r.2.acceleration = m.acceleration ∧ r.2.fanSpeed = m.fanSpeed)
      ∧ (line.head? ≠ some ';' → startsWith "M204 S" line = true →
          r.2 = { m with acceleration := r.2.acceleration })
      ∧ (line.head? ≠ some ';' → startsWith "M204 S" line = false →
          startsWith "M106 S" line = true → r.2 = { m with fanSpeed := r.2.fanSpeed })
      ∧ (line.head? ≠ some ';' → startsWith "M204 S" line = false →
          startsWith "M106 S" line = false → r.2 = m) := by
  unfold updateMovement at h
  split at h
  · cases h
    simp [startsWith, List.isPrefixOf]
  · rename_i c t
    by_cases hc : c = ';'
    · rw [if_pos hc] at h
      obtain ⟨h1, h2, h3, h4, h5, h6, h7⟩ := updateComment_frame h
      refine ⟨updateComment_fst h, h2, h1, h3, h6, h7, fun _ => ⟨h4, h5⟩, ?_, ?_, ?_⟩ <;>
        intro hh <;> exact absurd (by rw [hc]; rfl) hh
    rw [if_neg hc] at h
    have hhead : (c :: t).head? ≠ some ';' := by simpa using hc
    by_cases h204 : startsWith "M204 S" (c :: t) = true
    · rw [if_pos h204] at h
      simp only [Option.map_eq_some'] at h
      obtain ⟨v, -, rfl⟩ := h
      refine ⟨rfl, rfl, rfl, rfl, rfl, rfl, fun hh => absurd hh hhead, fun _ _ => rfl, ?_, ?_⟩
      · intro _ hh; rw [h204] at hh; cases hh
      · intro _ hh; rw [h204] at hh; cases hh
    rw [if_neg h204] at h
    by_cases h106 : startsWith "M106 S" (c :: t) = true
    · rw [if_pos h106] at h
      simp only [Option.map_eq_some'] at h
      obtain ⟨v, -, rfl⟩ := h
      refine ⟨rfl, rfl, rfl, rfl, rfl, rfl, fun hh => absurd hh hhead, ?_, fun _ _ _ => rfl, ?_⟩
      · intro _ hh; exact absurd hh h204
      · intro _ _ hh; rw [h106] at hh; cases hh
    rw [if_neg h106] at h
    have key : r = (false, m) := by
      split at h
      · rename_i cmdNum hcmd
        split at h
        · rename_i ty hty
          exact absurd (gcodeOfNum_range hty) (hline _ hcmd)
        · cases h; rfl
      · cases h; rfl
    subst key
    refine ⟨rfl, rfl, rfl, rfl, rfl, rfl, fun hh => absurd hh hhead, ?_, ?_, fun _ _ _ => rfl⟩
    · intro _ hh; exact absurd hh h204
    · intro _ _ hh; exact absurd hh h106

/-- C16: the line `;HEIGHT:` begins with `;`, and `updateMovement` does not
return `false` on it with the state kept: it returns nothing, the exception
of `stof` leaving the function. -/
theorem updateMovement_no_frame_on_malformed_height (m : movement) :
    ";HEIGHT:".toList.head? = some ';'
      ∧ updateMovement ";HEIGHT:".toList m = none
      ∧ updateMovement ";HEIGHT:".toList m ≠ some (false, m) :=
  ⟨rfl, rfl, fun h => Option.noConfusion h⟩

/-- A recognised command number gives a kind of motion G0 to G3. -/
theorem gcodeOfNum_ne_none {n : Int} {t : GCodeType} (h : gcodeOfNum n = some t) :
    t ≠ GCodeType.NONE := by
  unfold gcodeOfNum at h
  split_ifs at h <;> cases h <;> decide

/-- A line that reports a move is a motion command: the new state has a kind
of motion G0 to G3. -/
theorem updateMovement_moved_type {line : Line} {m m' : movement}
    (h : updateMovement line m = some (true, m')) : m'.type ≠ GCodeType.NONE := by
  by_cases hline : ∀ n, sscanfG line = some n → ¬ (0 ≤ n ∧ n ≤ 3)
  · have := (updateMovement_frame hline h).1
    cases this
  · push_neg at hline
    obtain ⟨n, hn, h0, h3⟩ := hline
    obtain ⟨t, ht⟩ := gcodeOfNum_isSome h0 h3
    rw [updateMovement_motion m hn ht] at h
    have e : m' = (updateParams line { m with type := t }).2 := by
      have := congrArg (fun r => r.map Prod.snd) h
      simpa using this.symm
    rw [e, (updateParams_frame _ _).1]
    exact gcodeOfNum_ne_none ht

/-- A line that reports no move leaves the position unchanged. -/
theorem updateMovement_not_moved_endPos {line : Line} {m m' : movement}
    (h : updateMovement line m = some (false, m')) : m'.endPos = m.endPos := by
  by_cases hline : ∀ n, sscanfG line = some n → ¬ (0 ≤ n ∧ n ≤ 3)
  · exact (updateMovement_frame hline h).2.2.1
  · push_neg at hline
    obtain ⟨n, hn, h0, h3⟩ := hline
    obtain ⟨t, ht⟩ := gcodeOfNum_isSome h0 h3
    rw [updateMovement_motion m hn ht] at h
    have e1 : (updateParams line { m with type := t }).1 = false := by
      have := congrArg (fun r => r.map Prod.fst) h
      simpa using this
    have e2 : m' = (updateParams line { m with type := t }).2 := by
      have := congrArg (fun r => r.map Prod.snd) h
      simpa using this.symm
    rw [updateParams_fst] at e1
    simp only [Bool.or_eq_false_iff] at e1
    obtain ⟨⟨⟨hx, hy⟩, hz⟩, -⟩ := e1
    have hx' : getParam line 'X' = none := by
      cases hg : getParam line 'X' with
      | none => rfl
      | some v => rw [hg] at hx; cases hx
    have hy' : getParam line 'Y' = none := by
      cases hg : getParam line 'Y' with
      | none => rfl
      | some v => rw [hg] at hy; cases hy
    have hz' : getParam line 'Z' = none := by
      cases hg : getParam line 'Z' with
      | none => rfl
      | some v => rw [hg] at hz; cases hz
    rw [e2, updateParams_endPos, hx', hy', hz']
    rfl

/-- The states that the fold collects are moves, and the position of the
final state is the position of the last state collected (of the initial
state when none is). -/
theorem foldTrace_invariant (lines : List Line) :
    ∀ (m : movement) (tr : List movement) (mf : movement),
      foldTrace lines m = some (tr, mf) →
      (∀ s ∈ tr, s.type ≠ GCodeType.NONE)
        ∧ mf.endPos = ((m :: tr).getLast (List.cons_ne_nil m tr)).endPos := by
  induction lines with
  | nil =>
    intro m tr mf h
    simp only [foldTrace, Option.some.injEq, Prod.mk.injEq] at h
    obtain ⟨rfl, rfl⟩ := h
    exact ⟨fun s hs => absurd hs (List.not_mem_nil s), rfl⟩
  | cons l lines ih =>
    intro m tr mf h
    obtain ⟨moved, m', tr', hu, hf, rfl⟩ := foldTrace_cons h
    obtain ⟨h1, h2⟩ := ih m' tr' mf hf
    cases moved with
    | true =>
      refine ⟨?_, ?_⟩
      · intro s hs
        simp only [if_true, List.singleton_append, List.mem_cons] at hs
        rcases hs with rfl | hs
        · exact updateMovement_moved_type hu
        · exact h1 s hs
      · rw [h2]
        simp only [if_true, List.singleton_append]
        rw [List.getLast_cons (List.cons_ne_nil m' tr')]
    | false =>
      refine ⟨?_, ?_⟩
      · intro s hs
        simp only [Bool.false_eq_true, if_false, List.nil_append] at hs
        exact h1 s hs
      · simp only [Bool.false_eq_true, if_false, List.nil_append]
        rw [h2]
        cases tr' with
        | nil => exact updateMovement_not_moved_endPos hu
        | cons a as =>
          rw [List.getLast_cons (List.cons_ne_nil a as),
            List.getLast_cons (List.cons_ne_nil a as)]

/-- C17: when `processIternalPerimeters` reaches an exit marker and calls
`reverseMovementList`, the trace has at least two entries, its last entry is
idle, every entry between the first and the last is a move G0 to G3, and the
position of the last entry is the position of the entry before it; so the
branch for fewer than two entries is not taken, and the block yields at least
the `G0` line, the closing `G1` line and the `M204` line. -/
theorem trace_invariant (body rest out : List Line) (e : movement) (tr : List movement)
    (mb mf : movement) (marker : Line) (moved : Bool)
    (hbody : ∀ b ∈ body, isTypeExit b = false ∧ isStopMarker b = false)
    (hmarker : isTypeExit marker = true ∨ isStopMarker marker = true)
    (hfold : foldTrace body e = some (tr, mb))
    (hupd : updateMovement marker mb = some (moved, mf)) :
    processIternalPerimeters (body ++ marker :: rest) out e
        = some (if isTypeExit marker = true then machineState.OUTSIDE_PERIMETERS
            else machineState.START_END,
          rest, out ++ reverseMovementList (e :: tr ++ [idle mf]) ++ [marker], idle mf)
    ∧ 2 ≤ (e :: tr ++ [idle mf]).length
    ∧ (e :: tr ++ [idle mf]).getLast? = some (idle mf)
    ∧ (idle mf).type = GCodeType.NONE
    ∧ (∀ s ∈ tr, s.type = GCodeType.G0 ∨ s.type = GCodeType.G1 ∨ s.type = GCodeType.G2
        ∨ s.type = GCodeType.G3)
    ∧ (idle mf).endPos = ((e :: tr).getLast (List.cons_ne_nil e tr)).endPos
    ∧ ∃ mid, reverseMovementList (e :: tr ++ [idle mf])
        = openingLine (idle mf) :: (mid ++ [closingLine (idle mf), accelLine (idle mf)]) := by
  obtain ⟨h1, h2⟩ := foldTrace_invariant body e tr mb hfold
  have hmoved : moved = false := updateMovement_marker_fst hmarker hupd
  subst hmoved
  refine ⟨processIternalPerimeters_block body rest out e tr mb mf marker false hbody hmarker
      hfold hupd, ?_, ?_, rfl, ?_, ?_, _, reverseMovementList_idle e tr (idle mf) rfl⟩
  · simp only [List.length_append, List.length_cons, List.length_singleton]
    omega
  · rw [List.getLast?_append]
    rfl
  · intro s hs
    have := h1 s hs
    cases hty : s.type <;> simp [hty] at this ⊢
  · have : mf.endPos = mb.endPos := updateMovement_not_moved_endPos hupd
    show mf.endPos = _
    rw [this, h2]

/-- The instance of `trace_invariant` at the perimeter block of the
end-to-end scenario. -/
theorem trace_invariant_witness :
    (scenarioEntry :: [scenarioMove1, scenarioMove2] ++ [idle scenarioMove2]).getLast?
        = some (idle scenarioMove2)
    ∧ ∃ mid, reverseMovementList
          (scenarioEntry :: [scenarioMove1, scenarioMove2] ++ [idle scenarioMove2])
        = openingLine (idle scenarioMove2)
          :: (mid ++ [closingLine (idle scenarioMove2), accelLine (idle scenarioMove2)]) :=
  ⟨(trace_invariant ["G1 X1 Y0 E1".toList, "G1 X1 Y1 E1".toList] [] [] scenarioEntry
      [scenarioMove1, scenarioMove2] scenarioMove2 scenarioMove2 ";TYPE:Infill".toList false
      (by decide) (by decide) (by decide) (by decide)).2.2.1,
    (trace_invariant ["G1 X1 Y0 E1".toList, "G1 X1 Y1 E1".toList] [] [] scenarioEntry
      [scenarioMove1, scenarioMove2] scenarioMove2 scenarioMove2 ";TYPE:Infill".toList false
      (by decide) (by decide) (by decide) (by decide)).2.2.2.2.2.2⟩

/-! ## Reading back a printed number -/

/-- The value of a digit character. -/
theorem digitChar_toNat (d : Nat) : (digitChar d).toNat - 48 = d % 10 := by
  unfold digitChar
  have h : d % 10 < 10 := Nat.mod_lt _ (by norm_num)
  generalize d % 10 = k at h
  interval_cases k <;> rfl

/-- Reading a digit. -/
theorem readDigits_digitChar (acc cnt d : Nat) (rest : Line) :
    readDigits acc cnt (digitChar d :: rest) = readDigits (acc * 10 + d % 10) (cnt + 1) rest := by
  rw [readDigits, if_pos (isDigit_digitChar d), digitChar_toNat]

/-- Reading stops at the end of the text and at a character that is not a
digit. -/
theorem readDigits_stop (acc cnt : Nat) (rest : Line)
    (h : ∀ c t, rest = c :: t → isDigit c = false) :
    readDigits acc cnt rest = (acc, cnt, rest) := by
  cases rest with
  | nil => rfl
  | cons c t =>
    have := h c t rfl
    rw [readDigits]
    simp [this]

/-- Reading the digits of a natural number gives the number. -/
theorem readDigits_natDigits (fuel : Nat) :
    ∀ (n acc cnt : Nat) (rest : Line), n < 10 ^ fuel →
      readDigits acc cnt (natDigits fuel n ++ rest)
        = readDigits (acc * 10 ^ (natDigits fuel n).length + n)
            (cnt + (natDigits fuel n).length) rest := by
  induction fuel with
  | zero =>
    intro n acc cnt rest h
    have hn : n = 0 := by simpa using h
    subst hn
    simp [natDigits]
  | succ f ih =>
    intro n acc cnt rest h
    unfold natDigits
    by_cases h10 : n < 10
    · rw [if_pos h10]
      simp only [List.singleton_append, List.length_singleton, pow_one]
      rw [readDigits_digitChar, Nat.mod_eq_of_lt h10]
    · rw [if_neg h10]
      have hdiv : n / 10 < 10 ^ f := by
        rw [Nat.div_lt_iff_lt_mul (by norm_num)]
        rw [pow_succ] at h
        exact h
      rw [List.append_assoc, List.singleton_append, ih (n / 10) acc cnt _ hdiv,
        readDigits_digitChar]
      simp only [List.length_append, List.length_singleton]
      congr 1
      · rw [pow_succ]
        have := Nat.div_add_mod n 10
        nlinarith [this]

/-- Reading the digits of a fraction gives the fraction. -/
theorem readDigits_fracDigits (p : Nat) :
    ∀ (n acc cnt : Nat) (rest : Line),
      readDigits acc cnt (fracDigits p n ++ rest)
        = readDigits (acc * 10 ^ p + n % 10 ^ p) (cnt + p) rest := by
  induction p with
  | zero =>
    intro n acc cnt rest
    simp [fracDigits, Nat.mod_one]
  | succ p ih =>
    intro n acc cnt rest
    unfold fracDigits
    rw [List.append_assoc, List.singleton_append, ih (n / 10) acc cnt _, readDigits_digitChar]
    congr 1
    · have h1 : n % 10 ^ (p + 1) = n % 10 + 10 * (n / 10 % 10 ^ p) := by
        rw [pow_succ, mul_comm, Nat.mod_mul]
      rw [h1, pow_succ]
      ring

/-- The digits of a printed natural number: there is at least one. -/
theorem natDigits_length_pos (fuel n : Nat) : 0 < (natDigits (fuel + 1) n).length := by
  unfold natDigits
  split_ifs <;> simp

/-- A printed natural number begins with a digit. -/
theorem fmtNat_head (n : Nat) : ∃ d t, fmtNat n = d :: t ∧ isDigit d = true := by
  have h : ∀ fuel n, ∃ d t, natDigits (fuel + 1) n = d :: t ∧ isDigit d = true := by
    intro fuel
    induction fuel with
    | zero =>
      intro n
      unfold natDigits
      by_cases h10 : n < 10
      · rw [if_pos h10]; exact ⟨_, _, rfl, isDigit_digitChar n⟩
      · rw [if_neg h10]; exact ⟨_, _, rfl, isDigit_digitChar n⟩
    | succ f ih =>
      intro n
      unfold natDigits
      by_cases h10 : n < 10
      · rw [if_pos h10]; exact ⟨_, _, rfl, isDigit_digitChar n⟩
      · rw [if_neg h10]
        obtain ⟨d, t, hd, hdig⟩ := ih (n / 10)
        rw [hd]
        exact ⟨d, t ++ [digitChar n], rfl, hdig⟩
  exact h n n

/-- Reading a printed natural number gives the number. -/
theorem readDigits_fmtNat (n : Nat) (rest : Line)
    (h : ∀ c t, rest = c :: t → isDigit c = false) :
    readDigits 0 0 (fmtNat n ++ rest) = (n, (fmtNat n).length, rest) := by
  unfold fmtNat
  have hlt : n < 10 ^ (n + 1) :=
    lt_trans (Nat.lt_pow_self (by norm_num) n) (Nat.pow_lt_pow_right (by norm_num) (by omega))
  rw [readDigits_natDigits (n + 1) n 0 0 rest hlt, readDigits_stop _ _ _ h]
  simp

/-- A digit is not a blank. -/
theorem isSpace_of_isDigit {c : Char} (h : isDigit c = true) : isSpace c = false := by
  unfold isDigit at h
  simp only [Bool.and_eq_true, decide_eq_true_eq] at h
  unfold isSpace
  have h1 : c ≠ ' ' := by rintro rfl; revert h; decide
  have h2 : c ≠ '\t' := by rintro rfl; revert h; decide
  have h3 : c ≠ '\n' := by rintro rfl; revert h; decide
  have h4 : c ≠ '\x0b' := by rintro rfl; revert h; decide
  have h5 : c ≠ '\x0c' := by rintro rfl; revert h; decide
  have h6 : c ≠ '\r' := by rintro rfl; revert h; decide
  simp [h1, h2, h3, h4, h5, h6]

/-- A text that begins with a digit has no sign. -/
theorem readSign_of_isDigit {c : Char} (h : isDigit c = true) (t : Line) :
    readSign (c :: t) = (false, c :: t) := by
  have h1 : c ≠ '-' := by rintro rfl; revert h; decide
  have h2 : c ≠ '+' := by rintro rfl; revert h; decide
  unfold readSign
  split
  · rename_i heq; simp only [List.cons.injEq] at heq; exact absurd heq.1 h1
  · rename_i heq; simp only [List.cons.injEq] at heq; exact absurd heq.1 h2
  · rfl

/-- No exponent is read at the end of the text or before a blank. -/
theorem readExponent_stop (rest : Line) (h : ∀ c t, rest = c :: t → c = ' ') :
    readExponent rest = 0 := by
  cases rest with
  | nil => rfl
  | cons c t =>
    have := h c t rfl
    subst this
    rfl

/-- The function `strtod`, step by step. -/
theorem strtod_eq (s : Line) :
    strtod s =
      (let r := readSign (s.dropWhile isSpace)
       let d := readDigits 0 0 r.2
       let f := readFraction d.1 d.2.2
       if d.2.1 + f.2.1 = 0 then none
       else
         if readExponent f.2.2 - (f.2.1 : Int) < 0 then
           some ⟨if r.1 then -(f.1 : Int) else (f.1 : Int),
             (readExponent f.2.2 - (f.2.1 : Int)).natAbs⟩
         else
           some ⟨(if r.1 then -(f.1 : Int) else (f.1 : Int))
             * 10 ^ (readExponent f.2.2 - (f.2.1 : Int)).natAbs, 0⟩) := by
  rfl

/-- The fraction after a point. -/
theorem readFraction_dot (ip : Nat) (t : Line) :
    readFraction ip ('.' :: t) = readDigits ip 0 t := rfl

/-- No fraction at the end of the text. -/
theorem readFraction_nil (ip : Nat) : readFraction ip [] = (ip, 0, []) := rfl

/-- The number that `strtod` reads from unsigned digits with a fraction of
`p` digits. -/
theorem strtod_unsigned (neg : Bool) (ip fp p : Nat) (hp : p ≠ 0) (s rest : Line)
    (hs : readSign (s.dropWhile isSpace)
      = (neg, fmtNat ip ++ ('.' :: fracDigits p fp ++ rest)))
    (hrest : ∀ c t, rest = c :: t → c = ' ') :
    strtod s
      = some ⟨if neg then -((ip * 10 ^ p + fp % 10 ^ p : Nat) : Int)
          else ((ip * 10 ^ p + fp % 10 ^ p : Nat) : Int), p⟩ := by
  have hdot : ∀ c t, ('.' :: fracDigits p fp ++ rest) = c :: t → isDigit c = false := by
    intro c t h
    simp only [List.cons_append, List.cons.injEq] at h
    rw [← h.1]; rfl
  have hrest' : ∀ c t, rest = c :: t → isDigit c = false := by
    intro c t h
    rw [hrest c t h]; rfl
  have hlen : (fmtNat ip).length ≠ 0 := Nat.pos_iff_ne_zero.1 (natDigits_length_pos ip ip)
  rw [strtod_eq, hs]
  dsimp only
  rw [readDigits_fmtNat ip _ hdot]
  dsimp only
  rw [List.cons_append, readFraction_dot, readDigits_fracDigits,
    readDigits_stop _ _ rest hrest']
  dsimp only
  rw [readExponent_stop rest hrest]
  have h1 : ¬ ((fmtNat ip).length + (0 + p) = 0) := by omega
  have h2 : (0 : Int) - ((0 + p : Nat) : Int) < 0 := by omega
  have h3 : ((0 : Int) - ((0 + p : Nat) : Int)).natAbs = p := by omega
  rw [if_neg h1, if_pos h2, h3]

/-- The number that `strtod` reads from unsigned digits without a fraction,
at the end of the text. -/
theorem strtod_unsigned_int (neg : Bool) (ip : Nat) (s : Line)
    (hs : readSign (s.dropWhile isSpace) = (neg, fmtNat ip ++ [])) :
    strtod s = some ⟨if neg then -(ip : Int) else (ip : Int), 0⟩ := by
  have hlen : (fmtNat ip).length ≠ 0 := Nat.pos_iff_ne_zero.1 (natDigits_length_pos ip ip)
  rw [strtod_eq, hs]
  dsimp only
  rw [readDigits_fmtNat ip [] (fun c t h => by cases h)]
  dsimp only
  rw [readFraction_nil]
  dsimp only
  have h1 : ¬ ((fmtNat ip).length + 0 = 0) := by omega
  have h2 : ¬ (readExponent [] - ((0 : Nat) : Int) < 0) := by
    show ¬ ((0 : Int) - ((0 : Nat) : Int) < 0)
    omega
  have h3 : (readExponent [] - ((0 : Nat) : Int)).natAbs = 0 := by
    show ((0 : Int) - ((0 : Nat) : Int)).natAbs = 0
    omega
  rw [if_neg h1, if_neg h2, h3, pow_zero, mul_one]

/-- A blank before a number is skipped. -/
theorem strtod_space (s : Line) : strtod (' ' :: s) = strtod s := rfl

/-- The sign and the digits of a number printed in fixed notation. -/
theorem readSign_fmtFixed (p : Nat) (hp : p ≠ 0) (x : Dec) (rest : Line) :
    readSign ((fmtFixed p x ++ rest).dropWhile isSpace)
      = (decide (x.mant < 0),
          fmtNat ((Dec.roundTo p x).mant.natAbs / 10 ^ p)
            ++ ('.' :: fracDigits p ((Dec.roundTo p x).mant.natAbs % 10 ^ p) ++ rest)) := by
  have hq : (Dec.roundTo p x).mant.natAbs
      = (if 10 ^ x.exp < 2 * (x.mant.natAbs * 10 ^ p % 10 ^ x.exp)
            || (2 * (x.mant.natAbs * 10 ^ p % 10 ^ x.exp) == 10 ^ x.exp
              && x.mant.natAbs * 10 ^ p / 10 ^ x.exp % 2 == 1) then
          x.mant.natAbs * 10 ^ p / 10 ^ x.exp + 1
        else x.mant.natAbs * 10 ^ p / 10 ^ x.exp) := by
    unfold Dec.roundTo
    by_cases hneg : x.mant < 0
    · simp only [hneg, if_true, Int.natAbs_neg, Int.natAbs_ofNat]
    · simp only [hneg, if_false, Int.natAbs_ofNat]
  rw [hq]
  unfold fmtFixed
  simp only [hp, if_false]
  by_cases hneg : x.mant < 0
  · simp only [hneg, if_true, decide_True, List.singleton_append, List.cons_append,
      List.append_assoc]
    rfl
  · simp only [hneg, if_false, decide_False, List.nil_append, List.append_assoc]
    obtain ⟨d, t, hd, hdig⟩ := fmtNat_head
      ((if 10 ^ x.exp < 2 * (x.mant.natAbs * 10 ^ p % 10 ^ x.exp)
            || (2 * (x.mant.natAbs * 10 ^ p % 10 ^ x.exp) == 10 ^ x.exp
              && x.mant.natAbs * 10 ^ p / 10 ^ x.exp % 2 == 1) then
          x.mant.natAbs * 10 ^ p / 10 ^ x.exp + 1
        else x.mant.natAbs * 10 ^ p / 10 ^ x.exp) / 10 ^ p)
    rw [hd, List.cons_append, List.dropWhile_cons, isSpace_of_isDigit hdig]
    simp only [Bool.false_eq_true, if_false]
    exact readSign_of_isDigit hdig _

/-- Reading back a number printed in fixed notation with `p` decimals gives
the number rounded to `p` decimals. -/
theorem strtod_fmtFixed (p : Nat) (hp : p ≠ 0) (x : Dec) (rest : Line)
    (hrest : ∀ c t, rest = c :: t → c = ' ') :
    strtod (fmtFixed p x ++ rest) = some (Dec.roundTo p x) := by
  rw [strtod_unsigned _ _ _ p hp _ rest (readSign_fmtFixed p hp x rest) hrest]
  have hpos : 0 < 10 ^ p := Nat.pos_pow_of_pos p (by norm_num)
  have e : (Dec.roundTo p x).mant.natAbs / 10 ^ p * 10 ^ p
      + (Dec.roundTo p x).mant.natAbs % 10 ^ p % 10 ^ p = (Dec.roundTo p x).mant.natAbs := by
    rw [Nat.mod_mod, Nat.div_add_mod']
  rw [e]
  have hexp : (Dec.roundTo p x).exp = p := rfl
  have hm : (if decide (x.mant < 0) = true then -((Dec.roundTo p x).mant.natAbs : Int)
      else ((Dec.roundTo p x).mant.natAbs : Int)) = (Dec.roundTo p x).mant := by
    unfold Dec.roundTo
    by_cases hneg : x.mant < 0
    · simp only [hneg, if_true, decide_True, Int.natAbs_neg, Int.natAbs_ofNat]
    · simp only [hneg, if_false, decide_False, Int.natAbs_ofNat, Bool.false_eq_true]
  rw [hm]
  rfl

/-- Reading back a printed `int` gives the integer. -/
theorem strtod_fmtInt (i : Int) : strtod (fmtInt i) = some ⟨i, 0⟩ := by
  have key : readSign ((fmtInt i).dropWhile isSpace)
      = (decide (i < 0), fmtNat i.natAbs ++ []) := by
    unfold fmtInt
    by_cases hneg : i < 0
    · simp only [hneg, if_true, decide_True, List.append_nil]
      rfl
    · simp only [hneg, if_false, decide_False, List.append_nil]
      obtain ⟨d, t, hd, hdig⟩ := fmtNat_head i.natAbs
      rw [hd, List.dropWhile_cons, isSpace_of_isDigit hdig]
      simp only [Bool.false_eq_true, if_false]
      exact readSign_of_isDigit hdig _
  rw [strtod_unsigned_int _ _ _ key]
  have hm : (if decide (i < 0) = true then -(i.natAbs : Int) else (i.natAbs : Int)) = i := by
    by_cases hneg : i < 0
    · simp only [hneg, decide_True, if_true]
      omega
    · simp only [hneg, decide_False, Bool.false_eq_true, if_false]
      omega
  rw [hm]

/-- A number printed in fixed notation always reads back. -/
theorem strtod_fmtFixed_ne_none (p : Nat) (hp : p ≠ 0) (x : Dec) :
    strtod (fmtFixed p x) ≠ none := by
  have := strtod_fmtFixed p hp x [] (fun c t h => by cases h)
  rw [List.append_nil] at this
  rw [this]
  exact fun h => Option.noConfusion h

/-- Two numbers compare equal exactly when their values are equal. -/
theorem Dec.ne_eq_false_iff (a b : Dec) : Dec.ne a b = false ↔ a.toRat = b.toRat := by
  unfold Dec.ne Dec.toRat
  have ha : (10 : ℚ) ^ a.exp ≠ 0 := pow_ne_zero _ (by norm_num)
  have hb : (10 : ℚ) ^ b.exp ≠ 0 := pow_ne_zero _ (by norm_num)
  rw [div_eq_div_iff ha hb]
  simp only [bne_eq_false_iff_eq]
  constructor
  · intro h
    have := congrArg (fun z : Int => (z : ℚ)) h
    simpa using this
  · intro h
    have : ((a.mant * 10 ^ b.exp : Int) : ℚ) = ((b.mant * 10 ^ a.exp : Int) : ℚ) := by
      push_cast; exact h
    exact_mod_cast this

/-- A number compares equal to itself. -/
theorem Dec.ne_self (a : Dec) : Dec.ne a a = false :=
  (Dec.ne_eq_false_iff a a).2 rfl

/-- A number representable with `p` decimals is not changed by rounding to
`p` decimals. -/
theorem Dec.ne_roundTo_of_fits {p : Nat} {x : Dec} (h : Dec.fits p x) :
    Dec.ne (Dec.roundTo p x) x = false := by
  unfold Dec.fits at h
  have hd : 0 < 10 ^ x.exp := Nat.pos_pow_of_pos _ (by norm_num)
  have hq : x.mant.natAbs * 10 ^ p / 10 ^ x.exp * 10 ^ x.exp = x.mant.natAbs * 10 ^ p :=
    Nat.div_mul_cancel (Nat.dvd_of_mod_eq_zero h)
  have hcond : (decide (10 ^ x.exp < 2 * (x.mant.natAbs * 10 ^ p % 10 ^ x.exp))
      || (2 * (x.mant.natAbs * 10 ^ p % 10 ^ x.exp) == 10 ^ x.exp
        && x.mant.natAbs * 10 ^ p / 10 ^ x.exp % 2 == 1)) = false := by
    rw [h]
    simp only [mul_zero, Nat.not_lt_zero, decide_False, Bool.false_or, Bool.and_eq_false_imp,
      beq_iff_eq]
    intro h0
    omega
  unfold Dec.roundTo Dec.ne
  simp only [hcond, Bool.false_eq_true, if_false, bne_eq_false_iff_eq]
  have hq' : ((x.mant.natAbs * 10 ^ p / 10 ^ x.exp : Nat) : Int) * 10 ^ x.exp
      = (x.mant.natAbs : Int) * 10 ^ p := by
    exact_mod_cast hq
  by_cases hneg : x.mant < 0
  · simp only [hneg, if_true]
    rw [neg_mul, hq']
    have : (x.mant.natAbs : Int) = -x.mant := by omega
    rw [this]; ring
  · simp only [hneg, if_false]
    rw [hq']
    have : (x.mant.natAbs : Int) = x.mant := by omega
    rw [this]

/-- An integer-valued number is not changed by truncation. -/
theorem Dec.ne_trunc_of_fits {x : Dec} (h : Dec.fits 0 x) :
    Dec.ne ⟨Dec.trunc x, 0⟩ x = false := by
  unfold Dec.fits at h
  rw [pow_zero, mul_one] at h
  have hq : x.mant.natAbs / 10 ^ x.exp * 10 ^ x.exp = x.mant.natAbs :=
    Nat.div_mul_cancel (Nat.dvd_of_mod_eq_zero h)
  have hq' : ((x.mant.natAbs / 10 ^ x.exp : Nat) : Int) * 10 ^ x.exp = (x.mant.natAbs : Int) := by
    exact_mod_cast hq
  unfold Dec.trunc Dec.ne
  simp only [bne_eq_false_iff_eq, pow_zero, mul_one]
  by_cases hneg : x.mant < 0
  · simp only [hneg, if_true]
    rw [neg_mul, hq']
    omega
  · simp only [hneg, if_false]
    rw [hq']
    omega

/-- Truncating an integer gives the integer. -/
theorem Dec.trunc_ofInt (i : Int) : Dec.trunc ⟨i, 0⟩ = i := by
  unfold Dec.trunc
  simp only [pow_zero, Nat.div_one]
  by_cases hneg : i < 0
  · simp only [hneg, if_true]; omega
  · simp only [hneg, if_false]; omega

/-- Numbers that compare equal have the same truncation. -/
theorem Dec.trunc_congr {a b : Dec} (h : Dec.ne a b = false) : Dec.trunc a = Dec.trunc b := by
  unfold Dec.ne at h
  simp only [bne_eq_false_iff_eq] at h
  have ha : 0 < 10 ^ a.exp := Nat.pos_pow_of_pos _ (by norm_num)
  have hb : 0 < 10 ^ b.exp := Nat.pos_pow_of_pos _ (by norm_num)
  have habs : a.mant.natAbs * 10 ^ b.exp = b.mant.natAbs * 10 ^ a.exp := by
    have := congrArg Int.natAbs h
    simpa [Int.natAbs_mul, Int.natAbs_pow] using this
  have hdiv : a.mant.natAbs / 10 ^ a.exp = b.mant.natAbs / 10 ^ b.exp := by
    have e1 : a.mant.natAbs / 10 ^ a.exp
        = a.mant.natAbs * 10 ^ b.exp / (10 ^ a.exp * 10 ^ b.exp) :=
      (Nat.mul_div_mul_right _ _ hb).symm
    have e2 : b.mant.natAbs / 10 ^ b.exp
        = b.mant.natAbs * 10 ^ a.exp / (10 ^ b.exp * 10 ^ a.exp) :=
      (Nat.mul_div_mul_right _ _ ha).symm
    rw [e1, e2, habs, mul_comm (10 ^ a.exp)]
  have hsign : a.mant < 0 ↔ b.mant < 0 := by
    have ha' : (0 : Int) < 10 ^ a.exp := by positivity
    have hb' : (0 : Int) < 10 ^ b.exp := by positivity
    constructor
    · intro hlt
      by_contra hge
      have h1 : a.mant * 10 ^ b.exp < 0 := mul_neg_of_neg_of_pos hlt hb'
      have h2 : 0 ≤ b.mant * 10 ^ a.exp := mul_nonneg (by omega) ha'.le
      omega
    · intro hlt
      by_contra hge
      have h1 : b.mant * 10 ^ a.exp < 0 := mul_neg_of_neg_of_pos hlt ha'
      have h2 : 0 ≤ a.mant * 10 ^ b.exp := mul_nonneg (by omega) hb'.le
      omega
  unfold Dec.trunc
  by_cases hneg : a.mant < 0
  · rw [if_pos hneg, if_pos (hsign.1 hneg), hdiv]
  · rw [if_neg hneg, if_neg (fun h => hneg (hsign.2 h)), hdiv]

/-- In the range of `int` the cast is the truncation. -/
theorem Dec.toInt_of_fitsInt {a : Dec} (h : Dec.fitsInt a) : Dec.toInt a = Dec.trunc a := by
  unfold Dec.toInt
  exact if_pos h

/-- An integer-valued number in the range of `int` is not changed by the
cast. -/
theorem Dec.ne_toInt_of_fits {x : Dec} (h : Dec.fits 0 x) (hr : Dec.fitsInt x) :
    Dec.ne ⟨Dec.toInt x, 0⟩ x = false := by
  rw [Dec.toInt_of_fitsInt hr]
  exact Dec.ne_trunc_of_fits h

/-- Comparing equal is transitive. -/
theorem Dec.ne_trans {a b c : Dec} (h1 : Dec.ne a b = false) (h2 : Dec.ne b c = false) :
    Dec.ne a c = false :=
  (Dec.ne_eq_false_iff a c).2
    (((Dec.ne_eq_false_iff a b).1 h1).trans ((Dec.ne_eq_false_iff b c).1 h2))

/-! ## Reading the synthesized lines -/

/-- The replay of no line. -/
theorem replay_nil (m : movement) : replay [] m = some m := rfl

/-- The replay of a line and more lines. -/
theorem replay_cons (l : Line) (ls : List Line) (m : movement) :
    replay (l :: ls) m = (updateMovement l m).bind fun r => replay ls r.2 := by
  have e : foldTrace (l :: ls) m
      = (match updateMovement l m with
        | none => none
        | some (moved, m') =>
          (foldTrace ls m').map fun r => ((if moved then [m'] else []) ++ r.1, r.2)) := rfl
  unfold replay
  rw [e]
  cases updateMovement l m with
  | none => rfl
  | some r =>
    obtain ⟨b, m'⟩ := r
    simp only [Option.map_map, Option.some_bind]
    rfl

/-- The replay of two lists of lines. -/
theorem replay_append (a b : List Line) (m : movement) :
    replay (a ++ b) m = (replay a m).bind (replay b) := by
  induction a generalizing m with
  | nil => rfl
  | cons l a ih =>
    rw [List.cons_append, replay_cons, replay_cons]
    cases updateMovement l m with
    | none => rfl
    | some r => simp only [Option.some_bind, ih]

/-- The replay of one line. -/
theorem replay_singleton (l : Line) (m : movement) :
    replay [l] m = (updateMovement l m).map Prod.snd := by
  rw [replay_cons]
  cases updateMovement l m with
  | none => rfl
  | some r => rfl

/-- A character that does not occur in the first part of a line is found in
the second part. -/
theorem strFind_append_of_not_mem {p : Char} {a : Line} (h : p ∉ a) (b : Line) :
    strFind p (a ++ b) = (strFind p b).map (· + a.length) := by
  induction a with
  | nil => simp
  | cons c cs ih =>
    simp only [List.mem_cons, not_or] at h
    have hc : ¬ c = p := fun e => h.1 e.symm
    rw [List.cons_append, strFind, if_neg hc, ih h.2, Option.map_map]
    congr 1

/-- A parameter whose letter does not occur in the first part of a line is
read in the second part. -/
theorem getParam_append_of_not_mem {p : Char} {a : Line} (h : p ∉ a) (b : Line) :
    getParam (a ++ b) p = getParam b p := by
  unfold getParam
  rw [strFind_append_of_not_mem h]
  cases strFind p b with
  | none => rfl
  | some pos =>
    simp only [Option.map_some', substr]
    rw [show pos + a.length + 1 = a.length + (pos + 1) by omega, List.drop_append]

/-- A parameter at the start of a text. -/
theorem getParam_cons_self (p : Char) (t : Line) : getParam (p :: t) p = stod t := by
  simp [getParam, strFind, substr]

/-- The parameter after the text `a` and the letter `p`. -/
theorem getParam_at {p : Char} {a : Line} (h : p ∉ a) (t : Line) :
    getParam (a ++ p :: t) p = stod t := by
  rw [getParam_append_of_not_mem h, getParam_cons_self]

/-- The type comments read as not an overhang. -/
theorem updateMovement_typeLine (b : Bool) (m : movement) :
    updateMovement (";TYPE:".toList
        ++ (if b = true then "Overhang Perimeter".toList else "Perimeter".toList)) m
      = some (false, { m with overhang := false }) := by
  cases b <;> rfl

/-- Reading a `;WIDTH:` line of the synthesizer. -/
theorem updateMovement_widthLine (w : Dec) (m : movement) :
    updateMovement (";WIDTH:".toList ++ fmtFixed 6 w) m
      = some (false, { m with lineWidth := Dec.roundTo 6 w }) := by
  have h1 : startsWith ";TYPE:" (";WIDTH:".toList ++ fmtFixed 6 w) = false := rfl
  have h2 : startsWith ";WIDTH:" (";WIDTH:".toList ++ fmtFixed 6 w) = true :=
    startsWith_append _ _
  have h3 : startsWith ";HEIGHT:" (";WIDTH:".toList ++ fmtFixed 6 w) = false := rfl
  have h4 : substr 7 (";WIDTH:".toList ++ fmtFixed 6 w) = fmtFixed 6 w ++ [] := by
    rw [List.append_nil]; rfl
  have h5 : updateMovement (";WIDTH:".toList ++ fmtFixed 6 w) m
      = updateComment (";WIDTH:".toList ++ fmtFixed 6 w) m := rfl
  rw [h5]
  unfold updateComment
  simp only [h1, h2, h3, h4, stof, strtod_fmtFixed 6 (by norm_num) w [] (fun c t h => by cases h),
    Bool.false_eq_true, if_false, if_true, Option.map_some', Option.some_bind]

/-- Reading a `;HEIGHT:` line of the synthesizer. -/
theorem updateMovement_heightLine (w : Dec) (m : movement) :
    updateMovement (";HEIGHT:".toList ++ fmtFixed 6 w) m
      = some (false, { m with lineHeight := Dec.roundTo 6 w }) := by
  have h1 : startsWith ";TYPE:" (";HEIGHT:".toList ++ fmtFixed 6 w) = false := rfl
  have h2 : startsWith ";WIDTH:" (";HEIGHT:".toList ++ fmtFixed 6 w) = false := rfl
  have h3 : startsWith ";HEIGHT:" (";HEIGHT:".toList ++ fmtFixed 6 w) = true :=
    startsWith_append _ _
  have h4 : substr 8 (";HEIGHT:".toList ++ fmtFixed 6 w) = fmtFixed 6 w ++ [] := by
    rw [List.append_nil]; rfl
  have h5 : updateMovement (";HEIGHT:".toList ++ fmtFixed 6 w) m
      = updateComment (";HEIGHT:".toList ++ fmtFixed 6 w) m := rfl
  rw [h5]
  unfold updateComment
  simp only [h1, h2, h3, h4, stof, strtod_fmtFixed 6 (by norm_num) w [] (fun c t h => by cases h),
    Bool.false_eq_true, if_false, if_true, Option.map_some', Option.some_bind]

/-- The function `updateMovement` on a line that is not empty. -/
theorem updateMovement_cons (c : Char) (t : Line) (m : movement) :
    updateMovement (c :: t) m
      = if c = ';' then updateComment (c :: t) m
        else if startsWith "M204 S" (c :: t) = true then
          (stof (substr 6 (c :: t))).map fun v => (false, { m with acceleration := v })
        else if startsWith "M106 S" (c :: t) = true then
          (stof (substr 6 (c :: t))).map fun v => (false, { m with fanSpeed := v })
        else
          match sscanfG (c :: t) with
          | some cmdNum =>
            match gcodeOfNum cmdNum with
            | some ty => some (updateParams (c :: t) { m with type := ty })
            | none => some (false, m)
          | none => some (false, m) := rfl

/-- Reading an `M204 S` line of the synthesizer. -/
theorem updateMovement_accelLine (i : Int) (m : movement) :
    updateMovement ("M204 S".toList ++ fmtInt i) m
      = some (false, { m with acceleration := ⟨i, 0⟩ }) := by
  have hl : "M204 S".toList ++ fmtInt i = 'M' :: ("204 S".toList ++ fmtInt i) := rfl
  have h2 : startsWith "M204 S" ('M' :: ("204 S".toList ++ fmtInt i)) = true := by
    rw [← hl]; exact startsWith_append _ _
  have h4 : substr 6 ('M' :: ("204 S".toList ++ fmtInt i)) = fmtInt i := rfl
  rw [hl, updateMovement_cons, if_neg (by decide), if_pos h2, h4, stof, strtod_fmtInt]
  rfl

/-- Reading an `M106 S` line of the synthesizer. -/
theorem updateMovement_fanLine (i : Int) (m : movement) :
    updateMovement ("M106 S".toList ++ fmtInt i) m
      = some (false, { m with fanSpeed := ⟨i, 0⟩ }) := by
  have hl : "M106 S".toList ++ fmtInt i = 'M' :: ("106 S".toList ++ fmtInt i) := rfl
  have h1 : startsWith "M204 S" ('M' :: ("106 S".toList ++ fmtInt i)) = false := rfl
  have h2 : startsWith "M106 S" ('M' :: ("106 S".toList ++ fmtInt i)) = true := by
    rw [← hl]; exact startsWith_append _ _
  have h4 : substr 6 ('M' :: ("106 S".toList ++ fmtInt i)) = fmtInt i := rfl
  rw [hl, updateMovement_cons, if_neg (by decide), h1, if_neg (by decide), if_pos h2, h4, stof,
    strtod_fmtInt]
  rfl

/-- A `G` command always returns; it leaves the width, the height, the
acceleration and the fan speed unchanged, and the feed rate too when it has
no F parameter. -/
theorem updateMovement_G_frame {line : Line} {n : Int} (hs : sscanfG line = some n)
    (m : movement) :
    ∃ r, updateMovement line m = some r
      ∧ r.2.lineWidth = m.lineWidth ∧ r.2.lineHeight = m.lineHeight
      ∧ r.2.acceleration = m.acceleration ∧ r.2.fanSpeed = m.fanSpeed
      ∧ r.2.overhang = m.overhang
      ∧ (getParam line 'F' = none → r.2.speed = m.speed) := by
  obtain ⟨t, rfl⟩ := sscanfG_head hs
  have h1 : startsWith "M204 S" ('G' :: t) = false := rfl
  have h2 : startsWith "M106 S" ('G' :: t) = false := rfl
  rw [updateMovement_cons, if_neg (by decide), h1, if_neg (by decide), h2, if_neg (by decide), hs]
  simp only
  cases hg : gcodeOfNum n with
  | none => exact ⟨_, rfl, rfl, rfl, rfl, rfl, rfl, fun _ => rfl⟩
  | some ty =>
    obtain ⟨-, f2, f3, f4, f5, f6⟩ := updateParams_frame ('G' :: t) { m with type := ty }
    refine ⟨_, rfl, f3, f4, f5, f6, f2, fun hF => ?_⟩
    rw [updateParams_speed, hF]
    rfl

/-- The value of `sscanf` on a command word followed by the end of the line
or a blank. -/
theorem sscanfG_command {cmd : Line}
    (hc : cmd = "G0".toList ∨ cmd = "G1".toList ∨ cmd = "G2".toList ∨ cmd = "G3".toList)
    {rest : Line} (hr : rest = [] ∨ ∃ t, rest = ' ' :: t) :
    ∃ n, sscanfG (cmd ++ rest) = some n := by
  rcases hc with rfl | rfl | rfl | rfl <;> rcases hr with rfl | ⟨t, rfl⟩ <;> exact ⟨_, rfl⟩

/-- The parameters of a motion line are empty or begin with a blank. -/
theorem motionParams_head (current previous : movement) :
    motionParams current previous = [] ∨ ∃ t, motionParams current previous = ' ' :: t := by
  rw [motionParams_eq]
  by_cases hxy : (Dec.ne current.endPos.1 previous.endPos.1
      || Dec.ne current.endPos.2.1 previous.endPos.2.1) = true
  · right; rw [if_pos hxy]; exact ⟨_, rfl⟩
  rw [if_neg hxy, List.nil_append]
  by_cases hz : Dec.ne current.endPos.2.2 previous.endPos.2.2 = true
  · right; rw [if_pos hz]; exact ⟨_, rfl⟩
  rw [if_neg hz, List.nil_append]
  by_cases ha : current.type = GCodeType.G2 ∨ current.type = GCodeType.G3
  · right; rw [if_pos ha]; exact ⟨_, rfl⟩
  rw [if_neg ha, List.nil_append]
  by_cases he : Dec.ne current.extrusionLength Dec.zero = true
  · right; rw [if_pos he]; exact ⟨_, rfl⟩
  · left; rw [if_neg he]

/-- The letters of the parameters of a motion line, apart from E. -/
theorem not_mem_motionParams_body {c : Char} (hc : isNumChar c = false)
    (h : c ∉ " XYZIJ".toList) (current previous : movement) :
    c ∉ (if Dec.ne current.endPos.1 previous.endPos.1
            || Dec.ne current.endPos.2.1 previous.endPos.2.1 then
          " X".toList ++ fmtFixed 3 previous.endPos.1
            ++ " Y".toList ++ fmtFixed 3 previous.endPos.2.1
        else [])
        ++ ((if Dec.ne current.endPos.2.2 previous.endPos.2.2 then
            " Z".toList ++ fmtFixed 3 previous.endPos.2.2
          else [])
        ++ (if current.type = GCodeType.G2 ∨ current.type = GCodeType.G3 then
            " I".toList
              ++ fmtFixed
                (if (Dec.ne current.endPos.1 previous.endPos.1
                    || Dec.ne current.endPos.2.1 previous.endPos.2.1
                    || Dec.ne current.endPos.2.2 previous.endPos.2.2) then 3 else 6)
                (Dec.sub (Dec.add previous.endPos.1 current.IJ.1) current.endPos.1)
              ++ " J".toList
              ++ fmtFixed
                (if (Dec.ne current.endPos.1 previous.endPos.1
                    || Dec.ne current.endPos.2.1 previous.endPos.2.1
                    || Dec.ne current.endPos.2.2 previous.endPos.2.2) then 3 else 6)
                (Dec.sub (Dec.add previous.endPos.2.1 current.IJ.2) current.endPos.2.1)
          else [])) := by
  have hn : ∀ p x, c ∉ fmtFixed p x := not_mem_fmtFixed hc
  simp only [String.toList, List.mem_cons, List.mem_singleton, not_or, List.not_mem_nil,
    not_false_eq_true, and_true] at h
  obtain ⟨h0, h1, h2, h3, h4, h5⟩ := h
  simp only [List.mem_append, not_or]
  refine ⟨?_, ?_, ?_⟩
  · split_ifs
    · simp only [String.toList, List.mem_append, List.mem_cons, List.mem_singleton,
        List.not_mem_nil, or_false, not_or]
      exact ⟨⟨⟨⟨h0, h1⟩, hn _ _⟩, h0, h2⟩, hn _ _⟩
    · exact List.not_mem_nil c
  · split_ifs
    · simp only [String.toList, List.mem_append, List.mem_cons, List.mem_singleton,
        List.not_mem_nil, or_false, not_or]
      exact ⟨⟨h0, h3⟩, hn _ _⟩
    · exact List.not_mem_nil c
  · by_cases ha : current.type = GCodeType.G2 ∨ current.type = GCodeType.G3
    · rw [if_pos ha]
      simp only [String.toList, List.mem_append, List.mem_cons, List.mem_singleton,
        List.not_mem_nil, or_false, not_or]
      exact ⟨⟨⟨⟨h0, h4⟩, hn _ _⟩, h0, h5⟩, hn _ _⟩
    · rw [if_neg ha]
      exact List.not_mem_nil c

/-! ## The extrusion carried by the synthesized lines -/

/-- A `G` line without the letter E gives no number to E. -/
theorem lineE_of_not_mem {l : Line} (h : 'E' ∉ l) : lineE l = none := by
  unfold lineE
  split_ifs
  · exact getParam_none_of_not_mem h
  · rfl

/-- A line that does not begin with `G` gives no number to E. -/
theorem lineE_of_head {l : Line} (h : l.head? ≠ some 'G') : lineE l = none := by
  unfold lineE
  rw [if_neg h]

/-- A line that begins with another character than `G` gives no number to
E. -/
theorem lineE_of_head_ne {l : Line} {c : Char} (h : l.head? = some c) (hc : c ≠ 'G') :
    lineE l = none := by
  apply lineE_of_head
  rw [h]
  exact fun e => hc (Option.some.inj e)

/-- A parameter is not read at another letter. -/
theorem getParam_cons_ne {c p : Char} (h : c ≠ p) (t : Line) :
    getParam (c :: t) p = getParam t p := by
  have : p ∉ [c] := by
    simp only [List.mem_singleton]
    exact fun e => h e.symm
  exact getParam_append_of_not_mem this t

/-- Reading back a number printed in fixed notation at the end of a line. -/
theorem stod_fmtFixed (p : Nat) (hp : p ≠ 0) (x : Dec) :
    stod (fmtFixed p x) = some (Dec.roundTo p x) := by
  have := strtod_fmtFixed p hp x [] (fun c t h => by cases h)
  rw [List.append_nil] at this
  exact this

/-- No state-change line gives a number to E. -/
theorem filterMap_lineE_changeLines (current next : movement) :
    (changeLines current next).filterMap lineE = [] := by
  have hopt : ∀ (b : Bool) (l : Line), lineE l = none →
      (if b = true then [l] else []).filterMap lineE = [] := by
    intro b l h
    cases b <;> simp [h]
  unfold changeLines
  simp only [List.filterMap_append, List.append_eq_nil]
  refine ⟨⟨⟨⟨⟨?_, ?_⟩, ?_⟩, ?_⟩, ?_⟩, ?_⟩
  · by_cases h : (current.overhang != next.overhang) = true
    · rw [if_pos h]
      have : lineE (";TYPE:".toList
          ++ if current.overhang = true then "Overhang Perimeter".toList
            else "Perimeter".toList) = none :=
        lineE_of_head_ne (c := ';') rfl (by decide)
      rw [List.filterMap_cons, this]
      rfl
    · rw [if_neg h]; rfl
  · exact hopt _ _ (lineE_of_head_ne (c := ';') rfl (by decide))
  · exact hopt _ _ (lineE_of_head_ne (c := ';') rfl (by decide))
  · exact hopt _ _ (lineE_of_head_ne (c := 'M') rfl (by decide))
  · exact hopt _ _ (lineE_of_head_ne (c := 'M') rfl (by decide))
  · refine hopt _ _ (lineE_of_not_mem ?_)
    rw [List.mem_append, not_or]
    exact ⟨by decide, not_mem_fmtInt (c := 'E') rfl _⟩

/-- The number that a motion line gives to E: the extrusion of the move
rounded to 5 decimals when it is not 0, nothing when it is 0. -/
theorem lineE_motionLine {current previous : movement} {l : Line}
    (h : motionLine current previous = some l) :
    lineE l = if Dec.ne current.extrusionLength Dec.zero = true then
        some (Dec.roundTo 5 current.extrusionLength)
      else none := by
  unfold motionLine at h
  simp only [Option.map_eq_some'] at h
  obtain ⟨cmd, hc, rfl⟩ := h
  have hbody := not_mem_motionParams_body (c := 'E') rfl (by decide) current previous
  have hcmd : 'E' ∉ cmd := by
    rcases bwdCommand_mem hc with rfl | rfl | rfl | rfl <;> decide
  have hhead : (cmd ++ motionParams current previous).head? = some 'G' := by
    rcases bwdCommand_mem hc with rfl | rfl | rfl | rfl <;> rfl
  rw [motionParams_eq]
  rw [motionParams_eq] at hhead
  simp only [List.mem_append, not_or] at hbody
  obtain ⟨hA, hB, hC⟩ := hbody
  by_cases he : Dec.ne current.extrusionLength Dec.zero = true
  · rw [if_pos he] at hhead ⊢
    unfold lineE
    rw [if_pos hhead, if_pos he, getParam_append_of_not_mem hcmd,
      getParam_append_of_not_mem hA, getParam_append_of_not_mem hB,
      getParam_append_of_not_mem hC]
    show getParam (' ' :: 'E' :: fmtFixed 5 current.extrusionLength) 'E' = _
    rw [getParam_cons_ne (by decide), getParam_cons_self, stod_fmtFixed 5 (by norm_num)]
  · rw [if_neg he] at hhead ⊢
    rw [if_neg he]
    apply lineE_of_not_mem
    simp only [List.append_nil, List.mem_append, not_or]
    exact ⟨hcmd, hA, hB, hC⟩

/-- The numbers that the lines of the walk give to E. -/
theorem filterMap_lineE_reverseWalk (r : List movement) :
    ∀ next, (∀ s ∈ r.dropLast, s.type ≠ GCodeType.NONE) →
      (reverseWalk r next).filterMap lineE
        = (r.dropLast.filter fun s => Dec.ne s.extrusionLength Dec.zero).map
            fun s => Dec.roundTo 5 s.extrusionLength := by
  induction r with
  | nil => intro next _; rfl
  | cons c rest ih =>
    intro next ht
    cases rest with
    | nil => rfl
    | cons p rest =>
      have hc : c.type ≠ GCodeType.NONE := ht c (by simp [List.dropLast])
      obtain ⟨cmd, hcmd⟩ := bwdCommand_isSome hc
      have hl : motionLine c p = some (cmd ++ motionParams c p) := by simp [motionLine, hcmd]
      rw [reverseWalk_cons_cons, interpretBwdMovement_of_command hcmd]
      simp only [List.filterMap_append, filterMap_lineE_changeLines, List.nil_append,
        List.filterMap_cons, List.filterMap_nil, lineE_motionLine hl, List.dropLast_cons₂]
      rw [ih c (fun s hs => ht s (by simp [List.dropLast] at hs ⊢; exact Or.inr hs))]
      by_cases he : Dec.ne c.extrusionLength Dec.zero = true
      · simp [he, List.filter_cons]
      · simp [he, List.filter_cons]

/-- The value of the number 0. -/
theorem Dec.toRat_zero : Dec.zero.toRat = 0 := by
  simp [Dec.toRat, Dec.zero]

/-- The sum of the extrusions rounded to 5 decimals, over the moves whose
extrusion is not 0, is the sum of all the extrusions when these are
representable with 5 decimals. -/
theorem sum_roundTo_filter (l : List movement)
    (hfits : ∀ s ∈ l, Dec.fits 5 s.extrusionLength) :
    List.Forall₂ (fun (v : Dec) (s : movement) => Dec.ne v s.extrusionLength = false)
        ((l.filter fun s => Dec.ne s.extrusionLength Dec.zero).map
          fun s => Dec.roundTo 5 s.extrusionLength)
        (l.filter fun s => Dec.ne s.extrusionLength Dec.zero)
      ∧ (((l.filter fun s => Dec.ne s.extrusionLength Dec.zero).map
          fun s => Dec.roundTo 5 s.extrusionLength).map Dec.toRat).sum
        = (l.map fun s => s.extrusionLength.toRat).sum := by
  induction l with
  | nil => exact ⟨List.Forall₂.nil, rfl⟩
  | cons a l ih =>
    obtain ⟨ih1, ih2⟩ := ih (fun s hs => hfits s (List.mem_cons_of_mem _ hs))
    have hfa : Dec.ne (Dec.roundTo 5 a.extrusionLength) a.extrusionLength = false :=
      Dec.ne_roundTo_of_fits (hfits a (List.mem_cons_self _ _))
    by_cases he : Dec.ne a.extrusionLength Dec.zero = true
    · simp only [List.filter_cons, he, if_true, List.map_cons, List.sum_cons]
      refine ⟨List.Forall₂.cons hfa ih1, ?_⟩
      rw [ih2, (Dec.ne_eq_false_iff _ _).1 hfa]
    · simp only [List.filter_cons, he, if_false, List.map_cons, List.sum_cons,
        Bool.false_eq_true]
      refine ⟨ih1, ?_⟩
      have hz : a.extrusionLength.toRat = 0 := by
        rw [(Dec.ne_eq_false_iff _ _).1 (by simpa using he), Dec.toRat_zero]
      rw [ih2, hz, zero_add]

/-- C18 (amended): for every trace s0..sn followed by an idle sentinel, with
s1..sn of kind G0 to G3, the sequence of E values carried by the `G` lines
of `reverseMovementList` is the sequence of the non-zero extrusionLength
values of s_n, ..., s_1, in that order, each rounded to the 5 decimals it is
printed with (an entry with extrusionLength 0 gets no E parameter), and
neither the opening G0 nor the closing G1 carries an E parameter; when the
extrusionLength values of s1..sn are representable with 5 decimals, the
emitted values equal them and the sum of the emitted E values equals the sum
of the extrusionLength of s1..sn.  The extrusionLength of s0 is not among
the emitted values. -/
theorem extrusion_preserved (s0 : movement) (ss : List movement) (sentinel : movement)
    (hsent : sentinel.type = GCodeType.NONE)
    (htypes : ∀ s ∈ ss, s.type ≠ GCodeType.NONE) :
    (reverseMovementList (s0 :: ss ++ [sentinel])).filterMap lineE
        = (ss.reverse.filter fun s => Dec.ne s.extrusionLength Dec.zero).map
            (fun s => Dec.roundTo 5 s.extrusionLength)
    ∧ lineE (openingLine sentinel) = none
    ∧ lineE (closingLine sentinel) = none
    ∧ ((∀ s ∈ ss, Dec.fits 5 s.extrusionLength) →
        List.Forall₂ (fun (v : Dec) (s : movement) => Dec.ne v s.extrusionLength = false)
            ((reverseMovementList (s0 :: ss ++ [sentinel])).filterMap lineE)
            (ss.reverse.filter fun s => Dec.ne s.extrusionLength Dec.zero)
          ∧ (((reverseMovementList (s0 :: ss ++ [sentinel])).filterMap lineE).map
              Dec.toRat).sum
            = (ss.map fun s => s.extrusionLength.toRat).sum) := by
  have hE : ∀ p x, 'E' ∉ fmtFixed p x := not_mem_fmtFixed rfl
  have ho : lineE (openingLine sentinel) = none := by
    apply lineE_of_not_mem
    unfold openingLine
    simp only [List.mem_append, not_or]
    exact ⟨⟨⟨by decide, hE _ _⟩, by decide⟩, hE _ _⟩
  have hcl : lineE (closingLine sentinel) = none := by
    apply lineE_of_not_mem
    unfold closingLine
    simp only [List.mem_append, not_or]
    exact ⟨⟨⟨⟨⟨⟨⟨⟨by decide, by decide⟩, hE _ _⟩, by decide⟩, hE _ _⟩, by decide⟩, hE _ _⟩,
      by decide⟩, not_mem_fmtInt (c := 'E') rfl _⟩
  have ha : lineE (accelLine sentinel) = none := lineE_of_head_ne (c := 'M') rfl (by decide)
  have hdrop : ∀ s ∈ (s0 :: ss).reverse.dropLast, s.type ≠ GCodeType.NONE := by
    intro s hs
    rw [List.reverse_cons, List.dropLast_concat] at hs
    exact htypes s (List.mem_reverse.1 hs)
  have key : (reverseMovementList (s0 :: ss ++ [sentinel])).filterMap lineE
      = (ss.reverse.filter fun s => Dec.ne s.extrusionLength Dec.zero).map
          (fun s => Dec.roundTo 5 s.extrusionLength) := by
    rw [reverseMovementList_idle s0 ss sentinel hsent]
    simp only [List.filterMap_cons, List.filterMap_append, ho, hcl, ha, List.filterMap_nil,
      List.append_nil]
    rw [filterMap_lineE_reverseWalk _ _ hdrop, List.reverse_cons, List.dropLast_concat]
  refine ⟨key, ho, hcl, fun hfits => ?_⟩
  rw [key]
  obtain ⟨h1, h2⟩ := sum_roundTo_filter ss.reverse
    (fun s hs => hfits s (List.mem_reverse.1 hs))
  refine ⟨h1, ?_⟩
  rw [h2, List.map_reverse, List.sum_reverse]

/-! ## Replaying the synthesized lines -/

/-- Reading a `G1 F` line of the synthesizer: it sets the feed rate and
leaves the width, the height, the acceleration and the fan speed. -/
theorem updateMovement_speedLine (i : Int) (m : movement) :
    ∃ r, updateMovement ("G1 F".toList ++ fmtInt i) m = some r
      ∧ r.2.lineWidth = m.lineWidth ∧ r.2.lineHeight = m.lineHeight
      ∧ r.2.acceleration = m.acceleration ∧ r.2.fanSpeed = m.fanSpeed
      ∧ r.2.speed = ⟨i, 0⟩ := by
  have hs : sscanfG ("G1 F".toList ++ fmtInt i) = some 1 := rfl
  have hg : gcodeOfNum 1 = some GCodeType.G1 := rfl
  have hF : getParam ("G1 F".toList ++ fmtInt i) 'F' = some ⟨i, 0⟩ := by
    show getParam ("G1 ".toList ++ 'F' :: fmtInt i) 'F' = _
    rw [getParam_at (by decide), stod, strtod_fmtInt]
  obtain ⟨-, -, f3, f4, f5, f6⟩ :=
    updateParams_frame ("G1 F".toList ++ fmtInt i) { m with type := GCodeType.G1 }
  refine ⟨_, updateMovement_motion m hs hg, f3, f4, f5, f6, ?_⟩
  rw [updateParams_speed, hF]
  rfl

/-- The replay of an optional line. -/
theorem replay_optional (b : Bool) (l : Line) (m : movement) {r : Bool × movement}
    (h : updateMovement l m = some r) :
    replay (if b = true then [l] else []) m = some (if b = true then r.2 else m) := by
  cases b
  · rfl
  · simp only [if_true]
    rw [replay_singleton, h]
    rfl

/-- The replay of the state-change lines: the fields that differ between
`current` and `next` are set from `current`, the width and the height rounded
to 6 decimals, the acceleration, the fan speed and the feed rate cast to
`int`; the other ones of these fields keep their value. -/
theorem replay_changeLines (current next m : movement) :
    ∃ m', replay (changeLines current next) m = some m'
      ∧ m'.lineWidth = (if Dec.ne current.lineWidth next.lineWidth = true then
          Dec.roundTo 6 current.lineWidth else m.lineWidth)
      ∧ m'.lineHeight = (if Dec.ne current.lineHeight next.lineHeight = true then
          Dec.roundTo 6 current.lineHeight else m.lineHeight)
      ∧ m'.acceleration = (if Dec.ne current.acceleration next.acceleration = true then
          ⟨current.acceleration.toInt, 0⟩ else m.acceleration)
      ∧ m'.fanSpeed = (if Dec.ne current.fanSpeed next.fanSpeed = true then
          ⟨current.fanSpeed.toInt, 0⟩ else m.fanSpeed)
      ∧ m'.speed = (if Dec.ne current.speed next.speed = true then
          ⟨current.speed.toInt, 0⟩ else m.speed) := by
  -- the type comment
  have s1 := replay_optional (current.overhang != next.overhang) _ m
    (updateMovement_typeLine current.overhang m)
  generalize hm1 : (if (current.overhang != next.overhang) = true then
      ((false, { m with overhang := false }) : Bool × movement).2 else m) = m1 at s1
  have w1 : m1.lineWidth = m.lineWidth ∧ m1.lineHeight = m.lineHeight
      ∧ m1.acceleration = m.acceleration ∧ m1.fanSpeed = m.fanSpeed ∧ m1.speed = m.speed := by
    rw [← hm1]; split_ifs <;> exact ⟨rfl, rfl, rfl, rfl, rfl⟩
  clear hm1
  -- the width
  have s2 := replay_optional (Dec.ne current.lineWidth next.lineWidth) _ m1
    (updateMovement_widthLine current.lineWidth m1)
  generalize hm2 : (if Dec.ne current.lineWidth next.lineWidth = true then
      ((false, { m1 with lineWidth := Dec.roundTo 6 current.lineWidth })
        : Bool × movement).2 else m1) = m2 at s2
  have w2 : m2.lineWidth = (if Dec.ne current.lineWidth next.lineWidth = true then
        Dec.roundTo 6 current.lineWidth else m1.lineWidth)
      ∧ m2.lineHeight = m1.lineHeight
      ∧ m2.acceleration = m1.acceleration ∧ m2.fanSpeed = m1.fanSpeed
      ∧ m2.speed = m1.speed := by
    rw [← hm2]; split_ifs <;> exact ⟨rfl, rfl, rfl, rfl, rfl⟩
  clear hm2
  -- the height
  have s3 := replay_optional (Dec.ne current.lineHeight next.lineHeight) _ m2
    (updateMovement_heightLine current.lineHeight m2)
  generalize hm3 : (if Dec.ne current.lineHeight next.lineHeight = true then
      ((false, { m2 with lineHeight := Dec.roundTo 6 current.lineHeight })
        : Bool × movement).2 else m2) = m3 at s3
  have w3 : m3.lineWidth = m2.lineWidth
      ∧ m3.lineHeight = (if Dec.ne current.lineHeight next.lineHeight = true then
        Dec.roundTo 6 current.lineHeight else m2.lineHeight)
      ∧ m3.acceleration = m2.acceleration ∧ m3.fanSpeed = m2.fanSpeed
      ∧ m3.speed = m2.speed := by
    rw [← hm3]; split_ifs <;> exact ⟨rfl, rfl, rfl, rfl, rfl⟩
  clear hm3
  -- the acceleration
  have s4 := replay_optional (Dec.ne current.acceleration next.acceleration) _ m3
    (updateMovement_accelLine current.acceleration.toInt m3)
  generalize hm4 : (if Dec.ne current.acceleration next.acceleration = true then
      ((false, { m3 with acceleration := ⟨current.acceleration.toInt, 0⟩ })
        : Bool × movement).2 else m3) = m4 at s4
  have w4 : m4.lineWidth = m3.lineWidth ∧ m4.lineHeight = m3.lineHeight
      ∧ m4.acceleration = (if Dec.ne current.acceleration next.acceleration = true then
        ⟨current.acceleration.toInt, 0⟩ else m3.acceleration)
      ∧ m4.fanSpeed = m3.fanSpeed ∧ m4.speed = m3.speed := by
    rw [← hm4]; split_ifs <;> exact ⟨rfl, rfl, rfl, rfl, rfl⟩
  clear hm4
  -- the fan speed
  have s5 := replay_optional (Dec.ne current.fanSpeed next.fanSpeed) _ m4
    (updateMovement_fanLine current.fanSpeed.toInt m4)
  generalize hm5 : (if Dec.ne current.fanSpeed next.fanSpeed = true then
      ((false, { m4 with fanSpeed := ⟨current.fanSpeed.toInt, 0⟩ })
        : Bool × movement).2 else m4) = m5 at s5
  have w5 : m5.lineWidth = m4.lineWidth ∧ m5.lineHeight = m4.lineHeight
      ∧ m5.acceleration = m4.acceleration
      ∧ m5.fanSpeed = (if Dec.ne current.fanSpeed next.fanSpeed = true then
        ⟨current.fanSpeed.toInt, 0⟩ else m4.fanSpeed)
      ∧ m5.speed = m4.speed := by
    rw [← hm5]; split_ifs <;> exact ⟨rfl, rfl, rfl, rfl, rfl⟩
  clear hm5
  -- the feed rate
  obtain ⟨r6, h6, a6, b6, c6, d6, e6⟩ := updateMovement_speedLine current.speed.toInt m5
  have s6 := replay_optional (Dec.ne current.speed next.speed) _ m5 h6
  generalize hm6 : (if Dec.ne current.speed next.speed = true then r6.2 else m5) = m6 at s6
  have w6 : m6.lineWidth = m5.lineWidth ∧ m6.lineHeight = m5.lineHeight
      ∧ m6.acceleration = m5.acceleration ∧ m6.fanSpeed = m5.fanSpeed
      ∧ m6.speed = (if Dec.ne current.speed next.speed = true then
        ⟨current.speed.toInt, 0⟩ else m5.speed) := by
    rw [← hm6]; split_ifs
    · exact ⟨a6, b6, c6, d6, e6⟩
    · exact ⟨rfl, rfl, rfl, rfl, rfl⟩
  clear hm6
  refine ⟨m6, ?_, ?_, ?_, ?_, ?_, ?_⟩
  · unfold changeLines
    rw [replay_append, replay_append, replay_append, replay_append, replay_append, s1,
      Option.some_bind, s2, Option.some_bind, s3, Option.some_bind, s4, Option.some_bind, s5,
      Option.some_bind, s6]
  · rw [w6.1, w5.1, w4.1, w3.1, w2.1, w1.1]
  · rw [w6.2.1, w5.2.1, w4.2.1, w3.2.1, w2.2.1, w1.2.1]
  · rw [w6.2.2.1, w5.2.2.1, w4.2.2.1, w3.2.2.1, w2.2.2.1, w1.2.2.1]
  · rw [w6.2.2.2.1, w5.2.2.2.1, w4.2.2.2.1, w3.2.2.2.1, w2.2.2.2.1, w1.2.2.2.1]
  · rw [w6.2.2.2.2, w5.2.2.2.2, w4.2.2.2.2, w3.2.2.2.2, w2.2.2.2.2, w1.2.2.2.2]

/-- Comparing equal is symmetric. -/
theorem Dec.ne_symm {a b : Dec} (h : Dec.ne a b = false) : Dec.ne b a = false :=
  (Dec.ne_eq_false_iff b a).2 ((Dec.ne_eq_false_iff a b).1 h).symm

/-- After the state-change lines for `current`, a state that had the
metadata of `next` has the metadata of `current`. -/
theorem metaMatch_changeLines {current next m : movement} (hm : metaMatch m next)
    (hp : metaPrintable current) :
    ∃ m', replay (changeLines current next) m = some m' ∧ metaMatch m' current := by
  obtain ⟨hw, hh, ha, hf, hs⟩ := hp
  obtain ⟨m', hr, f1, f2, f3, f4, f5⟩ := replay_changeLines current next m
  obtain ⟨g1, g2, g3, g4, g5⟩ := hm
  refine ⟨m', hr, ?_, ?_, ?_, ?_, ?_⟩
  · rw [f1]
    by_cases h : Dec.ne current.lineWidth next.lineWidth = true
    · rw [if_pos h]; exact Dec.ne_roundTo_of_fits hw
    · rw [if_neg h]
      exact Dec.ne_trans g1 (Dec.ne_symm (by simpa using h))
  · rw [f2]
    by_cases h : Dec.ne current.lineHeight next.lineHeight = true
    · rw [if_pos h]; exact Dec.ne_roundTo_of_fits hh
    · rw [if_neg h]
      exact Dec.ne_trans g2 (Dec.ne_symm (by simpa using h))
  · rw [f3]
    by_cases h : Dec.ne current.acceleration next.acceleration = true
    · rw [if_pos h, Dec.trunc_ofInt, Dec.toInt_of_fitsInt ha]
    · rw [if_neg h, g3]
      exact (Dec.trunc_congr (by simpa using h)).symm
  · rw [f4]
    by_cases h : Dec.ne current.fanSpeed next.fanSpeed = true
    · rw [if_pos h, Dec.trunc_ofInt, Dec.toInt_of_fitsInt hf]
    · rw [if_neg h, g4]
      exact (Dec.trunc_congr (by simpa using h)).symm
  · rw [f5]
    by_cases h : Dec.ne current.speed next.speed = true
    · rw [if_pos h, Dec.trunc_ofInt, Dec.toInt_of_fitsInt hs]
    · rw [if_neg h, g5]
      exact (Dec.trunc_congr (by simpa using h)).symm

/-- The characters of a motion line: no F. -/
theorem not_mem_motionLine_F {current previous : movement} {l : Line}
    (h : motionLine current previous = some l) : 'F' ∉ l := by
  unfold motionLine at h
  simp only [Option.map_eq_some'] at h
  obtain ⟨cmd, hc, rfl⟩ := h
  have hbody := not_mem_motionParams_body (c := 'F') rfl (by decide) current previous
  have hcmd : 'F' ∉ cmd := by
    rcases bwdCommand_mem hc with rfl | rfl | rfl | rfl <;> decide
  rw [motionParams_eq]
  simp only [List.mem_append, not_or] at hbody ⊢
  refine ⟨hcmd, hbody.1, hbody.2.1, hbody.2.2, ?_⟩
  split_ifs
  · simp only [List.mem_append, not_or]
    exact ⟨by decide, not_mem_fmtFixed (c := 'F') rfl _ _⟩
  · exact List.not_mem_nil _

/-- A motion line is read as a `G` command. -/
theorem sscanfG_motionLine {current previous : movement} {l : Line}
    (h : motionLine current previous = some l) : ∃ n, sscanfG l = some n := by
  unfold motionLine at h
  simp only [Option.map_eq_some'] at h
  obtain ⟨cmd, hc, rfl⟩ := h
  exact sscanfG_command (bwdCommand_mem hc) (motionParams_head current previous)

/-- Replaying a motion line keeps the metadata. -/
theorem metaMatch_motionLine {current previous m s : movement} {l : Line}
    (h : motionLine current previous = some l) (hm : metaMatch m s) :
    ∃ m', replay [l] m = some m' ∧ metaMatch m' s := by
  obtain ⟨n, hn⟩ := sscanfG_motionLine h
  obtain ⟨r, hr, f1, f2, f3, f4, -, f5⟩ := updateMovement_G_frame hn m
  have f5' := f5 (getParam_none_of_not_mem (not_mem_motionLine_F h))
  refine ⟨r.2, by rw [replay_singleton, hr]; rfl, ?_⟩
  unfold metaMatch
  rw [f1, f2, f3, f4, f5']
  exact hm

/-- Replaying the opening line keeps the metadata. -/
theorem metaMatch_openingLine (lastOriginal : movement) {m s : movement}
    (hm : metaMatch m s) :
    ∃ m', replay [openingLine lastOriginal] m = some m' ∧ metaMatch m' s := by
  have hn : sscanfG (openingLine lastOriginal) = some 0 := rfl
  have hF : 'F' ∉ openingLine lastOriginal := by
    unfold openingLine
    simp only [List.mem_append, not_or]
    exact ⟨⟨⟨by decide, not_mem_fmtFixed (c := 'F') rfl _ _⟩, by decide⟩, not_mem_fmtFixed (c := 'F') rfl _ _⟩
  obtain ⟨r, hr, f1, f2, f3, f4, -, f5⟩ := updateMovement_G_frame hn m
  have f5' := f5 (getParam_none_of_not_mem hF)
  refine ⟨r.2, by rw [replay_singleton, hr]; rfl, ?_⟩
  unfold metaMatch
  rw [f1, f2, f3, f4, f5']
  exact hm

/-- A state has its own metadata. -/
theorem metaMatch_refl (m : movement) : metaMatch m m :=
  ⟨Dec.ne_self _, Dec.ne_self _, rfl, rfl, rfl⟩

/-- The last of a list that begins with `a`, or the default. -/
theorem getLast?_getD_cons (a : movement) (l : List movement) (d : movement) :
    ((a :: l).getLast?).getD d = (l.getLast?).getD a := by
  cases l with
  | nil => rfl
  | cons b l => rw [List.getLast?_cons_cons]; simp [List.getLast?_cons]

/-- Replaying the motion line of an entry, when it has one, keeps the
metadata. -/
theorem metaMatch_motionLine_toList (current previous : movement) {m s : movement}
    (hm : metaMatch m s) :
    ∃ m', replay (motionLine current previous).toList m = some m' ∧ metaMatch m' s := by
  cases h : motionLine current previous with
  | none => exact ⟨m, rfl, hm⟩
  | some l => exact metaMatch_motionLine h hm

/-- The walk up to the entry `cur`, then the state-change lines of `cur`:
replayed from a state with the metadata of `next`, they give a state with
the metadata of `cur`. -/
theorem metaMatch_reverseWalk (A : List movement) :
    ∀ (next m cur : movement), metaMatch m next →
      (∀ s ∈ A ++ [cur], metaPrintable s) →
      ∃ m', replay (reverseWalk (A ++ [cur]) next
          ++ changeLines cur ((A.getLast?).getD next)) m = some m'
        ∧ metaMatch m' cur := by
  induction A with
  | nil =>
    intro next m cur hm hall
    exact metaMatch_changeLines hm (hall cur (by simp))
  | cons a A ih =>
    intro next m cur hm hall
    have ha := hall a (by simp)
    obtain ⟨x, xs, hx⟩ : ∃ x xs, A ++ [cur] = x :: xs := by
      cases A with
      | nil => exact ⟨_, _, rfl⟩
      | cons x xs => exact ⟨_, _, rfl⟩
    obtain ⟨m1, r1, hm1⟩ := metaMatch_changeLines hm ha
    obtain ⟨m2, r2, hm2⟩ := metaMatch_motionLine_toList a x hm1
    obtain ⟨m3, r3, hm3⟩ := ih a m2 cur hm2
      (fun s hs => hall s (by rw [List.cons_append]; exact List.mem_cons_of_mem _ hs))
    refine ⟨m3, ?_, hm3⟩
    rw [getLast?_getD_cons, List.cons_append, hx, reverseWalk_cons_cons,
      interpretBwdMovement, ← hx, List.append_assoc, List.append_assoc,
      replay_append, r1, Option.some_bind, replay_append, r2, Option.some_bind, r3]

/-- A member of an optional line is that line. -/
theorem eq_of_mem_ite_singleton {c : Prop} [Decidable c] {a l : Line}
    (h : l ∈ (if c then [a] else [])) : l = a := by
  by_cases hc : c
  · rw [if_pos hc, List.mem_singleton] at h; exact h
  · rw [if_neg hc] at h; exact absurd h (List.not_mem_nil l)

/-- Every state-change line is read without an exception. -/
theorem updateMovement_changeLines_isSome {current next : movement} {l : Line}
    (h : l ∈ changeLines current next) (m : movement) : ∃ r, updateMovement l m = some r := by
  unfold changeLines at h
  simp only [List.mem_append] at h
  rcases h with ((((h | h) | h) | h) | h) | h
  · rw [eq_of_mem_ite_singleton h]
    exact ⟨_, updateMovement_typeLine _ m⟩
  · rw [eq_of_mem_ite_singleton h]
    exact ⟨_, updateMovement_widthLine _ m⟩
  · rw [eq_of_mem_ite_singleton h]
    exact ⟨_, updateMovement_heightLine _ m⟩
  · rw [eq_of_mem_ite_singleton h]
    exact ⟨_, updateMovement_accelLine _ m⟩
  · rw [eq_of_mem_ite_singleton h]
    exact ⟨_, updateMovement_fanLine _ m⟩
  · rw [eq_of_mem_ite_singleton h]
    obtain ⟨r, hr, -⟩ := updateMovement_speedLine current.speed.toInt m
    exact ⟨r, hr⟩

/-- Every line of `interpretBwdMovement` is read without an exception. -/
theorem updateMovement_interpret_isSome {current previous next : movement} {l : Line}
    (h : l ∈ interpretBwdMovement current previous next) (m : movement) :
    ∃ r, updateMovement l m = some r := by
  unfold interpretBwdMovement at h
  rw [List.mem_append] at h
  rcases h with h | h
  · exact updateMovement_changeLines_isSome h m
  · have hl : motionLine current previous = some l := by
      cases hm : motionLine current previous with
      | none => rw [hm] at h; exact absurd h (List.not_mem_nil l)
      | some x =>
        rw [hm] at h
        simp only [Option.toList, List.mem_singleton] at h
        rw [h]
    obtain ⟨n, hn⟩ := sscanfG_motionLine hl
    obtain ⟨r, hr, -⟩ := updateMovement_G_frame hn m
    exact ⟨r, hr⟩

/-- Every line of the walk is read without an exception. -/
theorem updateMovement_reverseWalk_isSome (r : List movement) :
    ∀ (next : movement) (l : Line), l ∈ reverseWalk r next →
      ∀ m, ∃ res, updateMovement l m = some res := by
  induction r with
  | nil => intro next l h; exact absurd h (List.not_mem_nil l)
  | cons c rest ih =>
    intro next l h m
    cases rest with
    | nil => exact absurd h (List.not_mem_nil l)
    | cons p rest =>
      rw [reverseWalk_cons_cons, List.mem_append] at h
      rcases h with h | h
      · exact updateMovement_interpret_isSome h m
      · exact ih c l h m

/-- Lines that are read without an exception can be replayed. -/
theorem replay_isSome (ls : List Line) :
    (∀ l ∈ ls, ∀ m, ∃ r, updateMovement l m = some r) → ∀ m, ∃ m', replay ls m = some m' := by
  induction ls with
  | nil => intro _ m; exact ⟨m, rfl⟩
  | cons l ls ih =>
    intro h m
    obtain ⟨r, hr⟩ := h l (List.mem_cons_self _ _) m
    obtain ⟨m', hm'⟩ := ih (fun x hx => h x (List.mem_cons_of_mem _ hx)) r.2
    exact ⟨m', by rw [replay_cons, hr, Option.some_bind, hm']⟩

/-- The closing line, letter by letter. -/
theorem closingLine_eq (L : movement) :
    closingLine L
      = "G1 ".toList ++ 'X' :: ' ' :: (fmtFixed 3 L.endPos.1
        ++ ' ' :: 'Y' :: ' ' :: (fmtFixed 3 L.endPos.2.1
        ++ ' ' :: 'Z' :: ' ' :: (fmtFixed 3 L.endPos.2.2
        ++ ' ' :: 'F' :: ' ' :: fmtInt L.speed.toInt))) := by
  unfold closingLine
  simp only [List.append_assoc]
  rfl

/-- Reading the closing line: it sets the position to the position of the
last entry rounded to 3 decimals and the feed rate to its feed rate cast to
`int`, and leaves the acceleration. -/
theorem updateMovement_closingLine (L m : movement) :
    ∃ r, updateMovement (closingLine L) m = some r
      ∧ r.2.endPos = (Dec.roundTo 3 L.endPos.1, Dec.roundTo 3 L.endPos.2.1,
          Dec.roundTo 3 L.endPos.2.2)
      ∧ r.2.speed = ⟨L.speed.toInt, 0⟩
      ∧ r.2.acceleration = m.acceleration ∧ r.2.fanSpeed = m.fanSpeed := by
  have hs : sscanfG (closingLine L) = some 1 := by rw [closingLine_eq]; rfl
  have hg : gcodeOfNum 1 = some GCodeType.G1 := rfl
  have hN : ∀ (c : Char), isNumChar c = false → ∀ p x, c ∉ fmtFixed p x :=
    fun c hc p x => not_mem_fmtFixed hc p x
  have hsp : ∀ (t : Line) (c : Char) (u : Line), ' ' :: t = c :: u → c = ' ' := by
    intro t c u h
    exact (List.cons.inj h).1.symm
  have hX : getParam (closingLine L) 'X' = some (Dec.roundTo 3 L.endPos.1) := by
    rw [closingLine_eq, getParam_at (by decide), stod, strtod_space,
      strtod_fmtFixed 3 (by norm_num) _ _ (hsp _)]
  have hY : getParam (closingLine L) 'Y' = some (Dec.roundTo 3 L.endPos.2.1) := by
    rw [closingLine_eq]
    rw [show "G1 ".toList ++ 'X' :: ' ' :: (fmtFixed 3 L.endPos.1
        ++ ' ' :: 'Y' :: ' ' :: (fmtFixed 3 L.endPos.2.1
        ++ ' ' :: 'Z' :: ' ' :: (fmtFixed 3 L.endPos.2.2
        ++ ' ' :: 'F' :: ' ' :: fmtInt L.speed.toInt)))
        = ("G1 X ".toList ++ fmtFixed 3 L.endPos.1 ++ [' '])
          ++ 'Y' :: (' ' :: (fmtFixed 3 L.endPos.2.1
            ++ ' ' :: 'Z' :: ' ' :: (fmtFixed 3 L.endPos.2.2
            ++ ' ' :: 'F' :: ' ' :: fmtInt L.speed.toInt))) by
      simp only [List.append_assoc]; rfl]
    rw [getParam_at, stod, strtod_space, strtod_fmtFixed 3 (by norm_num) _ _ (hsp _)]
    simp only [List.mem_append, not_or]
    exact ⟨⟨by decide, hN 'Y' rfl _ _⟩, by decide⟩
  have hZ : getParam (closingLine L) 'Z' = some (Dec.roundTo 3 L.endPos.2.2) := by
    rw [closingLine_eq]
    rw [show "G1 ".toList ++ 'X' :: ' ' :: (fmtFixed 3 L.endPos.1
        ++ ' ' :: 'Y' :: ' ' :: (fmtFixed 3 L.endPos.2.1
        ++ ' ' :: 'Z' :: ' ' :: (fmtFixed 3 L.endPos.2.2
        ++ ' ' :: 'F' :: ' ' :: fmtInt L.speed.toInt)))
        = ("G1 X ".toList ++ fmtFixed 3 L.endPos.1 ++ " Y ".toList
            ++ fmtFixed 3 L.endPos.2.1 ++ [' '])
          ++ 'Z' :: (' ' :: (fmtFixed 3 L.endPos.2.2
            ++ ' ' :: 'F' :: ' ' :: fmtInt L.speed.toInt)) by
      simp only [List.append_assoc]; rfl]
    rw [getParam_at, stod, strtod_space, strtod_fmtFixed 3 (by norm_num) _ _ (hsp _)]
    simp only [List.mem_append, not_or]
    exact ⟨⟨⟨⟨by decide, hN 'Z' rfl _ _⟩, by decide⟩, hN 'Z' rfl _ _⟩, by decide⟩
  have hF : getParam (closingLine L) 'F' = some ⟨L.speed.toInt, 0⟩ := by
    rw [closingLine_eq]
    rw [show "G1 ".toList ++ 'X' :: ' ' :: (fmtFixed 3 L.endPos.1
        ++ ' ' :: 'Y' :: ' ' :: (fmtFixed 3 L.endPos.2.1
        ++ ' ' :: 'Z' :: ' ' :: (fmtFixed 3 L.endPos.2.2
        ++ ' ' :: 'F' :: ' ' :: fmtInt L.speed.toInt)))
        = ("G1 X ".toList ++ fmtFixed 3 L.endPos.1 ++ " Y ".toList
            ++ fmtFixed 3 L.endPos.2.1 ++ " Z ".toList ++ fmtFixed 3 L.endPos.2.2 ++ [' '])
          ++ 'F' :: (' ' :: fmtInt L.speed.toInt) by
      simp only [List.append_assoc]; rfl]
    rw [getParam_at, stod, strtod_space, strtod_fmtInt]
    simp only [List.mem_append, not_or]
    exact ⟨⟨⟨⟨⟨⟨by decide, hN 'F' rfl _ _⟩, by decide⟩, hN 'F' rfl _ _⟩, by decide⟩,
      hN 'F' rfl _ _⟩, by decide⟩
  obtain ⟨-, -, -, -, f5, f6⟩ := updateParams_frame (closingLine L) { m with type := GCodeType.G1 }
  refine ⟨_, updateMovement_motion m hs hg, ?_, ?_, f5, f6⟩
  · rw [updateParams_endPos, hX, hY, hZ]
    rfl
  · rw [updateParams_speed, hF]
    rfl

/-- The lines of `reverseMovementList`: an opening line, a walk, the closing
line and the acceleration line of the last entry. -/
theorem reverseMovementList_shape {tr : List movement} {last : movement} (hlen : 2 ≤ tr.length)
    (hlast : tr.getLast? = some last) :
    ∃ r n, reverseMovementList tr
      = openingLine last :: (reverseWalk r n ++ [closingLine last, accelLine last]) := by
  obtain ⟨first, w, rfl⟩ := exists_first_last hlen hlast
  by_cases h : last.type = GCodeType.NONE
  · exact ⟨_, _, reverseMovementList_idle first w last h⟩
  · exact ⟨_, _, reverseMovementList_move first w last h⟩

/-- The walk over a list that continues after `cur` with `prev`: the walk up
to `cur`, the lines of `cur`, and the walk from `prev` on. -/
theorem reverseWalk_split (A B : List movement) (cur prev : movement) :
    ∀ next, reverseWalk (A ++ cur :: prev :: B) next
      = reverseWalk (A ++ [cur]) next
        ++ (changeLines cur ((A.getLast?).getD next) ++ (motionLine cur prev).toList)
        ++ reverseWalk (prev :: B) cur := by
  induction A with
  | nil =>
    intro next
    rw [List.nil_append, List.nil_append, reverseWalk_cons_cons, reverseWalk_single,
      List.nil_append]
    rfl
  | cons a A ih =>
    intro next
    rw [getLast?_getD_cons]
    cases A with
    | nil =>
      have e := ih a
      rw [List.nil_append, List.nil_append] at e
      rw [List.cons_append, List.nil_append, reverseWalk_cons_cons, e,
        List.cons_append, List.nil_append, reverseWalk_cons_cons]
      simp only [List.append_assoc]
    | cons x xs =>
      have e := ih a
      have e1 : reverseWalk (a :: (x :: xs) ++ cur :: prev :: B) next
          = interpretBwdMovement a x next ++ reverseWalk (x :: xs ++ cur :: prev :: B) a := rfl
      have e2 : reverseWalk (a :: (x :: xs) ++ [cur]) next
          = interpretBwdMovement a x next ++ reverseWalk (x :: xs ++ [cur]) a := rfl
      rw [e1, e2, e]
      simp only [List.append_assoc]

/-- The entries after the first one of a trace `pre ++ prev :: cur :: post`. -/
theorem mem_tail_of_split {s0 : movement} {ss pre post : List movement} {prev cur : movement}
    (hsplit : s0 :: ss = pre ++ prev :: cur :: post) :
    ∀ s ∈ post.reverse ++ [cur], s ∈ ss := by
  intro s hs
  have hs' : s ∈ cur :: post := by
    rcases List.mem_append.1 hs with h | h
    · exact List.mem_cons_of_mem _ (List.mem_reverse.1 h)
    · rw [List.mem_singleton] at h; rw [h]; exact List.mem_cons_self _ _
  cases pre with
  | nil =>
    rw [List.nil_append] at hsplit
    rw [(List.cons.inj hsplit).2]
    exact hs'
  | cons p pre =>
    rw [List.cons_append] at hsplit
    rw [(List.cons.inj hsplit).2]
    exact List.mem_append_right _ (List.mem_cons_of_mem _ hs')

/-- C18, counterexample: the line `G1 X1 Y0 E0.000001` read in the entry
state of the scenario gives a move that extrudes a millionth; the motion
line synthesized for it is `G1 X0.000 Y0.000 E0.00000`, whose E value is 0
and differs from the extrusionLength of the move, which is not zero. -/
theorem extrusion_preserved_counterexample :
    updateMovement "G1 X1 Y0 E0.000001".toList scenarioEntry = some (true, tinyExtrusionMove)
      ∧ reverseMovementList [scenarioEntry, tinyExtrusionMove, idle tinyExtrusionMove]
        = ["G0 X1.000 Y0.000".toList, "G1 X0.000 Y0.000 E0.00000".toList,
            "G1 X 1.000 Y 0.000 Z 0.000 F 0".toList, "M204 S0".toList]
      ∧ (reverseMovementList [scenarioEntry, tinyExtrusionMove, idle tinyExtrusionMove]).filterMap
          lineE = [⟨0, 5⟩]
      ∧ Dec.ne tinyExtrusionMove.extrusionLength Dec.zero = true
      ∧ Dec.ne ⟨0, 5⟩ tinyExtrusionMove.extrusionLength = true := by
  decide

/-- The instance of `extrusion_preserved` at the trace of the scenario. -/
theorem extrusion_preserved_witness :
    (reverseMovementList (scenarioEntry :: [scenarioMove1, scenarioMove2]
        ++ [idle scenarioMove2])).filterMap lineE
        = (([scenarioMove1, scenarioMove2].reverse.filter
            fun s => Dec.ne s.extrusionLength Dec.zero).map
            fun s => Dec.roundTo 5 s.extrusionLength)
      ∧ lineE (openingLine (idle scenarioMove2)) = none
      ∧ lineE (closingLine (idle scenarioMove2)) = none
      ∧ ((∀ s ∈ [scenarioMove1, scenarioMove2], Dec.fits 5 s.extrusionLength) →
          List.Forall₂ (fun v s => Dec.ne v s.extrusionLength = false)
              ((reverseMovementList (scenarioEntry :: [scenarioMove1, scenarioMove2]
                ++ [idle scenarioMove2])).filterMap lineE)
              ([scenarioMove1, scenarioMove2].reverse.filter
                fun s => Dec.ne s.extrusionLength Dec.zero)
            ∧ (((reverseMovementList (scenarioEntry :: [scenarioMove1, scenarioMove2]
                ++ [idle scenarioMove2])).filterMap lineE).map Dec.toRat).sum
              = ([scenarioMove1, scenarioMove2].map fun s => s.extrusionLength.toRat).sum) :=
  extrusion_preserved scenarioEntry [scenarioMove1, scenarioMove2] (idle scenarioMove2) rfl
    (by decide)

/-- C20, failing input: in the scenario with `M106 S255` between the two
moves of the block, the trace ends with the fan at 255; the synthesized
lines switch the fan to 255 and back to 0 and end with the closing `G1` and
`M204` lines only, so reading them from the entry state leaves the fan at 0. -/
theorem fan_not_restored_at_exit :
    foldTrace fanBlock scenarioEntry = some ([scenarioMove1, fanMove2], fanMove2)
      ∧ transform fanScenario = Outcome.output
          ["; printing object".toList, "G1 X0 Y0".toList, ";TYPE:Perimeter".toList,
            "G0 X1.000 Y1.000".toList, "M106 S255".toList, "G1 X1.000 Y0.000 E1.00000".toList,
            "M106 S0".toList, "G1 X0.000 Y0.000 E1.00000".toList,
            "G1 X 1.000 Y 1.000 Z 0.000 F 0".toList, "M204 S0".toList, ";TYPE:Infill".toList]
      ∧ (replay (reverseMovementList [scenarioEntry, scenarioMove1, fanMove2, idle fanMove2])
          scenarioEntry).map (fun m => m.fanSpeed) = some ⟨0, 0⟩
      ∧ (idle fanMove2).fanSpeed = ⟨255, 0⟩
      ∧ Dec.ne ⟨0, 0⟩ (idle fanMove2).fanSpeed = true := by
  decide

/-! ## Endpoints, exit state, arc offsets and metadata under the printed formats -/

/-- C4 (amended): for every trace with at least two entries whose last entry
has a feed rate and an acceleration whose truncations lie in the range of
`int`, the first line of `reverseMovementList` is `G0 X<x> Y<y>` with the x
and y of the last entry at 3 decimals, the line before the last is a `G1`
that names X, Y and Z of the last entry and `F` with its feed rate truncated
to an integer, and the last line is `M204 S` with its acceleration truncated
to an integer. -/
theorem reverseMovementList_endpoints (tr : List movement) (last : movement) (hlen : 2 ≤ tr.length)
    (hlast : tr.getLast? = some last)
    (hs : last.speed.fitsInt) (ha : last.acceleration.fitsInt) :
    ∃ mid, reverseMovementList tr
      = ("G0 X".toList ++ fmtFixed 3 last.endPos.1 ++ " Y".toList ++ fmtFixed 3 last.endPos.2.1)
        :: (mid ++
          ["G1 X ".toList ++ fmtFixed 3 last.endPos.1
              ++ " Y ".toList ++ fmtFixed 3 last.endPos.2.1
              ++ " Z ".toList ++ fmtFixed 3 last.endPos.2.2
              ++ " F ".toList ++ fmtInt last.speed.trunc,
            "M204 S".toList ++ fmtInt last.acceleration.trunc]) := by
  obtain ⟨r, n, hshape⟩ := reverseMovementList_shape hlen hlast
  refine ⟨reverseWalk r n, ?_⟩
  rw [hshape, openingLine, closingLine, accelLine, Dec.toInt_of_fitsInt hs,
    Dec.toInt_of_fitsInt ha]
  rfl

/-- C4, counterexample: the lines `M204 S3000000000` and
`G1 X1 Y1 E1 F4000000000` read after the first move of the scenario give a
last entry with feed rate 4000000000 and acceleration 3000000000; the closing
lines of `reverseMovementList` are `G1 X 1.000 Y 1.000 Z 0.000 F -2147483648`
and `M204 S-2147483648`, not the truncated feed rate and acceleration. -/
theorem reverseMovementList_endpoints_counterexample :
    foldTrace ["M204 S3000000000".toList, "G1 X1 Y1 E1 F4000000000".toList] scenarioMove1
        = some ([fastMove], fastMove)
      ∧ reverseMovementList [scenarioEntry, scenarioMove1, fastMove, idle fastMove]
        = ["G0 X1.000 Y1.000".toList, "M204 S-2147483648".toList, "G1 F-2147483648".toList,
            "G1 X1.000 Y0.000 E1.00000".toList, "M204 S0".toList, "G1 F0".toList,
            "G1 X0.000 Y0.000 E1.00000".toList,
            "G1 X 1.000 Y 1.000 Z 0.000 F -2147483648".toList, "M204 S-2147483648".toList]
      ∧ (idle fastMove).speed.trunc = 4000000000
      ∧ (idle fastMove).acceleration.trunc = 3000000000
      ∧ fmtInt (idle fastMove).speed.trunc = "4000000000".toList
      ∧ fmtInt (idle fastMove).acceleration.trunc = "3000000000".toList := by
  decide

/-- The instance of `reverseMovementList_endpoints` at a trace whose last
entry is at (1.5, 2.25, 0.2) with feed rate 1200.5 and acceleration 500.9. -/
theorem reverseMovementList_endpoints_witness :
    ∃ mid, reverseMovementList [scenarioEntry, scenarioMove1, fractionalLast]
      = "G0 X1.500 Y2.250".toList
        :: (mid ++ ["G1 X 1.500 Y 2.250 Z 0.200 F 1200".toList, "M204 S500".toList]) :=
  reverseMovementList_endpoints [scenarioEntry, scenarioMove1, fractionalLast] fractionalLast
    (by decide) rfl (by decide) (by decide)

/-- C13 (amended): for every trace with at least 2 entries whose last entry
`L` has an integer-valued feed rate and acceleration in the range of `int`
and a position representable with 3 decimals, reading the lines of
`reverseMovementList`, in order, with `updateMovement` from any starting
state returns a state (no line throws) whose position equals `L.endPos` on
the three axes, whose speed equals `L.speed` and whose acceleration equals
`L.acceleration`. -/
theorem exit_state_restored (tr : List movement) (L m0 : movement) (hlen : 2 ≤ tr.length)
    (hlast : tr.getLast? = some L)
    (hx : Dec.fits 3 L.endPos.1) (hy : Dec.fits 3 L.endPos.2.1) (hz : Dec.fits 3 L.endPos.2.2)
    (hs : Dec.fits 0 L.speed) (ha : Dec.fits 0 L.acceleration)
    (hsr : L.speed.fitsInt) (har : L.acceleration.fitsInt) :
    ∃ mf, replay (reverseMovementList tr) m0 = some mf
      ∧ Dec.ne mf.endPos.1 L.endPos.1 = false
      ∧ Dec.ne mf.endPos.2.1 L.endPos.2.1 = false
      ∧ Dec.ne mf.endPos.2.2 L.endPos.2.2 = false
      ∧ Dec.ne mf.speed L.speed = false
      ∧ Dec.ne mf.acceleration L.acceleration = false := by
  obtain ⟨r, n, hshape⟩ := reverseMovementList_shape hlen hlast
  have hpre : ∀ l ∈ openingLine L :: reverseWalk r n, ∀ m, ∃ res, updateMovement l m = some res := by
    intro l hl m
    rcases List.mem_cons.1 hl with rfl | hl
    · obtain ⟨res, hres, -⟩ := updateMovement_G_frame (show sscanfG (openingLine L) = some 0 from rfl) m
      exact ⟨res, hres⟩
    · exact updateMovement_reverseWalk_isSome r n l hl m
  obtain ⟨m1, hm1⟩ := replay_isSome _ hpre m0
  obtain ⟨rc, hrc, hpos, hspeed, -, -⟩ := updateMovement_closingLine L m1
  refine ⟨{ rc.2 with acceleration := ⟨L.acceleration.toInt, 0⟩ }, ?_, ?_, ?_, ?_, ?_, ?_⟩
  · rw [hshape, ← List.cons_append, replay_append, hm1, Option.some_bind, replay_cons, hrc,
      Option.some_bind, replay_singleton, accelLine, updateMovement_accelLine]
    rfl
  · show Dec.ne rc.2.endPos.1 L.endPos.1 = false
    rw [hpos]; exact Dec.ne_roundTo_of_fits hx
  · show Dec.ne rc.2.endPos.2.1 L.endPos.2.1 = false
    rw [hpos]; exact Dec.ne_roundTo_of_fits hy
  · show Dec.ne rc.2.endPos.2.2 L.endPos.2.2 = false
    rw [hpos]; exact Dec.ne_roundTo_of_fits hz
  · show Dec.ne rc.2.speed L.speed = false
    rw [hspeed]; exact Dec.ne_toInt_of_fits hs hsr
  · exact Dec.ne_toInt_of_fits ha har

/-- C13, counterexample: the trace that ends with a move at feed rate
4000000000 and acceleration 3000000000 (integer-valued) and the idle entry
after it, at the position (1, 1, 0): reading the lines of
`reverseMovementList` from the default state ends with the speed and the
acceleration -2147483648, which differ from those of the last entry. -/
theorem exit_state_restored_counterexample :
    2 ≤ [scenarioEntry, scenarioMove1, fastMove, idle fastMove].length
      ∧ Dec.fits 3 (idle fastMove).endPos.1 ∧ Dec.fits 3 (idle fastMove).endPos.2.1
      ∧ Dec.fits 3 (idle fastMove).endPos.2.2
      ∧ Dec.fits 0 (idle fastMove).speed ∧ Dec.fits 0 (idle fastMove).acceleration
      ∧ (replay (reverseMovementList [scenarioEntry, scenarioMove1, fastMove, idle fastMove])
          {}).map (fun m => (m.speed, m.acceleration))
        = some (⟨-2147483648, 0⟩, ⟨-2147483648, 0⟩)
      ∧ Dec.ne ⟨-2147483648, 0⟩ (idle fastMove).speed = true
      ∧ Dec.ne ⟨-2147483648, 0⟩ (idle fastMove).acceleration = true := by
  decide

/-- The instance of `exit_state_restored` at a trace that ends with a move
to (1.5, 2.25, 0.2) with feed rate 1200 and acceleration 500 and the idle
entry after it, replayed from the default state. -/
theorem exit_state_restored_witness :
    ∃ mf, replay (reverseMovementList [scenarioEntry, scenarioMove1, exitMove, idle exitMove]) {}
        = some mf
      ∧ Dec.ne mf.endPos.1 (idle exitMove).endPos.1 = false
      ∧ Dec.ne mf.endPos.2.1 (idle exitMove).endPos.2.1 = false
      ∧ Dec.ne mf.endPos.2.2 (idle exitMove).endPos.2.2 = false
      ∧ Dec.ne mf.speed (idle exitMove).speed = false
      ∧ Dec.ne mf.acceleration (idle exitMove).acceleration = false :=
  exit_state_restored [scenarioEntry, scenarioMove1, exitMove, idle exitMove] (idle exitMove) {}
    (by decide) rfl (by decide) (by decide) (by decide) (by decide) (by decide) (by decide)
    (by decide)

/-- C19 (amended): for every trace s0..sn followed by an idle sentinel whose
entries s1..sn have a lineWidth and a lineHeight representable with 6
decimals and an acceleration, a fanSpeed and a speed whose truncations lie
in the range of `int`, and every entry `cur` = s_k (k = n..1) with its
predecessor `prev` = s_(k-1): the output of `reverseMovementList` is
`before`, then the motion line synthesized for s_k, then `after`, where
`before` is the opening line, the lines synthesized for s_n..s_(k+1) and the
state-change lines of s_k; and reading `before` with `updateMovement` from s0
returns a state whose lineWidth and lineHeight equal those of s_k and whose
acceleration, fanSpeed and speed equal those of s_k after truncation to an
integer. -/
theorem metadata_in_effect (s0 : movement) (ss : List movement) (sentinel : movement)
    (hsent : sentinel.type = GCodeType.NONE)
    (hfits : ∀ s ∈ ss, Dec.fits 6 s.lineWidth ∧ Dec.fits 6 s.lineHeight
      ∧ s.acceleration.fitsInt ∧ s.fanSpeed.fitsInt ∧ s.speed.fitsInt)
    (pre post : List movement) (prev cur : movement)
    (hsplit : s0 :: ss = pre ++ prev :: cur :: post) :
    ∃ before after m,
      before = openingLine sentinel
        :: (reverseWalk (post.reverse ++ [cur]) { s0 with endPos := sentinel.endPos }
          ++ changeLines cur ((post.reverse.getLast?).getD { s0 with endPos := sentinel.endPos }))
      ∧ reverseMovementList (s0 :: ss ++ [sentinel])
          = before ++ (motionLine cur prev).toList ++ after
      ∧ replay before s0 = some m
      ∧ Dec.ne m.lineWidth cur.lineWidth = false
      ∧ Dec.ne m.lineHeight cur.lineHeight = false
      ∧ m.acceleration.trunc = cur.acceleration.trunc
      ∧ m.fanSpeed.trunc = cur.fanSpeed.trunc
      ∧ m.speed.trunc = cur.speed.trunc := by
  have hrev : (s0 :: ss).reverse = post.reverse ++ cur :: prev :: pre.reverse := by
    rw [hsplit]
    simp
  have hall : ∀ s ∈ post.reverse ++ [cur], metaPrintable s :=
    fun s hs => hfits s (mem_tail_of_split hsplit s hs)
  have h0 : metaMatch s0 { s0 with endPos := sentinel.endPos } := metaMatch_refl s0
  obtain ⟨m1, r1, hm1⟩ := metaMatch_openingLine sentinel h0
  obtain ⟨m2, r2, hm2⟩ := metaMatch_reverseWalk post.reverse _ m1 cur hm1 hall
  refine ⟨_, reverseWalk (prev :: pre.reverse) cur ++ [closingLine sentinel, accelLine sentinel],
    m2, rfl, ?_, ?_, hm2⟩
  · rw [reverseMovementList_idle s0 ss sentinel hsent, hrev, reverseWalk_split]
    simp only [List.cons_append, List.append_assoc]
  · have e : ∀ (x : Line) (xs : List Line), x :: xs = [x] ++ xs := fun _ _ => rfl
    rw [e, replay_append, r1, Option.some_bind, r2]

/-- C19, counterexample: the lines `;WIDTH:0.4500004` and `G1 X1 Y0 E1` read
in the entry state of the scenario give a move with lineWidth 0.4500004; the
output for it is the opening line, `;WIDTH:0.450000` and the motion line
`G1 X0.000 Y0.000 E1.00000`, and the width set by the lines before that
motion line is 0.45, which differs from the lineWidth of the move.  And for
the move with acceleration 3000000000 and feed rate 4000000000 the lines
before its motion line are the opening line, `M204 S-2147483648` and
`G1 F-2147483648`: the acceleration and the feed rate they set are
-2147483648, not those of the move truncated to an integer. -/
theorem metadata_in_effect_counterexample :
    foldTrace [";WIDTH:0.4500004".toList, "G1 X1 Y0 E1".toList] scenarioEntry
        = some ([fineWidthMove], fineWidthMove)
      ∧ reverseMovementList [scenarioEntry, fineWidthMove, idle fineWidthMove]
        = ["G0 X1.000 Y0.000".toList, ";WIDTH:0.450000".toList]
          ++ "G1 X0.000 Y0.000 E1.00000".toList
          :: ["G1 X 1.000 Y 0.000 Z 0.000 F 0".toList, "M204 S0".toList]
      ∧ motionLine fineWidthMove scenarioEntry = some "G1 X0.000 Y0.000 E1.00000".toList
      ∧ (replay ["G0 X1.000 Y0.000".toList, ";WIDTH:0.450000".toList] scenarioEntry).map
          (fun m => m.lineWidth) = some ⟨450000, 6⟩
      ∧ Dec.ne ⟨450000, 6⟩ fineWidthMove.lineWidth = true
      ∧ reverseMovementList [scenarioEntry, fastMove, idle fastMove]
        = ["G0 X1.000 Y1.000".toList, "M204 S-2147483648".toList, "G1 F-2147483648".toList]
          ++ "G1 X0.000 Y0.000 E1.00000".toList
          :: ["G1 X 1.000 Y 1.000 Z 0.000 F -2147483648".toList, "M204 S-2147483648".toList]
      ∧ motionLine fastMove scenarioEntry = some "G1 X0.000 Y0.000 E1.00000".toList
      ∧ (replay ["G0 X1.000 Y1.000".toList, "M204 S-2147483648".toList,
            "G1 F-2147483648".toList] scenarioEntry).map
          (fun m => (m.acceleration.trunc, m.speed.trunc)) = some (-2147483648, -2147483648)
      ∧ fastMove.acceleration.trunc = 3000000000
      ∧ fastMove.speed.trunc = 4000000000 := by
  decide

/-- The instance of `metadata_in_effect` at the trace that ends with a move
at feed rate 1200 and acceleration 500, for the motion line of that move. -/
theorem metadata_in_effect_witness :
    ∃ before after m,
      before = openingLine (idle exitMove)
        :: (reverseWalk (([] : List movement).reverse ++ [exitMove])
              { scenarioEntry with endPos := (idle exitMove).endPos }
          ++ changeLines exitMove ((([] : List movement).reverse.getLast?).getD
              { scenarioEntry with endPos := (idle exitMove).endPos }))
      ∧ reverseMovementList (scenarioEntry :: [scenarioMove1, exitMove] ++ [idle exitMove])
          = before ++ (motionLine exitMove scenarioMove1).toList ++ after
      ∧ replay before scenarioEntry = some m
      ∧ Dec.ne m.lineWidth exitMove.lineWidth = false
      ∧ Dec.ne m.lineHeight exitMove.lineHeight = false
      ∧ m.acceleration.trunc = exitMove.acceleration.trunc
      ∧ m.fanSpeed.trunc = exitMove.fanSpeed.trunc
      ∧ m.speed.trunc = exitMove.speed.trunc :=
  metadata_in_effect scenarioEntry [scenarioMove1, exitMove] (idle exitMove) rfl (by decide)
    [scenarioEntry] [] scenarioMove1 exitMove rfl

end ReverseGcode
